import Mathlib

/-!
Verification of the slot-based team optimizer core.

This file gives a shallow embedding, in Lean 4, of the slot-based assignment
representation and optimization engine of the team-optimizer library, and
proves (or refutes) the stated properties of that code.

Modelling conventions:
* JavaScript strings are embedded as `List Char` (`Role`), JavaScript numbers
  as `ℚ` (exact arithmetic).  Where IEEE-754 special values (NaN, ±Infinity)
  are the point of a property, a dedicated `JSNum` type models them.
* `Math.random()`-driven choices are embedded as explicit choice parameters
  (an index draw is reduced modulo the length of the list it indexes, which
  reaches exactly the values `Math.floor(Math.random() * len)` reaches);
  theorems quantify over all choices.
* JavaScript `Array.prototype.sort` with a randomized (inconsistent)
  comparator returns an unspecified permutation; such sorts are embedded as a
  caller-supplied `reorder` function together with the hypothesis that it
  permutes its input.  Deterministic sorts are embedded with `mergeSort`.
* `Math.sqrt`, `Math.exp` and `Math.pow` are embedded as opaque-to-the-model
  function parameters (`sqrtA`, `expA`, `powA`); no property proved here
  depends on their values.
-/

namespace TeamOptimizer

/-- A role (position) code; JavaScript strings are modelled as `List Char`. -/
abbrev Role := List Char

/-- One slot of a group: a candidate reference plus the role it occupies.
Source: the `{playerId, position}` shape of teamSlotUtils.js. -/
structure Slot where
  playerId : Nat
  position : Role
deriving DecidableEq, Repr

instance : Inhabited Slot := ⟨⟨0, []⟩⟩

/-- Association-list lookup modelling JavaScript object property access
(`obj[key]`, `undefined` when absent).  Object keys are unique, so first
match is the binding. -/
def lookup? {α : Type} (m : List (Role × α)) (k : Role) : Option α :=
  (m.find? (fun e => decide (e.1 = k))).map (·.2)

/-- Weight lookup `positionWeights[pos] || 1.0`: a missing weight and the
(falsy) weight `0` both give `1.0`. -/
def weightOr1 (w : List (Role × ℚ)) (pos : Role) : ℚ :=
  match lookup? w pos with
  | some v => if v = 0 then 1 else v
  | none => 1

/-- A candidate record as stored in the pool (PlayerPool.js): identifier,
eligible roles, and an optional per-role rating object. -/
structure Player where
  id : Nat
  positions : List Role
  ratings : Option (List (Role × ℚ))
deriving DecidableEq, Repr

/-- The candidate pool: a `Map` from id to record plus the secondary index
from role to eligible ids (PlayerPool.js fields `players` and
`playersByPosition`). -/
structure PlayerPool where
  players : List (Nat × Player)
  playersByPosition : List (Role × List Nat)
deriving DecidableEq, Repr

/-- `Map.set` semantics: overwrite in place if the key exists, else append. -/
def mapSet (m : List (Nat × Player)) (k : Nat) (v : Player) : List (Nat × Player) :=
  if m.any (fun e => decide (e.1 = k)) then
    m.map (fun e => if e.1 = k then (k, v) else e)
  else
    m ++ [(k, v)]

/-- One step of position indexing in `PlayerPool.addPlayer`: create the
bucket if missing, then push the id unless already included. -/
def indexAdd (idx : List (Role × List Nat)) (pos : Role) (pid : Nat) :
    List (Role × List Nat) :=
  let idx' := if (idx.find? (fun e => decide (e.1 = pos))).isSome then idx
              else idx ++ [(pos, [])]
  idx'.map (fun e =>
    if e.1 = pos then (e.1, if e.2.contains pid then e.2 else e.2 ++ [pid]) else e)

/-- `PlayerPool.addPlayer` (after its id check): store the record and index
it under each of its eligible roles. -/
def addPlayer (pool : PlayerPool) (p : Player) : PlayerPool :=
  { players := mapSet pool.players p.id p
    playersByPosition := p.positions.foldl (fun idx pos => indexAdd idx pos p.id)
      pool.playersByPosition }

/-- The `PlayerPool` constructor: add every candidate, failing (the JS code
throws) on a record with a falsy id. -/
def buildPool (ps : List Player) : Except (List Char) PlayerPool :=
  ps.foldlM (fun pool p =>
    if p.id = 0 then Except.error ('P' :: "layer must have an id".toList)
    else Except.ok (addPlayer pool p)) ⟨[], []⟩

/-- `PlayerPool.getPlayer`. -/
def getPlayer (pool : PlayerPool) (pid : Nat) : Option Player :=
  (pool.players.find? (fun e => decide (e.1 = pid))).map (·.2)

/-- `PlayerPool.getPlayerIdsForPosition` (empty list when the role is not
indexed). -/
def getPlayerIdsForPosition (pool : PlayerPool) (pos : Role) : List Nat :=
  (lookup? pool.playersByPosition pos).getD []

/-- `PlayerPool.getPlayerRating`: `player.ratings?.[position] || 1500` — the
candidate may be absent, have no ratings object, no binding for the role, or
a falsy (zero) stored rating; each of those yields the 1500 default. -/
def getPlayerRating (pool : PlayerPool) (pid : Nat) (pos : Role) : ℚ :=
  match getPlayer pool pid with
  | none => 1500
  | some player =>
    match player.ratings with
    | none => 1500
    | some rts =>
      match lookup? rts pos with
      | none => 1500
      | some v => if v = 0 then 1500 else v

/-- The rating explicitly stored for a candidate at a role, when there is
one.  This is the spec's notion of "explicitly stored rating", used to state
the default-rating property. -/
def storedRating (pool : PlayerPool) (pid : Nat) (pos : Role) : Option ℚ :=
  match getPlayer pool pid with
  | none => none
  | some player =>
    match player.ratings with
    | none => none
    | some rts => lookup? rts pos

/-! ## Slot assignment operations (teamSlotUtils.js) -/

/-- `cloneSlotTeams`: fresh group arrays of fresh `{playerId, position}`
slots with identical values. -/
def cloneSlotTeams (teams : List (List Slot)) : List (List Slot) :=
  teams.map (fun team => team.map (fun slot => ⟨slot.playerId, slot.position⟩))

/-- The candidate ids of an assignment in visit order (outer loop over
groups, inner loop over slots). -/
def allIds (teams : List (List Slot)) : List Nat :=
  teams.flatMap (fun team => team.map (·.playerId))

/-- The running-set pass of `hasDuplicatePlayerIds`. -/
def seenScan (seen : List Nat) : List Nat → Bool
  | [] => false
  | x :: xs => if seen.contains x then true else seenScan (x :: seen) xs

/-- `hasDuplicatePlayerIds`: single pass over all slots (in group order)
with a running seen-set, true at the first repeated candidate id. -/
def hasDuplicatePlayerIds (teams : List (List Slot)) : Bool :=
  seenScan [] (allIds teams)

/-- `getUsedPlayerIds`: the set of candidate ids appearing in any slot. -/
def getUsedPlayerIds (teams : List (List Slot)) : Finset Nat :=
  (allIds teams).toFinset

/-- Result shape of the slot-based composition validators; an error is the
structured content `(role, expected, actual)` of the message
`Position P: expected R, got A`. -/
structure SlotCompositionCheck where
  isValid : Bool
  errors : List (Role × Nat × Nat)
deriving DecidableEq, Repr

/-- `validateSlotTeamComposition`: count the group's slots per role, then
flag every composition role whose actual count differs from the required
count.  (Roles present in the group but absent from the composition are not
examined.) -/
def validateSlotTeamComposition (team : List Slot) (comp : List (Role × Nat)) :
    SlotCompositionCheck :=
  let errors := comp.foldl (fun errs e =>
    let actual := team.countP (fun s => decide (s.position = e.1))
    if actual ≠ e.2 then errs ++ [(e.1, e.2, actual)] else errs) []
  ⟨errors.isEmpty, errors⟩

/-- Aggregated result of `validateAllSlotTeamsComposition`; each error is
tagged with its group index. -/
structure TeamsCompositionCheck where
  isValid : Bool
  errors : List (Nat × Role × Nat × Nat)
deriving DecidableEq, Repr

/-- `validateAllSlotTeamsComposition`: apply the per-group validator to each
group, collecting errors tagged with the group index. -/
def validateAllSlotTeamsComposition (teams : List (List Slot))
    (comp : List (Role × Nat)) : TeamsCompositionCheck :=
  let allErrors := teams.enum.flatMap (fun e =>
    (validateSlotTeamComposition e.2 comp).errors.map (fun err => (e.1, err)))
  ⟨allErrors.isEmpty, allErrors⟩

/-- `findSlotsByPosition`: the indices of a group's slots at a role, in
order. -/
def findSlotsByPosition (team : List Slot) (pos : Role) : List Nat :=
  team.enum.filterMap (fun e => if e.2.position = pos then some e.1 else none)

/-- `swapSlots`: exchange the slot values at `(t1, i1)` and `(t2, i2)` in
place (modelled functionally; both reads happen before either write, and the
second write applies to the once-updated state, matching the aliasing
behaviour when `t1 = t2`). -/
def swapSlots (teams : List (List Slot)) (t1 i1 t2 i2 : Nat) : List (List Slot) :=
  let a := (teams.getD t1 []).getD i1 default
  let b := (teams.getD t2 []).getD i2 default
  let teams1 := teams.set t1 ((teams.getD t1 []).set i1 b)
  teams1.set t2 ((teams1.getD t2 []).set i2 a)

/-- The multiset of all slots of an assignment (verification-side view:
swaps permute exactly this). -/
def slotsM (teams : List (List Slot)) : Multiset Slot :=
  (teams.map (fun team => Multiset.ofList team)).sum

/-- Whether `(t, i)` addresses an existing slot. -/
def slotInRange (teams : List (List Slot)) (t i : Nat) : Prop :=
  t < teams.length ∧ i < (teams.getD t []).length

instance (teams : List (List Slot)) (t i : Nat) : Decidable (slotInRange teams t i) :=
  inferInstanceAs (Decidable (_ ∧ _))

/-- A sequence of `swapSlots` calls, each given as
`(groupA, slotIndexA, groupB, slotIndexB)`. -/
def applySwapSeq (swaps : List (Nat × Nat × Nat × Nat)) (teams : List (List Slot)) :
    List (List Slot) :=
  swaps.foldl (fun ts s => swapSlots ts s.1 s.2.1 s.2.2.1 s.2.2.2) teams

/-- The number of slots of group `t` that carry role `pos`. -/
def countRole (teams : List (List Slot)) (t : Nat) (pos : Role) : Nat :=
  (teams.getD t []).countP (fun s => decide (s.position = pos))

/-! ## Scoring (slotEvaluationUtils.js), exact-arithmetic embedding -/

/-- `calculateSlotTeamStrength`: accumulate `rating × weight` over the
group's slots (a weighted total). -/
def calculateSlotTeamStrength (team : List Slot) (pool : PlayerPool)
    (w : List (Role × ℚ)) : ℚ :=
  team.foldl (fun totalStrength slot =>
    totalStrength +
      getPlayerRating pool slot.playerId slot.position * weightOr1 w slot.position) 0

/-- The spec's claimed per-group strength: the weighted rating total divided
by the total of the slots' role weights (a role-weighted mean rating).
Stated from the specification for comparison with
`calculateSlotTeamStrength`. -/
def specGroupWeightedMeanRating (team : List Slot) (pool : PlayerPool)
    (w : List (Role × ℚ)) : ℚ :=
  (team.map (fun slot =>
      getPlayerRating pool slot.playerId slot.position * weightOr1 w slot.position)).sum
    / (team.map (fun slot => weightOr1 w slot.position)).sum

/-- Result shape of `calculateSlotTeamBalance`. -/
structure SlotTeamBalance where
  teamStrengths : List ℚ
  average : ℚ
  standardDeviation : ℚ
  difference : ℚ
  maxStrength : ℚ
  minStrength : ℚ
deriving DecidableEq, Repr

/-- `calculateSlotTeamBalance` over exact arithmetic (`sqrtA` stands for
`Math.sqrt`; the IEEE behaviour on an empty team list is modelled separately
by `calculateSlotTeamBalanceJS`). -/
def calculateSlotTeamBalance (sqrtA : ℚ → ℚ) (teams : List (List Slot))
    (pool : PlayerPool) (w : List (Role × ℚ)) : SlotTeamBalance :=
  let teamStrengths := teams.map (fun team => calculateSlotTeamStrength team pool w)
  let average := (teamStrengths.foldl (· + ·) 0) / (teamStrengths.length : ℚ)
  let variance :=
    ((teamStrengths.map (fun s => (s - average) ^ 2)).foldl (· + ·) 0)
      / (teamStrengths.length : ℚ)
  { teamStrengths := teamStrengths
    average := average
    standardDeviation := sqrtA variance
    difference := (teamStrengths.max?.getD 0) - (teamStrengths.min?.getD 0)
    maxStrength := teamStrengths.max?.getD 0
    minStrength := teamStrengths.min?.getD 0 }

/-- `evaluateSlotSolution` over exact arithmetic: standard deviation times
the variance weight, plus the max−min strength difference (lower is
better).  Every algorithm call site leaves `params` defaulted, so
`varianceWeight = 0.5`. -/
def evaluateSlotSolution (sqrtA : ℚ → ℚ) (teams : List (List Slot))
    (pool : PlayerPool) (w : List (Role × ℚ)) (varianceWeight : ℚ) : ℚ :=
  let balance := calculateSlotTeamBalance sqrtA teams pool w
  balance.standardDeviation * varianceWeight + balance.difference

/-! ## JavaScript number model with IEEE-754 special values

Used where the behaviour on degenerate input (division `0/0`,
`Math.max()` with no arguments) is itself the property under scrutiny. -/

/-- A JavaScript number: NaN, ±Infinity, or a finite value (embedded as an
exact rational). -/
inductive JSNum where
  | nan : JSNum
  | posInf : JSNum
  | negInf : JSNum
  | fin : ℚ → JSNum
deriving DecidableEq, Repr

namespace JSNum

/-- IEEE negation. -/
def neg : JSNum → JSNum
  | nan => nan
  | posInf => negInf
  | negInf => posInf
  | fin q => fin (-q)

/-- IEEE addition: NaN is absorbing and opposite infinities give NaN. -/
def add : JSNum → JSNum → JSNum
  | nan, _ => nan
  | _, nan => nan
  | posInf, negInf => nan
  | negInf, posInf => nan
  | posInf, _ => posInf
  | _, posInf => posInf
  | negInf, _ => negInf
  | _, negInf => negInf
  | fin a, fin b => fin (a + b)

/-- IEEE subtraction, `a - b = a + (-b)`. -/
def sub (a b : JSNum) : JSNum := add a (neg b)

/-- IEEE multiplication: NaN absorbing, `±∞ × 0 = NaN`, otherwise signed. -/
def mul : JSNum → JSNum → JSNum
  | nan, _ => nan
  | _, nan => nan
  | posInf, posInf => posInf
  | posInf, negInf => negInf
  | negInf, posInf => negInf
  | negInf, negInf => posInf
  | posInf, fin q => if q = 0 then nan else if 0 < q then posInf else negInf
  | fin q, posInf => if q = 0 then nan else if 0 < q then posInf else negInf
  | negInf, fin q => if q = 0 then nan else if 0 < q then negInf else posInf
  | fin q, negInf => if q = 0 then nan else if 0 < q then negInf else posInf
  | fin a, fin b => fin (a * b)

/-- IEEE division (as far as JS sees it; `-0` is conflated with `0`):
`0/0 = NaN`, nonzero finite `/0 = ±∞`, `∞/∞ = NaN`, finite `/∞ = 0`. -/
def div : JSNum → JSNum → JSNum
  | nan, _ => nan
  | _, nan => nan
  | posInf, posInf => nan
  | posInf, negInf => nan
  | negInf, posInf => nan
  | negInf, negInf => nan
  | posInf, fin q => if 0 ≤ q then posInf else negInf
  | negInf, fin q => if 0 ≤ q then negInf else posInf
  | fin _, posInf => fin 0
  | fin _, negInf => fin 0
  | fin a, fin b =>
    if b = 0 then (if a = 0 then nan else if 0 < a then posInf else negInf)
    else fin (a / b)

/-- The JS `<` comparison: any comparison involving NaN is false. -/
def lt : JSNum → JSNum → Bool
  | nan, _ => false
  | _, nan => false
  | negInf, negInf => false
  | negInf, _ => true
  | _, negInf => false
  | posInf, _ => false
  | _, posInf => true
  | fin a, fin b => decide (a < b)

/-- `Math.max` of two values (NaN propagates). -/
def maxJ : JSNum → JSNum → JSNum
  | nan, _ => nan
  | _, nan => nan
  | posInf, _ => posInf
  | _, posInf => posInf
  | negInf, b => b
  | a, negInf => a
  | fin a, fin b => fin (max a b)

/-- `Math.min` of two values (NaN propagates). -/
def minJ : JSNum → JSNum → JSNum
  | nan, _ => nan
  | _, nan => nan
  | negInf, _ => negInf
  | _, negInf => negInf
  | posInf, b => b
  | a, posInf => a
  | fin a, fin b => fin (min a b)

/-- `Math.sqrt` over the model: NaN on NaN or negatives, `+∞` at `+∞`; on a
nonnegative finite input the (irrational-valued) result is supplied by the
parameter `sqrtA`. -/
def sqrtJ (sqrtA : ℚ → ℚ) : JSNum → JSNum
  | nan => nan
  | negInf => nan
  | posInf => posInf
  | fin q => if q < 0 then nan else fin (sqrtA q)

end JSNum

/-- `calculateSlotTeamStrength`, IEEE-level: the same accumulation as the
exact embedding but over `JSNum`. -/
def calculateSlotTeamStrengthJS (team : List Slot) (pool : PlayerPool)
    (w : List (Role × ℚ)) : JSNum :=
  team.foldl (fun totalStrength slot =>
    totalStrength.add ((JSNum.fin (getPlayerRating pool slot.playerId slot.position)).mul
      (JSNum.fin (weightOr1 w slot.position)))) (JSNum.fin 0)

/-- Result shape of the IEEE-level `calculateSlotTeamBalance`. -/
structure SlotTeamBalanceJS where
  teamStrengths : List JSNum
  average : JSNum
  standardDeviation : JSNum
  difference : JSNum
  maxStrength : JSNum
  minStrength : JSNum
deriving DecidableEq, Repr

/-- `calculateSlotTeamBalance`, IEEE-level: reduces with initial value `0`
then divides by the group count (`0/0 = NaN` when there are no groups);
`Math.max(...[])` is `-∞`, `Math.min(...[])` is `+∞`. -/
def calculateSlotTeamBalanceJS (sqrtA : ℚ → ℚ) (teams : List (List Slot))
    (pool : PlayerPool) (w : List (Role × ℚ)) : SlotTeamBalanceJS :=
  let teamStrengths := teams.map (fun team => calculateSlotTeamStrengthJS team pool w)
  let average := (teamStrengths.foldl JSNum.add (JSNum.fin 0)).div
    (JSNum.fin (teamStrengths.length : ℚ))
  let variance := ((teamStrengths.map (fun s => (s.sub average).mul (s.sub average))).foldl
      JSNum.add (JSNum.fin 0)).div (JSNum.fin (teamStrengths.length : ℚ))
  let maxStrength := teamStrengths.foldl JSNum.maxJ JSNum.negInf
  let minStrength := teamStrengths.foldl JSNum.minJ JSNum.posInf
  { teamStrengths := teamStrengths
    average := average
    standardDeviation := JSNum.sqrtJ sqrtA variance
    difference := maxStrength.sub minStrength
    maxStrength := maxStrength
    minStrength := minStrength }

/-- `evaluateSlotSolution`, IEEE-level. -/
def evaluateSlotSolutionJS (sqrtA : ℚ → ℚ) (teams : List (List Slot))
    (pool : PlayerPool) (w : List (Role × ℚ)) (varianceWeight : ℚ) : JSNum :=
  let balance := calculateSlotTeamBalanceJS sqrtA teams pool w
  (balance.standardDeviation.mul (JSNum.fin varianceWeight)).add balance.difference

/-! ## Perturbation operators (slotSwapOperations.js)

Each `Math.floor(Math.random() * len)` draw is an explicit `Nat` choice
reduced modulo the indexed list's length; each `Math.random() < p` test is
an explicit `ℚ` draw.  The `while (t2 === t1 ...)` re-draw loops are
modelled by quantifying over the final drawn value (theorems hold for every
value, a superset of the values the loop can deliver). -/

/-- Index a list by a choice reduced modulo its length (`none` exactly when
the list is empty, mirroring the `undefined` index on an empty list). -/
def pick? {α : Type} (l : List α) (i : Nat) : Option α :=
  l.get? (i % l.length)

/-- Insertion-ordered de-duplication, `[...new Set(xs)]`. -/
def firstDedup (l : List Role) : List Role :=
  l.foldl (fun acc x => if acc.contains x then acc else acc ++ [x]) []

/-- Random draws consumed by `performSlotSwap`. -/
structure BasicSwapChoices where
  t1 : Nat
  t2 : Nat
  posIdx : Nat
  k1 : Nat
  k2 : Nat
deriving Repr

/-- `performSlotSwap`: pick two groups and a role; if both groups have a
slot at that role, exchange one randomly chosen slot from each; otherwise a
silent no-op. -/
def performSlotSwap (teams : List (List Slot)) (positions : List Role)
    (_pool : PlayerPool) (ch : BasicSwapChoices) : List (List Slot) :=
  if teams.length < 2 then teams else
  let t1 := ch.t1 % teams.length
  let t2 := ch.t2 % teams.length
  match pick? positions ch.posIdx with
  | none => teams
  | some pos =>
    let slots1 := findSlotsByPosition (teams.getD t1 []) pos
    let slots2 := findSlotsByPosition (teams.getD t2 []) pos
    match pick? slots1 ch.k1, pick? slots2 ch.k2 with
    | some idx1, some idx2 => swapSlots teams t1 idx1 t2 idx2
    | _, _ => teams

/-- The adaptive parameters bundle as consumed by the swap operators. -/
structure AdaptiveParams where
  strongWeakSwapProbability : ℚ
  positionWeights : List (Role × ℚ)
deriving Repr

/-- Random draws consumed by `performAdaptiveSlotSwap`. -/
structure AdaptiveSwapChoices where
  pDraw : ℚ
  posIdx : Nat
  basic : BasicSwapChoices
deriving Repr

/-- The `(idx, strength)` ranking of groups used by the adaptive swap,
sorted by descending strength (`(a, b) => b.strength - a.strength`). -/
def rankedTeamStrengths (teams : List (List Slot)) (pool : PlayerPool)
    (w : List (Role × ℚ)) : List (Nat × ℚ) :=
  (teams.enum.map (fun e => (e.1, calculateSlotTeamStrength e.2 pool w))).mergeSort
    (fun a b => decide (b.2 ≤ a.2))

/-- The highest-rated slot index at a role among candidates, mirroring the
initialise-with-first-then-scan loop of `performAdaptiveSlotSwap` (strict
`>` keeps the earliest maximum). -/
def scanBestSlot (team : List Slot) (pool : PlayerPool) (pos : Role)
    (slotIdxs : List Nat) (better : ℚ → ℚ → Bool) : Nat × ℚ :=
  let rate := fun idx => getPlayerRating pool (team.getD idx default).playerId pos
  let init := slotIdxs.headD 0
  slotIdxs.foldl (fun acc slotIdx =>
    if better (rate slotIdx) acc.2 then (slotIdx, rate slotIdx) else acc)
    (init, rate init)

/-- `performAdaptiveSlotSwap`: rank groups by weighted strength; with
probability `strongWeakSwapProbability` try to exchange the strongest-rated
slot of the strongest group with the weakest-rated slot of the weakest group
at a random role, committing only if that reduces the strongest/weakest
imbalance; in every other case fall back to `performSlotSwap`. -/
def performAdaptiveSlotSwap (teams : List (List Slot)) (positions : List Role)
    (pool : PlayerPool) (params : AdaptiveParams) (ch : AdaptiveSwapChoices) :
    List (List Slot) :=
  if teams.length < 2 then teams else
  let w := params.positionWeights
  let teamStrengths := rankedTeamStrengths teams pool w
  let strongest := teamStrengths.headD (0, 0)
  let weakest := teamStrengths.getLastD (0, 0)
  let fallback := performSlotSwap teams positions pool ch.basic
  if ch.pDraw < params.strongWeakSwapProbability ∧ strongest.1 ≠ weakest.1 then
    match pick? positions ch.posIdx with
    | none => fallback
    | some position =>
      let strongSlots := findSlotsByPosition (teams.getD strongest.1 []) position
      let weakSlots := findSlotsByPosition (teams.getD weakest.1 []) position
      if strongSlots ≠ [] ∧ weakSlots ≠ [] then
        let s := scanBestSlot (teams.getD strongest.1 []) pool position strongSlots
          (fun r acc => decide (r > acc))
        let k := scanBestSlot (teams.getD weakest.1 []) pool position weakSlots
          (fun r acc => decide (r < acc))
        if s.2 > k.2 then
          let currentBalance := strongest.2 - weakest.2
          let weight := weightOr1 w position
          let strongTeamAfter := strongest.2 - s.2 * weight + k.2 * weight
          let weakTeamAfter := weakest.2 - k.2 * weight + s.2 * weight
          let newBalance := |strongTeamAfter - weakTeamAfter|
          if newBalance < currentBalance then
            swapSlots teams strongest.1 s.1 weakest.1 k.1
          else fallback
        else fallback
      else fallback
  else fallback

/-- Random draws consumed by `performPositionSlotSwap`. -/
structure IntraSwapChoices where
  tIdx : Nat
  posIdx : Nat
  i1 : Nat
  i2 : Nat
deriving Repr

/-- `performPositionSlotSwap`: within one randomly chosen group, swap two
slots that share a randomly chosen role of that group. -/
def performPositionSlotSwap (teams : List (List Slot)) (_pool : PlayerPool)
    (ch : IntraSwapChoices) : List (List Slot) :=
  if teams.length = 0 then teams else
  let tI := ch.tIdx % teams.length
  let team := teams.getD tI []
  if team.length < 2 then teams else
  let positionsInTeam := firstDedup (team.map (·.position))
  match pick? positionsInTeam ch.posIdx with
  | none => teams
  | some position =>
    let slotsAtPos := findSlotsByPosition team position
    if slotsAtPos.length ≥ 2 then
      match pick? slotsAtPos ch.i1, pick? slotsAtPos ch.i2 with
      | some slot1, some slot2 =>
        let team' := (team.set slot1 (team.getD slot2 default)).set slot2
          (team.getD slot1 default)
        teams.set tI team'
      | _, _ => teams
    else teams

/-- Random draws consumed by `performCrossTeamSlotSwap`. -/
structure CrossSwapChoices where
  t1 : Nat
  t2 : Nat
  posIdx : Nat
  k1 : Nat
  k2 : Nat
deriving Repr

/-- `performCrossTeamSlotSwap`: pick two groups, intersect the roles present
in each, pick a shared role, and exchange one randomly chosen slot of that
role from each group. -/
def performCrossTeamSlotSwap (teams : List (List Slot)) (_pool : PlayerPool)
    (ch : CrossSwapChoices) : List (List Slot) :=
  if teams.length < 2 then teams else
  let t1 := ch.t1 % teams.length
  let t2 := ch.t2 % teams.length
  if (teams.getD t1 []).length = 0 ∨ (teams.getD t2 []).length = 0 then teams else
  let positions1 := firstDedup ((teams.getD t1 []).map (·.position))
  let positions2 := firstDedup ((teams.getD t2 []).map (·.position))
  let commonPositions := positions1.filter (fun pos => positions2.contains pos)
  if commonPositions.isEmpty then teams else
  match pick? commonPositions ch.posIdx with
  | none => teams
  | some position =>
    let slots1 := findSlotsByPosition (teams.getD t1 []) position
    let slots2 := findSlotsByPosition (teams.getD t2 []) position
    match pick? slots1 ch.k1, pick? slots2 ch.k2 with
    | some slot1, some slot2 => swapSlots teams t1 slot1 t2 slot2
    | _, _ => teams

/-- Random draws consumed by `performUniversalSlotSwap`. -/
structure UniSwapChoices where
  rand : ℚ
  basic : BasicSwapChoices
  adaptive : AdaptiveSwapChoices
  cross : CrossSwapChoices
  intra : IntraSwapChoices
deriving Repr

/-- `performUniversalSlotSwap`: dispatch 25/25/25/25 among the four
operators. -/
def performUniversalSlotSwap (teams : List (List Slot)) (positions : List Role)
    (pool : PlayerPool) (params : AdaptiveParams) (ch : UniSwapChoices) :
    List (List Slot) :=
  if ch.rand < 1/4 then performSlotSwap teams positions pool ch.basic
  else if ch.rand < 1/2 then performAdaptiveSlotSwap teams positions pool params ch.adaptive
  else if ch.rand < 3/4 then performCrossTeamSlotSwap teams pool ch.cross
  else performPositionSlotSwap teams pool ch.intra

/-- One application of some perturbation operator, with all of its inputs
(the role list, the adaptive parameters, and all random draws) packaged as
data, so that "any perturbation operator applied any number of times" can be
quantified as a list of these. -/
inductive PerturbChoice where
  | basic (positions : List Role) (ch : BasicSwapChoices)
  | adaptive (positions : List Role) (params : AdaptiveParams) (ch : AdaptiveSwapChoices)
  | cross (ch : CrossSwapChoices)
  | intra (ch : IntraSwapChoices)
  | universal (positions : List Role) (params : AdaptiveParams) (ch : UniSwapChoices)

/-- Apply one perturbation operator. -/
def applyPerturb (pool : PlayerPool) (teams : List (List Slot)) :
    PerturbChoice → List (List Slot)
  | .basic positions ch => performSlotSwap teams positions pool ch
  | .adaptive positions params ch => performAdaptiveSlotSwap teams positions pool params ch
  | .cross ch => performCrossTeamSlotSwap teams pool ch
  | .intra ch => performPositionSlotSwap teams pool ch
  | .universal positions params ch => performUniversalSlotSwap teams positions pool params ch

/-- Apply a finite sequence of perturbation operators. -/
def applyPerturbs (pool : PlayerPool) (ops : List PerturbChoice)
    (teams : List (List Slot)) : List (List Slot) :=
  ops.foldl (applyPerturb pool) teams

/-! ## Simulated annealing (SlotSimulatedAnnealingOptimizer.js)

`Math.exp` is the parameter `expA`; each iteration's two `Math.random()`
draws and the draws consumed inside the chosen swap operator form an
`SAIterChoices` record; the iteration stream is a function from iteration
index to that record. -/

/-- The SA configuration object. -/
structure SAConfig where
  initialTemperature : ℚ
  coolingRate : ℚ
  iterations : Nat
  reheatEnabled : Bool
  reheatTemperature : ℚ
  reheatIterations : Nat
deriving Repr

/-- Random draws consumed by one SA iteration. -/
structure SAIterChoices where
  swapSel : ℚ
  adaptive : AdaptiveSwapChoices
  uni : UniSwapChoices
  accept : ℚ
deriving Repr

/-- The loop state of `SlotSimulatedAnnealingOptimizer.solve`. -/
structure SAState where
  current : List (List Slot)
  currentScore : ℚ
  best : List (List Slot)
  bestScore : ℚ
  temp : ℚ
  sinceImprovement : Nat
deriving Repr

/-- Neighbor generation of one SA iteration: clone the current assignment
and apply the adaptive swap with probability `0.3 + (1 - temp/initial)·0.5`,
else the universal swap. -/
def saNeighbor (cfg : SAConfig) (positions : List Role) (pool : PlayerPool)
    (params : AdaptiveParams) (st : SAState) (ch : SAIterChoices) :
    List (List Slot) :=
  let neighbor := cloneSlotTeams st.current
  let normalizedTemp := st.temp / cfg.initialTemperature
  let adaptiveProbability := 3/10 + (1 - normalizedTemp) * (5/10)
  if ch.swapSel < adaptiveProbability then
    performAdaptiveSlotSwap neighbor positions pool params ch.adaptive
  else
    performUniversalSlotSwap neighbor positions pool params ch.uni

/-- One iteration of the SA loop (lines 63–117 of the source `solve`):
Metropolis acceptance, best tracking, stagnation counting, geometric
cooling, and optional reheating. -/
def saStep (sqrtA expA : ℚ → ℚ) (cfg : SAConfig) (positions : List Role)
    (pool : PlayerPool) (w : List (Role × ℚ)) (params : AdaptiveParams)
    (ch : SAIterChoices) (st : SAState) : SAState :=
  let neighbor := saNeighbor cfg positions pool params st ch
  let neighborScore := evaluateSlotSolution sqrtA neighbor pool w (1/2)
  let delta := neighborScore - st.currentScore
  let acc :=
    if delta < 0 ∨ ch.accept < expA (-delta / st.temp) then
      if neighborScore < st.bestScore then
        (neighbor, neighborScore, cloneSlotTeams neighbor, neighborScore, true)
      else
        (neighbor, neighborScore, st.best, st.bestScore, false)
    else
      (st.current, st.currentScore, st.best, st.bestScore, false)
  let sinceImprovement := if acc.2.2.2.2 then 0 else st.sinceImprovement + 1
  let temp := st.temp * cfg.coolingRate
  if cfg.reheatEnabled ∧ sinceImprovement > cfg.reheatIterations then
    ⟨acc.1, acc.2.1, acc.2.2.1, acc.2.2.2.1, cfg.reheatTemperature, 0⟩
  else
    ⟨acc.1, acc.2.1, acc.2.2.1, acc.2.2.2.1, temp, sinceImprovement⟩

/-- The SA loop state after `i` iterations. -/
def saStates (sqrtA expA : ℚ → ℚ) (cfg : SAConfig) (positions : List Role)
    (pool : PlayerPool) (w : List (Role × ℚ)) (params : AdaptiveParams)
    (chs : Nat → SAIterChoices) (init : SAState) : Nat → SAState
  | 0 => init
  | i + 1 => saStep sqrtA expA cfg positions pool w params (chs i)
      (saStates sqrtA expA cfg positions pool w params chs init i)

/-- The initial SA state built by `solve` from the seed assignment. -/
def saInit (sqrtA : ℚ → ℚ) (cfg : SAConfig) (pool : PlayerPool)
    (w : List (Role × ℚ)) (initialSolution : List (List Slot)) : SAState :=
  let current := cloneSlotTeams initialSolution
  let best := cloneSlotTeams current
  let currentScore := evaluateSlotSolution sqrtA current pool w (1/2)
  ⟨current, currentScore, best, currentScore, cfg.initialTemperature, 0⟩

/-- `SlotSimulatedAnnealingOptimizer.solve`: run the loop for the
configured iteration count and return the best assignment found. -/
def saSolve (sqrtA expA : ℚ → ℚ) (cfg : SAConfig) (positions : List Role)
    (pool : PlayerPool) (w : List (Role × ℚ)) (params : AdaptiveParams)
    (chs : Nat → SAIterChoices) (initialSolution : List (List Slot)) :
    List (List Slot) :=
  (saStates sqrtA expA cfg positions pool w params chs
    (saInit sqrtA cfg pool w initialSolution) cfg.iterations).best

/-! ## Ensemble phase (SlotTeamOptimizerService.js)

`Promise.allSettled` delivers one settled outcome per enabled algorithm;
the embedding takes that list of outcomes (name, fulfilled-or-rejected) as
input. -/

/-- `runOptimizationAlgorithms` after the join point: keep the fulfilled
results (with their algorithm names, in order), and throw
`All optimization algorithms failed` exactly when none succeeded. -/
def runOptimizationAlgorithms
    (settled : List (List Char × Except (List Char) (List (List Slot)))) :
    Except (List Char) (List (List (List Slot)) × List (List Char)) :=
  let successfulResults := settled.filterMap (fun e =>
    match e.2 with
    | Except.ok v => some v
    | Except.error _ => none)
  let successfulNames := settled.filterMap (fun e =>
    match e.2 with
    | Except.ok _ => some e.1
    | Except.error _ => none)
  if successfulResults.isEmpty then
    Except.error ('A' :: "ll optimization algorithms failed".toList)
  else
    Except.ok (successfulResults, successfulNames)

/-- The best-result selection of `optimize`
(`scores.indexOf(Math.min(...scores))`). -/
def selectBestIdx (scores : List ℚ) : Nat :=
  scores.indexOf (scores.min?.getD 0)

/-- The result handed to the local-search refinement pass:
`results[bestIdx]`. -/
def selectForRefinement (score : List (List Slot) → ℚ)
    (results : List (List (List Slot))) : List (List Slot) :=
  results.getD (selectBestIdx (results.map score)) []

/-! ## Solution hashing (teamSlotUtils.js / SlotLocalSearchOptimizer.js)

`hashSlotSolution(teams)` is
`teams.map(team => team.map(slot => playerId + ":" + position).sort().join(",")).sort().join("|")`.
JavaScript template interpolation of the numeric id yields its decimal
string; the default string sort is ascending lexicographic order on code
units, embedded here as a stable sort under the lexicographic order on
`List Char` (any stable sorting function returns the same list, so the
choice of `insertionSort` is immaterial). -/

/-- Decimal digit characters of `n`, most significant first, with explicit
structural fuel (any fuel `≥ n` computes the digits of `n`). -/
def natCharsAux : Nat → Nat → List Char
  | 0, _ => []
  | _ + 1, 0 => []
  | fuel + 1, n + 1 =>
    natCharsAux fuel ((n + 1) / 10) ++ [Nat.digitChar ((n + 1) % 10)]

/-- The decimal string of a natural number, as produced by JavaScript
template interpolation of a nonnegative integer id. -/
def natChars (n : Nat) : List Char :=
  if n = 0 then ['0'] else natCharsAux n n

/-- The token for one slot: the characters of
`playerId + ":" + position`. -/
def slotToken (s : Slot) : List Char :=
  natChars s.playerId ++ ':' :: s.position

/-- `Array.prototype.join(sep)` on a list of strings. -/
def joinSep (sep : Char) : List (List Char) → List Char
  | [] => []
  | [s] => s
  | s :: rest => s ++ sep :: joinSep sep rest

/-- The default JavaScript string sort (ascending lexicographic). -/
def sortStrings (l : List (List Char)) : List (List Char) :=
  l.insertionSort (· ≤ ·)

/-- Per-team part of the hash:
`team.map(slot => playerId + ":" + position).sort().join(",")`. -/
def teamHash (team : List Slot) : List Char :=
  joinSep ',' (sortStrings (team.map slotToken))

/-- `hashSlotSolution`: team token-strings sorted and comma-joined, the
resulting team strings sorted and bar-joined. -/
def hashSlotSolution (teams : List (List Slot)) : List Char :=
  joinSep '|' (sortStrings (teams.map teamHash))

/-! Verification-side decoders for the hash, used to establish injectivity
of `hashSlotSolution` up to canonical content. -/

/-- Split a string at every occurrence of `sep`
(`String.prototype.split`). -/
def splitSep (sep : Char) : List Char → List (List Char)
  | [] => [[]]
  | c :: rest =>
    if c = sep then [] :: splitSep sep rest
    else
      match splitSep sep rest with
      | [] => [[c]]
      | p :: ps => (c :: p) :: ps

/-- Parse a decimal digit string back to a natural number. -/
def parseNat (ds : List Char) : Nat :=
  ds.foldl (fun a c => a * 10 + (c.toNat - 48)) 0

/-- Decode one token back to a slot: the digits before the first `':'`
give the candidate id, everything after it the role. -/
def parseToken (t : List Char) : Slot :=
  ⟨parseNat (t.takeWhile (fun c => c != ':')),
   (t.dropWhile (fun c => c != ':')).drop 1⟩

/-- Decode a comma-joined team string to the multiset of its slots. -/
def decodeTeam (s : List Char) : Multiset Slot :=
  Multiset.ofList ((splitSep ',' s).map parseToken)

/-- Decode a full hash to the multiset of group slot-multisets. -/
def decodeHash (s : List Char) : Multiset (Multiset Slot) :=
  Multiset.ofList ((splitSep '|' s).map decodeTeam)

/-- The canonical content of an assignment: the multiset of its groups'
slot multisets — by construction invariant under reordering groups and
reordering slots within a group, and distinguishing any change of some
group's multiset of candidateId/role pairings. -/
def canonAssignment (teams : List (List Slot)) : Multiset (Multiset Slot) :=
  Multiset.ofList (teams.map (fun g => Multiset.ofList g))

/-- Hash-safety: every group is nonempty and no role contains a separator
character `','` or `'|'` (roles may contain `':'`: the decoder splits at
the first `':'`, and ids contain no `':'`). -/
def hashSafe (teams : List (List Slot)) : Prop :=
  ∀ g ∈ teams, g ≠ [] ∧ ∀ s ∈ g, ¬ (',' ∈ s.position) ∧ ¬ ('|' ∈ s.position)

instance (teams : List (List Slot)) : Decidable (hashSafe teams) := by
  unfold hashSafe
  infer_instance

/-! ## Seed generators (slotSolutionGenerators.js)

Modelling conventions for this section:
* `usedIds` (a JS `Set` queried only through `has`) is a list queried
  through `contains`; adding an id appends it.
* `teams[t].push(x)` is `pushAt`.
* Loops that scan team indices and consume the next unallocated id are
  folds of `allocVisit` over the visited index sequence; a loop-exit
  condition of the form `playerIdx < playerIds.length` is rendered by
  visiting the remaining indices without effect (the fold is a no-op once
  the ids are exhausted), which produces the same teams.
* A `randomize` sort adds `(Math.random()-0.5)·k` jitter to the compared
  ratings — an inconsistent comparator, whose result is an unspecified
  permutation — and is a caller-supplied `reorder` function; a
  deterministic comparator sort is a stable sort under the comparator's
  order.
* Ids delivered by the position index always resolve in the pool;
  `getPlayer` defaults cover the (unreachable) unresolved branch. -/

/-- `teams[t].push({playerId, position})`. -/
def pushAt (teams : List (List Slot)) (ti pid : Nat) (pos : Role) :
    List (List Slot) :=
  teams.set ti ((teams.getD ti []) ++ [⟨pid, pos⟩])

/-- `playerPool.getPlayer(id).positions.length`. -/
def posLen (pool : PlayerPool) (pid : Nat) : Nat :=
  ((getPlayer pool pid).map (fun p => p.positions.length)).getD 0

/-- Descending-rating order (comparator `(a, b) => bRating - aRating`). -/
def ratingDesc (pool : PlayerPool) (pos : Role) (a b : Nat) : Prop :=
  getPlayerRating pool b pos ≤ getPlayerRating pool a pos

instance (pool : PlayerPool) (pos : Role) : DecidableRel (ratingDesc pool pos) :=
  fun _ _ => inferInstanceAs (Decidable (_ ≤ _))

/-- Fewest-positions-first, then descending rating (smart phase 2). -/
def versatilityAsc (pool : PlayerPool) (pos : Role) (a b : Nat) : Prop :=
  posLen pool a < posLen pool b ∨
    (posLen pool a = posLen pool b ∧
      getPlayerRating pool b pos ≤ getPlayerRating pool a pos)

instance (pool : PlayerPool) (pos : Role) : DecidableRel (versatilityAsc pool pos) :=
  fun _ _ => inferInstanceAs (Decidable (_ ∨ _))

/-- Specialists first, then descending rating (snake draft). -/
def specialistFirst (pool : PlayerPool) (pos : Role) (a b : Nat) : Prop :=
  (if posLen pool b = 1 then (1 : Nat) else 0) <
      (if posLen pool a = 1 then (1 : Nat) else 0) ∨
    ((if posLen pool b = 1 then (1 : Nat) else 0) =
        (if posLen pool a = 1 then (1 : Nat) else 0) ∧
      getPlayerRating pool b pos ≤ getPlayerRating pool a pos)

instance (pool : PlayerPool) (pos : Role) : DecidableRel (specialistFirst pool pos) :=
  fun _ _ => inferInstanceAs (Decidable (_ ∨ _))

/-- An id-list `.sort(...)`: jitter mode is an arbitrary permutation, the
deterministic mode a stable sort under `r`. -/
def sortIds (randomize : Bool) (reorder : List Nat → List Nat)
    (r : Nat → Nat → Prop) [DecidableRel r] (l : List Nat) : List Nat :=
  if randomize then reorder l else l.insertionSort r

/-- The working state of one allocation pass: the teams, the used-id set,
and the index of the next unconsumed id of the pass. -/
structure Alloc where
  teams : List (List Slot)
  used : List Nat
  idx : Nat

/-- Visit one team index: if ids remain and the guard admits the team,
push the next id there and mark it used. -/
def allocVisit (pos : Role) (ids : List Nat)
    (guard : List (List Slot) → Nat → Bool) (a : Alloc) (ti : Nat) : Alloc :=
  match ids[a.idx]? with
  | none => a
  | some pid =>
    if guard a.teams ti then
      ⟨pushAt a.teams ti pid pos, a.used ++ [pid], a.idx + 1⟩
    else a

/-- One allocation pass over a sequence of team-index visits. -/
def allocPass (pos : Role) (ids : List Nat)
    (guard : List (List Slot) → Nat → Bool) (tis : List Nat)
    (teams : List (List Slot)) (used : List Nat) :
    List (List Slot) × List Nat :=
  let a := tis.foldl (allocVisit pos ids guard) ⟨teams, used, 0⟩
  (a.teams, a.used)

/-- Visit order `teamIdx` outer / `slot` inner (greedy, random, smart
phase 1). -/
def blockVisits (teamCount cnt : Nat) : List Nat :=
  (List.range teamCount).flatMap (fun ti => List.replicate cnt ti)

/-- Round-robin visit order with a start offset (balanced). -/
def roundVisits (teamCount cnt off : Nat) : List Nat :=
  (List.range cnt).flatMap (fun _ =>
    (List.range teamCount).map (fun i => (i + off) % teamCount))

/-- Snake-draft visit order: alternate direction per round, rounds
`startRound..100` (the loop's hard cap). -/
def snakeVisits (teamCount startRound : Nat) : List Nat :=
  ((List.range 101).drop startRound).flatMap (fun r =>
    if r % 2 = 1 then (List.range teamCount).reverse else List.range teamCount)

/-- The fixed role priority of the non-smart generators. -/
def positionPriority : List Role :=
  [['M','B'], ['S'], ['L'], ['O','P','P'], ['O','H']]

/-- `positionPriority.map(pos => [pos, composition[pos]])` filtered to the
roles with a positive (truthy) requirement. -/
def priorityOrder (comp : List (Role × Nat)) : List (Role × Nat) :=
  (positionPriority.map (fun pos => (pos, (lookup? comp pos).getD 0))).filter
    (fun e => decide (0 < e.2))

/-- `Object.entries(composition)` filtered to positive requirements (the
smart generator's `positionsNeeded`). -/
def neededEntries (comp : List (Role × Nat)) : List (Role × Nat) :=
  comp.filter (fun e => decide (0 < e.2))

/-- The role's indexed ids not yet used. -/
def freshIds (pool : PlayerPool) (used : List Nat) (pos : Role) : List Nat :=
  (getPlayerIdsForPosition pool pos).filter (fun id => ! used.contains id)

/-- `createGreedySlotSolution`: for each role of the (optionally shuffled)
priority order, take the fresh ids strongest-first and fill the teams
block-wise. -/
def createGreedySlotSolution (comp : List (Role × Nat)) (teamCount : Nat)
    (pool : PlayerPool) (randomize : Bool)
    (reorderOrder : List (Role × Nat) → List (Role × Nat))
    (reorderIds : Nat → List Nat → List Nat) : List (List Slot) :=
  let order := if randomize then reorderOrder (priorityOrder comp)
               else priorityOrder comp
  (order.enum.foldl (fun st e =>
    let ids := sortIds randomize (reorderIds e.1) (ratingDesc pool e.2.1)
      (freshIds pool st.2 e.2.1)
    allocPass e.2.1 ids (fun _ _ => true) (blockVisits teamCount e.2.2)
      st.1 st.2)
    (List.replicate teamCount [], [])).1

/-- `createBalancedSlotSolution`: as greedy but in round-robin order with a
random start offset in randomize mode. -/
def createBalancedSlotSolution (comp : List (Role × Nat)) (teamCount : Nat)
    (pool : PlayerPool) (randomize : Bool)
    (reorderOrder : List (Role × Nat) → List (Role × Nat))
    (reorderIds : Nat → List Nat → List Nat) (offChoice : Nat → Nat) :
    List (List Slot) :=
  let order := if randomize then reorderOrder (priorityOrder comp)
               else priorityOrder comp
  (order.enum.foldl (fun st e =>
    let ids := sortIds randomize (reorderIds e.1) (ratingDesc pool e.2.1)
      (freshIds pool st.2 e.2.1)
    let off := if randomize then offChoice e.1 % teamCount else 0
    allocPass e.2.1 ids (fun _ _ => true)
      (roundVisits teamCount e.2.2 off) st.1 st.2)
    (List.replicate teamCount [], [])).1

/-- `createSnakeDraftSlotSolution`: specialists-first ordering, alternating
round direction, per-role count guard, round cap 100. -/
def createSnakeDraftSlotSolution (comp : List (Role × Nat)) (teamCount : Nat)
    (pool : PlayerPool) (randomize : Bool)
    (reorderOrder : List (Role × Nat) → List (Role × Nat))
    (reorderIds : Nat → List Nat → List Nat) (coin : Nat → Bool) :
    List (List Slot) :=
  let order := if randomize then reorderOrder (priorityOrder comp)
               else priorityOrder comp
  (order.enum.foldl (fun st e =>
    let ids := sortIds randomize (reorderIds e.1) (specialistFirst pool e.2.1)
      (freshIds pool st.2 e.2.1)
    let start := if randomize && coin e.1 then 1 else 0
    allocPass e.2.1 ids
      (fun ts ti => decide (countRole ts ti e.2.1 < e.2.2))
      (snakeVisits teamCount start) st.1 st.2)
    (List.replicate teamCount [], [])).1

/-- `createRandomSlotSolution`: shuffle the fresh ids of each priority role
and fill the teams block-wise. -/
def createRandomSlotSolution (comp : List (Role × Nat)) (teamCount : Nat)
    (pool : PlayerPool) (shuffleIds : Nat → List Nat → List Nat) :
    List (List Slot) :=
  ((priorityOrder comp).enum.foldl (fun st e =>
    let ids := shuffleIds e.1 (freshIds pool st.2 e.2.1)
    allocPass e.2.1 ids (fun _ _ => true) (blockVisits teamCount e.2.2)
      st.1 st.2)
    (List.replicate teamCount [], [])).1

/-- Smart generator, phase 1: allocate single-role specialists
strongest-first, per needed role, with the per-role count guard. -/
def smartPhase1 (comp : List (Role × Nat)) (teamCount : Nat)
    (pool : PlayerPool) (randomize : Bool)
    (reorderIds : Nat → List Nat → List Nat) :
    List (List Slot) × List Nat :=
  (neededEntries comp).enum.foldl (fun st e =>
    let ids := sortIds randomize (reorderIds e.1) (ratingDesc pool e.2.1)
      ((getPlayerIdsForPosition pool e.2.1).filter
        (fun id => ! st.2.contains id && posLen pool id == 1))
    allocPass e.2.1 ids
      (fun ts ti => decide (countRole ts ti e.2.1 < e.2.2))
      (blockVisits teamCount e.2.2) st.1 st.2)
    (List.replicate teamCount [], [])

/-- Scarcity of a role: fresh ids per total needed (smart phase 2). -/
def scarcityOf (pool : PlayerPool) (teamCount : Nat) (used : List Nat)
    (e : Role × Nat) : ℚ :=
  ((freshIds pool used e.1).length : ℚ) / ((e.2 * teamCount : Nat) : ℚ)

/-- Ascending-scarcity order. -/
def scarcityLe (pool : PlayerPool) (teamCount : Nat) (used : List Nat)
    (a b : Role × Nat) : Prop :=
  scarcityOf pool teamCount used a ≤ scarcityOf pool teamCount used b

instance (pool : PlayerPool) (teamCount : Nat) (used : List Nat) :
    DecidableRel (scarcityLe pool teamCount used) :=
  fun _ _ => inferInstanceAs (Decidable (_ ≤ _))

/-- The needed roles ordered scarcest-first; the filter keeps exactly the
roles of finite scarcity (positive total need). -/
def positionsByScarcity (pool : PlayerPool) (teamCount : Nat)
    (used : List Nat) (needed : List (Role × Nat)) : List (Role × Nat) :=
  (needed.filter (fun e => decide (0 < e.2 * teamCount))).insertionSort
    (scarcityLe pool teamCount used)

/-- One iteration of smart phase 2: one allocation pass per needed role in
scarcity order, one candidate team visit each, count-guarded. -/
def smartPhase2Iter (comp : List (Role × Nat)) (teamCount : Nat)
    (pool : PlayerPool) (randomize : Bool)
    (reorderIds : Nat → List Nat → List Nat)
    (st : List (List Slot) × List Nat) : List (List Slot) × List Nat :=
  (positionsByScarcity pool teamCount st.2 (neededEntries comp)).enum.foldl
    (fun st2 e =>
      let cnt := (lookup? comp e.2.1).getD 0
      let ids := sortIds randomize (reorderIds e.1) (versatilityAsc pool e.2.1)
        (freshIds pool st2.2 e.2.1)
      allocPass e.2.1 ids (fun ts ti => decide (countRole ts ti e.2.1 < cnt))
        (List.range teamCount) st2.1 st2.2) st

/-- The phase-2 loop: at most 200 iterations, stopping after an iteration
that allocates nothing (`madeProgress` is exactly growth of the used
set). -/
def smartPhase2Loop (comp : List (Role × Nat)) (teamCount : Nat)
    (pool : PlayerPool) (randomize : Bool)
    (reorderIds : Nat → Nat → List Nat → List Nat) :
    Nat → Nat → List (List Slot) × List Nat → List (List Slot) × List Nat
  | 0, _, st => st
  | fuel + 1, iter, st =>
    let st2 := smartPhase2Iter comp teamCount pool randomize (reorderIds iter) st
    if st2.2.length = st.2.length then st2
    else smartPhase2Loop comp teamCount pool randomize reorderIds fuel (iter + 1) st2

/-- `createSmartSlotSolution`: specialist phase then scarcity-driven
phase. -/
def createSmartSlotSolution (comp : List (Role × Nat)) (teamCount : Nat)
    (pool : PlayerPool) (randomize : Bool)
    (reorderIds1 : Nat → List Nat → List Nat)
    (reorderIds2 : Nat → Nat → List Nat → List Nat) : List (List Slot) :=
  (smartPhase2Loop comp teamCount pool randomize reorderIds2 200 0
    (smartPhase1 comp teamCount pool randomize reorderIds1)).1

/-- All random draws consumed by `generateInitialSlotSolutions`. -/
structure GenChoices where
  smartIds1 : Nat → List Nat → List Nat
  smartIds2 : Nat → Nat → List Nat → List Nat
  greedyOrder : List (Role × Nat) → List (Role × Nat)
  greedyIds : Nat → List Nat → List Nat
  balancedOrder : List (Role × Nat) → List (Role × Nat)
  balancedIds : Nat → List Nat → List Nat
  balancedOff : Nat → Nat
  snakeOrder : List (Role × Nat) → List (Role × Nat)
  snakeIds : Nat → List Nat → List Nat
  snakeCoin : Nat → Bool
  randomIds : Nat → List Nat → List Nat

/-- `generateInitialSlotSolutions`: the six seed assignments. -/
def generateInitialSlotSolutions (comp : List (Role × Nat)) (teamCount : Nat)
    (pool : PlayerPool) (ch : GenChoices) : List (List (List Slot)) :=
  [createSmartSlotSolution comp teamCount pool false ch.smartIds1 ch.smartIds2,
   createSmartSlotSolution comp teamCount pool true ch.smartIds1 ch.smartIds2,
   createGreedySlotSolution comp teamCount pool true ch.greedyOrder ch.greedyIds,
   createBalancedSlotSolution comp teamCount pool true ch.balancedOrder
     ch.balancedIds ch.balancedOff,
   createSnakeDraftSlotSolution comp teamCount pool true ch.snakeOrder
     ch.snakeIds ch.snakeCoin,
   createRandomSlotSolution comp teamCount pool ch.randomIds]

/-- Buckets of the role index contain no repeated id (the `addPlayer`
indexing pushes an id only when not already included; every pool built by
`buildPool` satisfies this). -/
def PoolWF (pool : PlayerPool) : Prop :=
  ∀ e ∈ pool.playersByPosition, e.2.Nodup

instance (pool : PlayerPool) : Decidable (PoolWF pool) :=
  inferInstanceAs (Decidable (∀ e ∈ pool.playersByPosition, e.2.Nodup))

/-- A reorder function that only permutes its input (what any JavaScript
sort with any comparator guarantees). -/
def PermFn1 (f : Nat → List Nat → List Nat) : Prop :=
  ∀ k l, (f k l).Perm l

/-- As `PermFn1` with two indices. -/
def PermFn2 (f : Nat → Nat → List Nat → List Nat) : Prop :=
  ∀ i k l, (f i k l).Perm l

/-- The permutation conditions on a full `GenChoices` bundle. -/
def GenChoicesOK (ch : GenChoices) : Prop :=
  PermFn1 ch.smartIds1 ∧ PermFn2 ch.smartIds2 ∧ PermFn1 ch.greedyIds ∧
    PermFn1 ch.balancedIds ∧ PermFn1 ch.snakeIds ∧ PermFn1 ch.randomIds

/-! ## Local search (SlotLocalSearchOptimizer.js) -/

/-- Random draws of one neighbor generation: the operator coin and the
draws of whichever operator runs. -/
structure OpDraw where
  opSel : ℚ
  adaptive : AdaptiveSwapChoices
  uni : UniSwapChoices

/-- Clone and apply one swap: the adaptive operator below the threshold,
else the universal dispatcher. -/
def opNeighbor (threshold : ℚ) (positions : List Role) (pool : PlayerPool)
    (params : AdaptiveParams) (teams : List (List Slot)) (d : OpDraw) :
    List (List Slot) :=
  let neighbor := cloneSlotTeams teams
  if d.opSel < threshold then
    performAdaptiveSlotSwap neighbor positions pool params d.adaptive
  else
    performUniversalSlotSwap neighbor positions pool params d.uni

/-- One iteration of `SlotLocalSearchOptimizer.solve`: one neighbor
(adaptive with probability 0.7), accepted only on strict improvement. -/
def lsStep (sqrtA : ℚ → ℚ) (positions : List Role) (pool : PlayerPool)
    (w : List (Role × ℚ)) (params : AdaptiveParams) (d : OpDraw)
    (st : List (List Slot) × ℚ) : List (List Slot) × ℚ :=
  let neighbor := opNeighbor (7/10) positions pool params st.1 d
  let neighborScore := evaluateSlotSolution sqrtA neighbor pool w (1/2)
  if neighborScore < st.2 then (neighbor, neighborScore) else st

/-- The local-search state after `i` iterations. -/
def lsStates (sqrtA : ℚ → ℚ) (positions : List Role) (pool : PlayerPool)
    (w : List (Role × ℚ)) (params : AdaptiveParams) (chs : Nat → OpDraw)
    (init : List (List Slot) × ℚ) : Nat → List (List Slot) × ℚ
  | 0 => init
  | i + 1 => lsStep sqrtA positions pool w params (chs i)
      (lsStates sqrtA positions pool w params chs init i)

/-- `SlotLocalSearchOptimizer.solve` (its catch branch returns a clone of
the seed, covered by the same preservation argument). -/
def lsSolve (sqrtA : ℚ → ℚ) (iterations : Nat) (positions : List Role)
    (pool : PlayerPool) (w : List (Role × ℚ)) (params : AdaptiveParams)
    (chs : Nat → OpDraw) (initialSolution : List (List Slot)) :
    List (List Slot) :=
  let current := cloneSlotTeams initialSolution
  (lsStates sqrtA positions pool w params chs
    (current, evaluateSlotSolution sqrtA current pool w (1/2)) iterations).1

/-! ## Tabu search (SlotTabuSearchOptimizer.js) -/

/-- Tabu configuration. -/
structure TabuConfig where
  iterations : Nat
  neighborCount : Nat
  tabuTenure : Nat
  diversificationFrequency : Nat

/-- Random draws of one tabu iteration. -/
structure TabuIterChoices where
  nbrs : Nat → OpDraw
  divSwaps : Nat → UniSwapChoices
  restartSwaps : Nat → UniSwapChoices

/-- The tabu loop state. -/
structure TabuState where
  current : List (List Slot)
  best : List (List Slot)
  bestScore : ℚ
  tabuSet : List (List Char)
  tabuQueue : List (List Char)
  sinceImprovement : Nat

/-- JS `Set.add` on the hash set. -/
def setAdd (s : List (List Char)) (h : List Char) : List (List Char) :=
  if s.contains h then s else s ++ [h]

/-- JS `Set.delete` on the hash set. -/
def setDel (s : List (List Char)) (h : List Char) : List (List Char) :=
  s.filter (fun x => ! (x == h))

/-- `while (queue.length > keep) set.delete(queue.shift())`, given the
number of removals. -/
def tabuTrim : Nat → List (List Char) × List (List Char) →
    List (List Char) × List (List Char)
  | 0, sq => sq
  | n + 1, (s, q) =>
    match q with
    | [] => (s, [])
    | h :: t => tabuTrim n (setDel s h, t)

/-- `generateNeighborhood`: `size` one-swap clones; the adaptive share
drops from 0.6 to 0.4 when stagnating. -/
def generateNeighborhood (positions : List Role) (pool : PlayerPool)
    (params : AdaptiveParams) (teams : List (List Slot)) (size : Nat)
    (isStagnating : Bool) (draws : Nat → OpDraw) : List (List (List Slot)) :=
  (List.range size).map (fun k =>
    opNeighbor (if isStagnating then 2/5 else 3/5) positions pool params teams
      (draws k))

/-- `score < bound` with `Infinity` as the missing bound. -/
def ltInf (x : ℚ) : Option ℚ → Bool
  | none => true
  | some y => decide (x < y)

/-- The neighbor-selection scan: the best neighbor (a tabu one admitted
only under the aspiration criterion) and the best non-tabu fallback. -/
def tabuSelect (sqrtA : ℚ → ℚ) (pool : PlayerPool) (w : List (Role × ℚ))
    (tabuSet : List (List Char)) (bestScore : ℚ)
    (neighbors : List (List (List Slot))) :
    Option (List (List Slot) × ℚ) × Option (List (List Slot) × ℚ) :=
  neighbors.foldl (fun acc neighbor =>
    let h := hashSlotSolution neighbor
    let score := evaluateSlotSolution sqrtA neighbor pool w (1/2)
    let isTabu := tabuSet.contains h
    let acc1 := if (! isTabu) && ltInf score (acc.2.map (fun p => p.2)) then
        (acc.1, some (neighbor, score))
      else acc
    if ((! isTabu) || decide (score < bestScore)) &&
        ltInf score (acc1.1.map (fun p => p.2)) then
      (some (neighbor, score), acc1.2)
    else acc1) (none, none)

/-- The move part of one tabu iteration: neighborhood, selection, tabu
bookkeeping, best tracking. -/
def tabuMove (sqrtA : ℚ → ℚ) (cfg : TabuConfig) (positions : List Role)
    (pool : PlayerPool) (w : List (Role × ℚ)) (params : AdaptiveParams)
    (ch : TabuIterChoices) (st : TabuState) : TabuState :=
  let isStagnating := decide (100 < st.sinceImprovement)
  let neighbors := generateNeighborhood positions pool params st.current
    cfg.neighborCount isStagnating ch.nbrs
  let sel := tabuSelect sqrtA pool w st.tabuSet st.bestScore neighbors
  let chosen := match sel.1 with
    | some p => some p
    | none => sel.2
  match chosen with
  | some p =>
    let currentHash := hashSlotSolution p.1
    let tabuSet := setAdd st.tabuSet currentHash
    let tabuQueue := st.tabuQueue ++ [currentHash]
    let trimmed := if cfg.tabuTenure < tabuQueue.length then
        match tabuQueue with
        | [] => (tabuSet, ([] : List (List Char)))
        | h :: t => (setDel tabuSet h, t)
      else (tabuSet, tabuQueue)
    if p.2 < st.bestScore then
      ⟨p.1, cloneSlotTeams p.1, p.2, trimmed.1, trimmed.2, 0⟩
    else
      ⟨p.1, st.best, st.bestScore, trimmed.1, trimmed.2,
        st.sinceImprovement + 1⟩
  | none =>
    ⟨st.current, st.best, st.bestScore, st.tabuSet, st.tabuQueue,
      st.sinceImprovement + 1⟩

/-- The periodic-diversification part of one tabu iteration. -/
def tabuDiversify (cfg : TabuConfig) (positions : List Role)
    (pool : PlayerPool) (params : AdaptiveParams) (iter : Nat)
    (ch : TabuIterChoices) (st1 : TabuState) : TabuState :=
  if 0 < iter ∧ iter % cfg.diversificationFrequency = 0 then
    let swapCount := max 3 ((st1.current.getD 0 []).length / 2)
    let diversified := (List.range swapCount).foldl (fun ts i =>
      performUniversalSlotSwap ts positions pool params (ch.divSwaps i))
      (cloneSlotTeams st1.best)
    let keepCount := cfg.tabuTenure / 2
    let sq := tabuTrim (st1.tabuQueue.length - keepCount)
      (st1.tabuSet, st1.tabuQueue)
    ⟨diversified, st1.best, st1.bestScore, sq.1, sq.2, 0⟩
  else st1

/-- The stagnation-restart part of one tabu iteration. -/
def tabuRestart (positions : List Role) (pool : PlayerPool)
    (params : AdaptiveParams) (ch : TabuIterChoices) (st2 : TabuState) :
    TabuState :=
  if 500 < st2.sinceImprovement then
    let restarted := (List.range 5).foldl (fun ts i =>
      performUniversalSlotSwap ts positions pool params (ch.restartSwaps i))
      (cloneSlotTeams st2.best)
    ⟨restarted, st2.best, st2.bestScore, st2.tabuSet, st2.tabuQueue, 0⟩
  else st2

/-- One tabu iteration: neighborhood, selection, tabu bookkeeping, best
tracking, periodic diversification, restart on long stagnation. -/
def tabuStep (sqrtA : ℚ → ℚ) (cfg : TabuConfig) (positions : List Role)
    (pool : PlayerPool) (w : List (Role × ℚ)) (params : AdaptiveParams)
    (iter : Nat) (ch : TabuIterChoices) (st : TabuState) : TabuState :=
  tabuRestart positions pool params ch
    (tabuDiversify cfg positions pool params iter ch
      (tabuMove sqrtA cfg positions pool w params ch st))

/-- The tabu state after `i` iterations. -/
def tabuStates (sqrtA : ℚ → ℚ) (cfg : TabuConfig) (positions : List Role)
    (pool : PlayerPool) (w : List (Role × ℚ)) (params : AdaptiveParams)
    (chs : Nat → TabuIterChoices) (init : TabuState) : Nat → TabuState
  | 0 => init
  | i + 1 => tabuStep sqrtA cfg positions pool w params i (chs i)
      (tabuStates sqrtA cfg positions pool w params chs init i)

/-- The initial tabu state. -/
def tabuInit (sqrtA : ℚ → ℚ) (pool : PlayerPool) (w : List (Role × ℚ))
    (initialSolution : List (List Slot)) : TabuState :=
  let current := cloneSlotTeams initialSolution
  let best := cloneSlotTeams current
  ⟨current, best, evaluateSlotSolution sqrtA best pool w (1/2), [], [], 0⟩

/-- `SlotTabuSearchOptimizer.solve`: run the loop, return the best. -/
def tabuSolve (sqrtA : ℚ → ℚ) (cfg : TabuConfig) (positions : List Role)
    (pool : PlayerPool) (w : List (Role × ℚ)) (params : AdaptiveParams)
    (chs : Nat → TabuIterChoices) (initialSolution : List (List Slot)) :
    List (List Slot) :=
  (tabuStates sqrtA cfg positions pool w params chs
    (tabuInit sqrtA pool w initialSolution) cfg.iterations).best

/-! ## Genetic algorithm (SlotGeneticAlgorithmOptimizer.js) -/

/-- Genetic-algorithm configuration. -/
structure GAConfig where
  populationSize : Nat
  generationCount : Nat
  elitismCount : Nat
  tournamentSize : Nat
  crossoverRate : ℚ
  mutationRate : ℚ
  maxStagnation : Nat

/-- Ascending-score order on scored individuals
(`(a, b) => a.score - b.score`). -/
def scoreAsc (a b : List (List Slot) × ℚ) : Prop := a.2 ≤ b.2

instance : DecidableRel scoreAsc :=
  fun _ _ => inferInstanceAs (Decidable (_ ≤ _))

/-- `playerA ? playerA.positions.length : 1` (crossover leftover sort). -/
def gaPosCount (pool : PlayerPool) (pid : Nat) : Nat :=
  ((getPlayer pool pid).map (fun p => p.positions.length)).getD 1

/-- Fewest-positions-first order on leftover slots. -/
def gaSlotOrder (pool : PlayerPool) (a b : Slot) : Prop :=
  gaPosCount pool a.playerId ≤ gaPosCount pool b.playerId

instance (pool : PlayerPool) : DecidableRel (gaSlotOrder pool) :=
  fun _ _ => inferInstanceAs (Decidable (_ ≤ _))

/-- Place one leftover slot into the child: first a team (at or after the
crossover point) still needing the slot's role, else a team needing an
alternative role the candidate can play, else the smallest
not-yet-full team. -/
def crossoverPlace (comp : List (Role × Nat)) (pool : PlayerPool)
    (slicePoint : Nat) (child : List (List Slot)) (slot : Slot) :
    List (List Slot) :=
  let tail := List.range' slicePoint (child.length - slicePoint)
  match tail.find? (fun i =>
      decide (countRole child i slot.position <
        (lookup? comp slot.position).getD 0)) with
  | some i => pushAt child i slot.playerId slot.position
  | none =>
    let alts := match getPlayer pool slot.playerId with
      | some p => p.positions
      | none => []
    match alts.findSome? (fun alt =>
        if alt = slot.position then none
        else if (lookup? comp alt).getD 0 = 0 then none
        else (tail.find? (fun i =>
          decide (countRole child i alt < (lookup? comp alt).getD 0))).map
          (fun i => (i, alt))) with
    | some ia => pushAt child ia.1 slot.playerId ia.2
    | none =>
      let teamSize := (comp.map (fun e => e.2)).sum
      let smallest := tail.foldl (fun acc i =>
        let sz := (child.getD i []).length
        let better := match acc with
          | none => true
          | some j => decide (sz < (child.getD j []).length)
        if decide (sz < teamSize) && better then some i else acc) none
      match smallest with
      | some i => pushAt child i slot.playerId slot.position
      | none => child

/-- `slotCrossover`: groups before the slice point from the first parent,
leftover candidates of the second parent placed role-compatibly. -/
def slotCrossover (comp : List (Role × Nat)) (pool : PlayerPool)
    (parent1 parent2 : List (List Slot)) (sliceDraw : Nat) :
    List (List Slot) :=
  let slicePoint := if parent1.length = 0 then 0 else sliceDraw % parent1.length
  let child0 := cloneSlotTeams (parent1.take slicePoint) ++
    List.replicate (parent1.length - slicePoint) []
  let usedIds := allIds (parent1.take slicePoint)
  let remaining := ((parent2.flatten).filter
    (fun slot => ! usedIds.contains slot.playerId)).insertionSort
    (gaSlotOrder pool)
  remaining.foldl (crossoverPlace comp pool slicePoint) child0

/-- Tournament selection: best of `size` uniformly drawn individuals. -/
def tournamentSelection (scored : List (List (List Slot) × ℚ)) (size : Nat)
    (draws : Nat → Nat) : List (List Slot) :=
  let best := (List.range size).foldl (fun acc i =>
    match scored[(draws i) % scored.length]? with
    | none => acc
    | some cand =>
      match acc with
      | none => some cand
      | some b => if cand.2 < b.2 then some cand else some b) none
  (best.map (fun p => p.1)).getD []

/-- Count of first-solution slots whose candidate is absent from the same
group of the second solution. -/
def solutionDifference (s1 s2 : List (List Slot)) : Nat :=
  ((List.range s1.length).map (fun ti =>
    (s1.getD ti []).countP (fun slot =>
      ! ((s2.getD ti []).map (fun s => s.playerId)).contains
        slot.playerId))).sum

/-- Diversity check of a child against sampled population members. -/
def isDiverse (draws : Nat → Nat) (solution : List (List Slot))
    (population : List (List (List Slot))) : Bool :=
  if population.length = 0 then true
  else
    let sampleSize := min 5 population.length
    let minDiff := (((List.range sampleSize).map (fun i =>
      solutionDifference solution
        (population.getD (draws i % population.length) []))).min?).getD 0
    let totalPlayers := (solution.map List.length).sum
    decide ((totalPlayers : ℚ) * (2/10) ≤ (minDiff : ℚ))

/-- Random draws of one offspring construction. -/
structure GAOffDraw where
  t1 : Nat → Nat
  crossCoin : ℚ
  t2 : Nat → Nat
  slice : Nat
  divIdx : Nat → Nat
  randShuffle : Nat → List Nat → List Nat

/-- Random draws of one generation. -/
structure GAGenDraws where
  off : Nat → GAOffDraw
  mutCoin : Nat → ℚ
  mutSwaps : Nat → Nat → UniSwapChoices
  injShuffle : Nat → Nat → List Nat → List Nat

/-- One offspring: crossover-validated child, or a fresh random solution
on invalid composition or poor diversity, or a cloned parent. -/
def gaOffspring (cfg : GAConfig) (comp : List (Role × Nat)) (teamCount : Nat)
    (pool : PlayerPool) (scored : List (List (List Slot) × ℚ))
    (newPop : List (List (List Slot))) (d : GAOffDraw) : List (List Slot) :=
  let parent1 := tournamentSelection scored cfg.tournamentSize d.t1
  if d.crossCoin < cfg.crossoverRate then
    let parent2 := tournamentSelection scored cfg.tournamentSize d.t2
    let child := slotCrossover comp pool parent1 parent2 d.slice
    if (validateAllSlotTeamsComposition child comp).isValid &&
        isDiverse d.divIdx child newPop then child
    else createRandomSlotSolution comp teamCount pool d.randShuffle
  else cloneSlotTeams parent1

/-- The GA loop state. -/
structure GAState where
  population : List (List (List Slot))
  bestScore : Option ℚ
  stagnationCount : Nat

/-- Score and sort a population. -/
def gaScored (sqrtA : ℚ → ℚ) (pool : PlayerPool) (w : List (Role × ℚ))
    (population : List (List (List Slot))) :
    List (List (List Slot) × ℚ) :=
  (population.map (fun ind =>
    (ind, evaluateSlotSolution sqrtA ind pool w (1/2)))).insertionSort scoreAsc

/-- Elitism plus offspring generation up to the population size. -/
def gaNewPop (cfg : GAConfig) (comp : List (Role × Nat)) (teamCount : Nat)
    (pool : PlayerPool) (scored : List (List (List Slot) × ℚ))
    (d : GAGenDraws) : List (List (List Slot)) :=
  let elites := (scored.take cfg.elitismCount).map (fun s => cloneSlotTeams s.1)
  (List.range (cfg.populationSize - elites.length)).foldl
    (fun np k => np ++ [gaOffspring cfg comp teamCount pool scored np (d.off k)])
    elites

/-- Mutation of non-elite individuals. -/
def gaMutate (cfg : GAConfig) (positions : List Role) (pool : PlayerPool)
    (params : AdaptiveParams) (stag : Nat) (d : GAGenDraws)
    (newPop : List (List (List Slot))) : List (List (List Slot)) :=
  let mutationRate := if 10 < stag then min (1/2) (cfg.mutationRate * 2)
    else cfg.mutationRate
  newPop.enum.map (fun e =>
    if e.1 < cfg.elitismCount then e.2
    else if d.mutCoin e.1 < mutationRate then
      (List.range (if 10 < stag then 3 else 1)).foldl (fun ts s =>
        performUniversalSlotSwap ts positions pool params (d.mutSwaps e.1 s)) e.2
    else e.2)

/-- Stagnation injection: replace the trailing half with fresh random
solutions. -/
def gaInject (comp : List (Role × Nat)) (teamCount : Nat) (pool : PlayerPool)
    (d : GAGenDraws) (mutated : List (List (List Slot))) :
    List (List (List Slot)) :=
  mutated.enum.map (fun e =>
    if mutated.length - (mutated.length + 1) / 2 ≤ e.1 then
      createRandomSlotSolution comp teamCount pool (d.injShuffle e.1)
    else e.2)

/-- One generation: score and sort, track improvement, elitism, offspring,
mutation of non-elites, stagnation injection. -/
def gaStep (sqrtA : ℚ → ℚ) (cfg : GAConfig) (comp : List (Role × Nat))
    (teamCount : Nat) (positions : List Role) (pool : PlayerPool)
    (w : List (Role × ℚ)) (params : AdaptiveParams) (d : GAGenDraws)
    (st : GAState) : GAState :=
  let scored := gaScored sqrtA pool w st.population
  let top := (scored.headD ([], 0)).2
  let improved := ltInf top st.bestScore
  let bestScore2 := if improved then some top else st.bestScore
  let stag := if improved then 0 else st.stagnationCount + 1
  let newPop := gaNewPop cfg comp teamCount pool scored d
  let mutated := gaMutate cfg positions pool params stag d newPop
  let afterStag :=
    if cfg.maxStagnation ≤ stag then gaInject comp teamCount pool d mutated
    else mutated
  let stagFinal := if cfg.maxStagnation ≤ stag then 0 else stag
  ⟨afterStag, bestScore2, stagFinal⟩

/-- The GA state after `g` generations. -/
def gaStates (sqrtA : ℚ → ℚ) (cfg : GAConfig) (comp : List (Role × Nat))
    (teamCount : Nat) (positions : List Role) (pool : PlayerPool)
    (w : List (Role × ℚ)) (params : AdaptiveParams) (ds : Nat → GAGenDraws)
    (init : GAState) : Nat → GAState
  | 0 => init
  | g + 1 => gaStep sqrtA cfg comp teamCount positions pool w params (ds g)
      (gaStates sqrtA cfg comp teamCount positions pool w params ds init g)

/-- `SlotGeneticAlgorithmOptimizer.solve`: fill the population with random
solutions, evolve, return the best-scored individual. -/
def gaSolve (sqrtA : ℚ → ℚ) (cfg : GAConfig) (comp : List (Role × Nat))
    (teamCount : Nat) (positions : List Role) (pool : PlayerPool)
    (w : List (Role × ℚ)) (params : AdaptiveParams) (ds : Nat → GAGenDraws)
    (fillShuffle : Nat → Nat → List Nat → List Nat)
    (initialPopulation : List (List (List Slot))) : List (List Slot) :=
  let population := initialPopulation ++
    (List.range (cfg.populationSize - initialPopulation.length)).map (fun k =>
      createRandomSlotSolution comp teamCount pool (fillShuffle k))
  let final := gaStates sqrtA cfg comp teamCount positions pool w params ds
    ⟨population, none, 0⟩ cfg.generationCount
  ((gaScored sqrtA pool w final.population).headD ([], 0)).1

/-! ## Ant colony (SlotAntColonyOptimizer.js) -/

/-- Ant-colony configuration. -/
structure ACOConfig where
  iterations : Nat
  antCount : Nat
  evaporationRate : ℚ
  pheromoneDeposit : ℚ
  elitistWeight : ℚ
  alpha : ℚ
  beta : ℚ

/-- The pheromone matrix (`Map<playerId, Array<pheromone per team>>`),
initialised at 1.0 everywhere. -/
def phInit (pool : PlayerPool) (teamCount : Nat) : List (Nat × List ℚ) :=
  (pool.players.map (fun e => e.2.id)).map
    (fun pid => (pid, List.replicate teamCount 1))

/-- `pheromones.get(pid)`. -/
def phGet (ph : List (Nat × List ℚ)) (pid : Nat) : Option (List ℚ) :=
  (ph.find? (fun e => decide (e.1 = pid))).map (fun e => e.2)

/-- `calculateAntProbabilities`: normalised
`pheromone^alpha * (rating/1500)^beta`. -/
def antProbabilities (powA : ℚ → ℚ → ℚ) (alpha beta : ℚ) (pool : PlayerPool)
    (ph : List (Nat × List ℚ)) (ids : List Nat) (teamIdx : Nat) (pos : Role) :
    List ℚ :=
  let probs := ids.map (fun pid =>
    let tp := (phGet ph pid).getD (List.replicate 10 1)
    let pher0 := tp.getD teamIdx 0
    let pher := if pher0 = 0 then 1 else pher0
    let heuristic := getPlayerRating pool pid pos / 1500
    powA pher alpha * powA heuristic beta)
  let total := probs.sum
  probs.map (fun p => if 0 < total then p / total else 1 / (ids.length : ℚ))

/-- The roulette scan over cumulative probabilities. -/
def rouletteAux (r : ℚ) : List (Nat × ℚ) → ℚ → Option Nat
  | [], _ => none
  | e :: rest, cum =>
    if r ≤ cum + e.2 then some e.1 else rouletteAux r rest (cum + e.2)

/-- `rouletteWheelSelection`, falling back to the last id. -/
def rouletteWheelSelection (ids : List Nat) (probs : List ℚ) (r : ℚ) : Nat :=
  (rouletteAux r (ids.zip probs) 0).getD (ids.getLastD 0)

/-- Ascending scarcity of roles (total indexed ids per total need). -/
def acoScarcityLe (pool : PlayerPool) (teamCount : Nat) (a b : Role × Nat) :
    Prop :=
  ((getPlayerIdsForPosition pool a.1).length : ℚ) /
      ((a.2 * teamCount : Nat) : ℚ) ≤
    ((getPlayerIdsForPosition pool b.1).length : ℚ) /
      ((b.2 * teamCount : Nat) : ℚ)

instance (pool : PlayerPool) (teamCount : Nat) :
    DecidableRel (acoScarcityLe pool teamCount) :=
  fun _ _ => inferInstanceAs (Decidable (_ ≤ _))

/-- `playerA?.positions?.length || 1`. -/
def acoPosCount (pool : PlayerPool) (pid : Nat) : Nat :=
  match getPlayer pool pid with
  | some p => if p.positions.length = 0 then 1 else p.positions.length
  | none => 1

/-- Specialists-first order on available ids. -/
def acoSpecialistLe (pool : PlayerPool) (a b : Nat) : Prop :=
  acoPosCount pool a ≤ acoPosCount pool b

instance (pool : PlayerPool) : DecidableRel (acoSpecialistLe pool) :=
  fun _ _ => inferInstanceAs (Decidable (_ ≤ _))

/-- The per-pass working state of one ant. -/
structure AntPassState where
  teams : List (List Slot)
  used : List Nat
  avail : List Nat

/-- One slot visit of an ant: refresh the availability filter, select by
roulette, assign. -/
def antVisit (powA : ℚ → ℚ → ℚ) (alpha beta : ℚ) (pool : PlayerPool)
    (ph : List (Nat × List ℚ)) (pos : Role) (draw : ℚ) (ti : Nat)
    (s : AntPassState) : AntPassState :=
  let avail := s.avail.filter (fun id => ! s.used.contains id)
  match avail with
  | [] => ⟨s.teams, s.used, avail⟩
  | _ :: _ =>
    let probs := antProbabilities powA alpha beta pool ph avail ti pos
    let sel := rouletteWheelSelection avail probs draw
    ⟨pushAt s.teams ti sel pos, s.used ++ [sel], avail⟩

/-- `constructAntSolution`: roles scarcest-first, available ids
specialists-first, one roulette selection per slot. -/
def constructAntSolution (cfg : ACOConfig) (powA : ℚ → ℚ → ℚ)
    (comp : List (Role × Nat)) (teamCount : Nat) (pool : PlayerPool)
    (ph : List (Nat × List ℚ)) (draws : Nat → Nat → ℚ) : List (List Slot) :=
  let order := (neededEntries comp).insertionSort (acoScarcityLe pool teamCount)
  (order.enum.foldl (fun st e =>
    let avail0 := (freshIds pool st.2 e.2.1).insertionSort (acoSpecialistLe pool)
    let fin := (blockVisits teamCount e.2.2).enum.foldl (fun s v =>
      antVisit powA cfg.alpha cfg.beta pool ph e.2.1 (draws e.1 v.1) v.2 s)
      ⟨st.1, st.2, avail0⟩
    (fin.teams, fin.used))
    (List.replicate teamCount [], ([] : List Nat))).1

/-- Pheromone evaporation. -/
def phEvaporate (ph : List (Nat × List ℚ)) (rate : ℚ) : List (Nat × List ℚ) :=
  ph.map (fun e => (e.1, e.2.map (fun v => v * (1 - rate))))

/-- One pheromone deposit at a candidate and team. -/
def phAdd (ph : List (Nat × List ℚ)) (pid ti : Nat) (amt : ℚ) :
    List (Nat × List ℚ) :=
  ph.map (fun e =>
    if e.1 = pid then (e.1, e.2.set ti (e.2.getD ti 0 + amt)) else e)

/-- Deposit along one whole solution. -/
def phDepositSolution (ph : List (Nat × List ℚ)) (amt : ℚ)
    (solution : List (List Slot)) : List (Nat × List ℚ) :=
  solution.enum.foldl (fun ph2 te =>
    te.2.foldl (fun ph3 slot => phAdd ph3 slot.playerId te.1 amt) ph2) ph

/-- Random draws of one ACO run. -/
structure ACODraws where
  antDraws : Nat → Nat → Nat → Nat → ℚ
  fallback : Nat → List Nat → List Nat

/-- One ACO iteration: all ants construct, global best updates, then
evaporation and deposits (elitist extra for the best). -/
def acoIter (sqrtA : ℚ → ℚ) (cfg : ACOConfig) (powA : ℚ → ℚ → ℚ)
    (comp : List (Role × Nat)) (teamCount : Nat) (pool : PlayerPool)
    (w : List (Role × ℚ)) (d : ACODraws) (iter : Nat)
    (st : List (Nat × List ℚ) × Option (List (List Slot) × ℚ)) :
    List (Nat × List ℚ) × Option (List (List Slot) × ℚ) :=
  let ants := (List.range cfg.antCount).foldl (fun acc ant =>
    let sol := constructAntSolution cfg powA comp teamCount pool st.1
      (d.antDraws iter ant)
    let score := evaluateSlotSolution sqrtA sol pool w (1/2)
    let best := if ltInf score (acc.2.map (fun p => p.2)) then
        some (cloneSlotTeams sol, score)
      else acc.2
    (acc.1 ++ [(sol, score)], best)) (([] : List (List (List Slot) × ℚ)), st.2)
  let ph1 := phEvaporate st.1 cfg.evaporationRate
  let ph2 := ants.1.foldl (fun p s =>
    phDepositSolution p (cfg.pheromoneDeposit / (1 + s.2)) s.1) ph1
  let ph3 := match ants.2 with
    | some b => phDepositSolution ph2
        (cfg.pheromoneDeposit * cfg.elitistWeight / (1 + b.2)) b.1
    | none => ph2
  (ph3, ants.2)

/-- The ACO state after `i` iterations. -/
def acoStates (sqrtA : ℚ → ℚ) (cfg : ACOConfig) (powA : ℚ → ℚ → ℚ)
    (comp : List (Role × Nat)) (teamCount : Nat) (pool : PlayerPool)
    (w : List (Role × ℚ)) (d : ACODraws) :
    Nat → List (Nat × List ℚ) × Option (List (List Slot) × ℚ)
  | 0 => (phInit pool teamCount, none)
  | i + 1 => acoIter sqrtA cfg powA comp teamCount pool w d i
      (acoStates sqrtA cfg powA comp teamCount pool w d i)

/-- `SlotAntColonyOptimizer.solve`: the global best, or a random fallback
solution when no iteration ran. -/
def acoSolve (sqrtA : ℚ → ℚ) (cfg : ACOConfig) (powA : ℚ → ℚ → ℚ)
    (comp : List (Role × Nat)) (teamCount : Nat) (pool : PlayerPool)
    (w : List (Role × ℚ)) (d : ACODraws) : List (List Slot) :=
  match (acoStates sqrtA cfg powA comp teamCount pool w d cfg.iterations).2 with
  | some b => b.1
  | none => createRandomSlotSolution comp teamCount pool d.fallback

/-! ## Constraint programming (SlotConstraintProgrammingOptimizer.js) -/

/-- One CP variable: a team slot at a role with its candidate domain. -/
structure CPVar where
  teamIndex : Nat
  position : Role
  domain : List Nat

/-- `buildCPVariables`: one variable per team, role, and required slot. -/
def buildCPVariables (comp : List (Role × Nat)) (teamCount : Nat)
    (pool : PlayerPool) : List CPVar :=
  (List.range teamCount).flatMap (fun ti =>
    comp.flatMap (fun e =>
      (List.range e.2).map (fun _ =>
        ⟨ti, e.1, getPlayerIdsForPosition pool e.1⟩)))

/-- Try the domain values of one variable in order: skip used candidates,
assign and recurse, undo (functionally: resume from the unassigned state)
and count a backtrack on failure. -/
def cpTryDomain
    (bt : List Nat → List (List Slot) → Nat → Option (List (List Slot)) × Nat)
    (ti : Nat) (pos : Role) :
    List Nat → List Nat → List (List Slot) → Nat →
      Option (List (List Slot)) × Nat
  | [], _, _, b => (none, b)
  | pid :: restDom, used, teams, b =>
    if used.contains pid then cpTryDomain bt ti pos restDom used teams b
    else
      match bt (used ++ [pid]) (pushAt teams ti pid pos) b with
      | (some sol, b2) => (some sol, b2)
      | (none, b2) => cpTryDomain bt ti pos restDom used teams (b2 + 1)

/-- `backtrack`: all variables assigned is success; past the backtrack
budget is failure. -/
def cpBacktrack (maxB : Nat) :
    List CPVar → List Nat → List (List Slot) → Nat →
      Option (List (List Slot)) × Nat
  | [], _, teams, b => (some teams, b)
  | v :: rest, used, teams, b =>
    if maxB < b then (none, b)
    else cpTryDomain (cpBacktrack maxB rest) v.teamIndex v.position v.domain
      used teams b

/-- One CP attempt: shuffle the variables (attempts after the first),
search, keep the better solution. -/
def cpAttempt (sqrtA : ℚ → ℚ) (maxB : Nat) (teamCount : Nat)
    (pool : PlayerPool) (w : List (Role × ℚ))
    (shuffleVars : Nat → List CPVar → List CPVar)
    (st : List CPVar × Option (List (List Slot) × ℚ)) (attempt : Nat) :
    List CPVar × Option (List (List Slot) × ℚ) :=
  let vars := if 0 < attempt then shuffleVars attempt st.1 else st.1
  let result := (cpBacktrack maxB vars [] (List.replicate teamCount []) 0).1
  let best := match result with
    | some sol =>
      let score := evaluateSlotSolution sqrtA sol pool w (1/2)
      if ltInf score (st.2.map (fun p => p.2)) then some (sol, score)
      else st.2
    | none => st.2
  (vars, best)

/-- `SlotConstraintProgrammingOptimizer.solve`: up to three attempts over
(cumulatively shuffled) variable orders, keep the best-scoring solution,
fall back to the smart generator when every attempt fails. -/
def cpSolve (sqrtA : ℚ → ℚ) (maxB : Nat) (comp : List (Role × Nat))
    (teamCount : Nat) (pool : PlayerPool) (w : List (Role × ℚ))
    (shuffleVars : Nat → List CPVar → List CPVar) : List (List Slot) :=
  let attempts := min 3 ((maxB + 3999) / 4000)
  let state := (List.range attempts).foldl
    (cpAttempt sqrtA maxB teamCount pool w shuffleVars)
    (buildCPVariables comp teamCount pool,
      (none : Option (List (List Slot) × ℚ)))
  match state.2 with
  | some p => p.1
  | none => createSmartSlotSolution comp teamCount pool false
      (fun _ l => l) (fun _ _ l => l)

/-! ## Verification-side invariants for the no-duplicate property -/

/-- No candidate id occupies two slots. -/
def NodupIds (teams : List (List Slot)) : Prop := (allIds teams).Nodup

/-- Every assigned id is recorded in the used set. -/
def UsedCover (teams : List (List Slot)) (used : List Nat) : Prop :=
  ∀ id ∈ allIds teams, id ∈ used

/-- The generator-pass invariant. -/
def GenInv (st : List (List Slot) × List Nat) : Prop :=
  NodupIds st.1 ∧ UsedCover st.1 st.2

/-- The invariant of one allocation pass: sound teams/used, and the
unconsumed ids fresh and repetition-free. -/
def AllocInv (ids : List Nat) (a : Alloc) : Prop :=
  NodupIds a.teams ∧ UsedCover a.teams a.used ∧
    (∀ id ∈ ids.drop a.idx, ¬ id ∈ a.used) ∧ (ids.drop a.idx).Nodup

/-- The permutation conditions on a GA draw stream. -/
def GADrawsOK (ds : Nat → GAGenDraws) : Prop :=
  ∀ g, (∀ k, PermFn1 ((ds g).off k).randShuffle) ∧ PermFn2 (ds g).injShuffle

/-- The permutation condition on an ACO draw bundle. -/
def ACODrawsOK (d : ACODraws) : Prop := PermFn1 d.fallback

/-! # Theorems -/

/-- Accumulating `acc + f x` over a list is adding the mapped sum. -/
theorem foldl_add_eq_sum {α : Type} (f : α → ℚ) (l : List α) (a : ℚ) :
    l.foldl (fun acc x => acc + f x) a = a + (l.map f).sum := by
  induction l generalizing a with
  | nil => simp
  | cons x xs ih => simp [ih, add_assoc]

/-- A guarded-append fold builds the corresponding `filterMap`. -/
theorem foldl_guard_append {α β : Type} (p : α → Bool) (f : α → β) (l : List α)
    (init : List β) :
    l.foldl (fun acc e => if p e then acc ++ [f e] else acc) init =
      init ++ l.filterMap (fun e => if p e then some (f e) else none) := by
  induction l generalizing init with
  | nil => simp
  | cons x xs ih =>
    by_cases h : p x <;> simp [h, ih]

/-- C2 (corrected): on the code, the per-group strength used by the scoring
function is the weighted **total** `Σ rating × weight`; and the balance
computation scores exactly those per-group totals. -/
theorem calculateSlotTeamStrength_is_weighted_total (sqrtA : ℚ → ℚ)
    (teams : List (List Slot)) (team : List Slot) (pool : PlayerPool)
    (w : List (Role × ℚ)) :
    calculateSlotTeamStrength team pool w =
      (team.map (fun slot =>
        getPlayerRating pool slot.playerId slot.position * weightOr1 w slot.position)).sum ∧
    (calculateSlotTeamBalance sqrtA teams pool w).teamStrengths =
      teams.map (fun t => calculateSlotTeamStrength t pool w) := by
  constructor
  · simpa using foldl_add_eq_sum
      (fun slot => getPlayerRating pool slot.playerId slot.position * weightOr1 w slot.position)
      team 0
  · rfl

/-- C2 counterexample: for a single group with one slot whose role weight is
2 and whose rating is 1600, the code's strength is 3200 (weighted total)
while the claimed role-weighted mean is 1600; they differ. -/
theorem calculateSlotTeamStrength_not_mean :
    calculateSlotTeamStrength [⟨1, ['A']⟩]
        ⟨[(1, ⟨1, [['A']], some [(['A'], 1600)]⟩)], [(['A'], [1])]⟩ [(['A'], 2)] = 3200 ∧
    specGroupWeightedMeanRating [⟨1, ['A']⟩]
        ⟨[(1, ⟨1, [['A']], some [(['A'], 1600)]⟩)], [(['A'], [1])]⟩ [(['A'], 2)] = 1600 ∧
    (3200 : ℚ) ≠ 1600 := by
  refine ⟨?_, ?_, by norm_num⟩ <;>
    · simp only [calculateSlotTeamStrength, specGroupWeightedMeanRating, getPlayerRating,
        getPlayer, weightOr1, lookup?, List.find?, List.foldl, List.map, List.sum_cons,
        List.sum_nil]
      norm_num

/-- C3 (corrected): on a structurally empty assignment (zero groups) the
score is NaN — produced by the `0/0` average — not `+Infinity`; the function
does not throw (it is total), and no value compares with NaN under `<` in
either direction. -/
theorem evaluateSlotSolutionJS_empty_nan (sqrtA : ℚ → ℚ) (pool : PlayerPool)
    (w : List (Role × ℚ)) (varianceWeight : ℚ) :
    evaluateSlotSolutionJS sqrtA [] pool w varianceWeight = JSNum.nan ∧
    ∀ x : JSNum, JSNum.lt x JSNum.nan = false ∧ JSNum.lt JSNum.nan x = false := by
  refine ⟨rfl, fun x => ⟨?_, ?_⟩⟩ <;> cases x <;> rfl

/-- C3 counterexample: at the concrete empty input the score is NaN, which
is not the claimed `+Infinity` sentinel. -/
theorem evaluateSlotSolutionJS_empty_not_posInf :
    evaluateSlotSolutionJS (fun q => q) [] ⟨[], []⟩ [] (1/2) = JSNum.nan ∧
    JSNum.nan ≠ JSNum.posInf := by
  exact ⟨rfl, by decide⟩

/-- C4 (corrected): the slot-based composition validator reports exactly the
composition roles whose actual slot count differs from the required count
(shortfall or excess), and reports valid iff every composition role's count
matches; roles present in the group but absent from the composition are not
flagged. -/
theorem validateSlotTeamComposition_spec (team : List Slot)
    (comp : List (Role × Nat)) :
    ((validateSlotTeamComposition team comp).isValid = true ↔
      ∀ e ∈ comp, team.countP (fun s => decide (s.position = e.1)) = e.2) ∧
    (∀ pos req act, (pos, req, act) ∈ (validateSlotTeamComposition team comp).errors ↔
      ((pos, req) ∈ comp ∧ act = team.countP (fun s => decide (s.position = pos)) ∧
        act ≠ req)) := by
  have herr : (validateSlotTeamComposition team comp).errors =
      comp.filterMap (fun e =>
        if team.countP (fun s => decide (s.position = e.1)) ≠ e.2 then
          some (e.1, e.2, team.countP (fun s => decide (s.position = e.1))) else none) := by
    simpa [validateSlotTeamComposition] using
      foldl_guard_append
        (fun e => decide (team.countP (fun s => decide (s.position = e.1)) ≠ e.2))
        (fun e => (e.1, e.2, team.countP (fun s => decide (s.position = e.1))))
        comp []
  constructor
  · have hv : (validateSlotTeamComposition team comp).isValid =
        (validateSlotTeamComposition team comp).errors.isEmpty := rfl
    rw [hv, herr, List.isEmpty_iff, List.filterMap_eq_nil_iff]
    constructor
    · intro h e he
      have h2 := h e he
      by_contra hne
      simp [hne] at h2
    · intro h e he
      simp [h e he]
  · intro pos req act
    rw [herr]
    simp only [List.mem_filterMap]
    constructor
    · rintro ⟨⟨e1, e2⟩, he, hsome⟩
      by_cases hc : team.countP (fun s => decide (s.position = e1)) = e2
      · simp [hc] at hsome
      · simp [hc] at hsome
        obtain ⟨h1, h2, h3⟩ := hsome
        subst h1; subst h2
        exact ⟨he, h3.symm, h3 ▸ hc⟩
    · rintro ⟨hmem, hact, hne⟩
      refine ⟨(pos, req), hmem, ?_⟩
      subst hact
      simp [hne]

/-- C4 counterexample: composition `{A: 1}` and a group holding an `A` slot
plus a slot at role `X` not in the composition — the validator reports
valid and flags nothing, though the claim requires an unexpected-role
error. -/
theorem validateSlotTeamComposition_misses_unexpected_role :
    (validateSlotTeamComposition [⟨1, ['A']⟩, ⟨2, ['X']⟩] [(['A'], 1)]).isValid = true ∧
    (validateSlotTeamComposition [⟨1, ['A']⟩, ⟨2, ['X']⟩] [(['A'], 1)]).errors = [] ∧
    ['X'] ∈ ([⟨1, ['A']⟩, ⟨2, ['X']⟩] : List Slot).map Slot.position ∧
    ['X'] ∉ ([(['A'], 1)] : List (Role × Nat)).map Prod.fst := by decide

/-- C5 (corrected): the rating lookup returns the explicitly stored rating
only when that rating is nonzero; it returns the 1500 default exactly when
there is no stored rating **or** the stored rating is 0 (a falsy number). -/
theorem getPlayerRating_default_spec (pool : PlayerPool) (pid : Nat) (pos : Role) :
    (∃ v, storedRating pool pid pos = some v ∧ v ≠ 0 ∧
      getPlayerRating pool pid pos = v) ∨
    (getPlayerRating pool pid pos = 1500 ∧
      (storedRating pool pid pos = none ∨ storedRating pool pid pos = some 0)) := by
  unfold getPlayerRating storedRating
  cases hp : getPlayer pool pid with
  | none => simp
  | some player =>
    cases hr : player.ratings with
    | none => simp [hr]
    | some rts =>
      cases hv : lookup? rts pos with
      | none => simp [hr, hv]
      | some v =>
        by_cases hz : v = 0
        · subst hz; simp [hr, hv]
        · exact Or.inl ⟨v, by simp [hr, hv], hz, by simp [hr, hv, hz]⟩

/-- C5 counterexample: a candidate present in the pool with an explicitly
stored rating of 0 for role `A`; the lookup returns 1500, not the stored
rating, although an explicit rating exists. -/
theorem getPlayerRating_zero_rating_returns_default :
    buildPool [⟨1, [['A']], some [(['A'], 0)]⟩] =
      Except.ok ⟨[(1, ⟨1, [['A']], some [(['A'], 0)]⟩)], [(['A'], [1])]⟩ ∧
    storedRating ⟨[(1, ⟨1, [['A']], some [(['A'], 0)]⟩)], [(['A'], [1])]⟩ 1 ['A'] =
      some 0 ∧
    getPlayerRating ⟨[(1, ⟨1, [['A']], some [(['A'], 0)]⟩)], [(['A'], [1])]⟩ 1 ['A'] =
      1500 ∧ (0 : ℚ) ≠ 1500 := by
  refine ⟨rfl, rfl, ?_, by norm_num⟩
  simp only [getPlayerRating, getPlayer, lookup?, List.find?]
  norm_num

/-! ### Swap permutation lemmas -/

/-- A list is its prefix, the element at `i`, and the tail after `i`. -/
theorem eq_take_getElem_drop {α : Type} (l : List α) (i : Nat) (hi : i < l.length) :
    l = l.take i ++ l[i] :: l.drop (i + 1) := by
  have h := List.take_append_drop i l
  rw [← List.getElem_cons_drop l i hi] at h
  exact h.symm

/-- Setting inside a list, as a take/cons/drop decomposition. -/
theorem set_eq_take_cons_drop {α : Type} (l : List α) (i : Nat) (x : α)
    (hi : i < l.length) : l.set i x = l.take i ++ x :: l.drop (i + 1) := by
  rw [List.set_eq_take_append_cons_drop]
  simp [hi]

/-- Replacing one element changes a sum by swapping that element's
contribution (cancellation-free formulation). -/
theorem sum_set_add {M : Type} [AddCommMonoid M] (L : List M) (t : Nat) (v : M)
    (ht : t < L.length) : (L.set t v).sum + L[t] = L.sum + v := by
  rw [set_eq_take_cons_drop L t v ht]
  conv_rhs => rw [eq_take_getElem_drop L t ht]
  simp only [List.sum_append, List.sum_cons]
  abel

/-- Setting a slot of a row exchanges the old element for the new one, at
the multiset level. -/
theorem cons_coe_set {α : Type} (r : List α) (i : Nat) (x : α) (hi : i < r.length) :
    r[i] ::ₘ Multiset.ofList (r.set i x) = x ::ₘ Multiset.ofList r := by
  rw [set_eq_take_cons_drop r i x hi]
  conv_rhs => rw [eq_take_getElem_drop r i hi]
  have e1 : Multiset.ofList (r.take i ++ x :: r.drop (i + 1)) =
      Multiset.ofList (r.take i) + x ::ₘ Multiset.ofList (r.drop (i + 1)) := rfl
  have e2 : Multiset.ofList (r.take i ++ r[i] :: r.drop (i + 1)) =
      Multiset.ofList (r.take i) + r[i] ::ₘ Multiset.ofList (r.drop (i + 1)) := rfl
  rw [e1, e2]
  simp only [← Multiset.singleton_add]
  abel

/-- `swapSlots`, written out (unfolds the local bindings). -/
theorem swapSlots_def (teams : List (List Slot)) (t1 i1 t2 i2 : Nat) :
    swapSlots teams t1 i1 t2 i2 =
      (teams.set t1 ((teams.getD t1 []).set i1 ((teams.getD t2 []).getD i2 default))).set
        t2
        (((teams.set t1 ((teams.getD t1 []).set i1
            ((teams.getD t2 []).getD i2 default))).getD t2 []).set i2
          ((teams.getD t1 []).getD i1 default)) := rfl

/-- Replacing one row changes the slot multiset by swapping that row's
contribution. -/
theorem slotsM_set (teams : List (List Slot)) (t : Nat) (r' : List Slot)
    (ht : t < teams.length) :
    slotsM (teams.set t r') + Multiset.ofList teams[t] =
      slotsM teams + Multiset.ofList r' := by
  unfold slotsM
  rw [List.map_set]
  have h := sum_set_add (teams.map (fun team => Multiset.ofList team)) t
    (Multiset.ofList r') (by simpa using ht)
  simpa using h

/-- `swapSlots` leaves the multiset of slots unchanged (for in-range
indices). -/
theorem swapSlots_slotsM (teams : List (List Slot)) (t1 i1 t2 i2 : Nat)
    (h1 : slotInRange teams t1 i1) (h2 : slotInRange teams t2 i2) :
    slotsM (swapSlots teams t1 i1 t2 i2) = slotsM teams := by
  obtain ⟨ht1, hi1⟩ := h1
  obtain ⟨ht2, hi2⟩ := h2
  have hgd1 : teams.getD t1 [] = teams[t1] := List.getD_eq_getElem teams [] ht1
  have hgd2 : teams.getD t2 [] = teams[t2] := List.getD_eq_getElem teams [] ht2
  rw [hgd1] at hi1
  rw [hgd2] at hi2
  rw [swapSlots_def, hgd1, hgd2]
  rcases eq_or_ne t1 t2 with heq | hne
  · subst heq
    set row := teams[t1] with hrow
    set b := row.getD i2 default with hb
    set a := row.getD i1 default with ha
    have ha' : a = row[i1] := List.getD_eq_getElem row default hi1
    have hb' : b = row[i2] := List.getD_eq_getElem row default hi2
    have hset1 : (teams.set t1 (row.set i1 b)).getD t1 [] = row.set i1 b := by
      rw [List.getD_eq_getElem _ [] (by simpa using ht1)]
      simp
    rw [hset1, List.set_set]
    have hlen1 : i2 < (row.set i1 b).length := by simpa using hi2
    have hmid : (row.set i1 b)[i2] = b := by
      rcases eq_or_ne i1 i2 with hii | hii
      · subst hii; simp
      · rw [List.getElem_set_ne hii]
        exact hb'.symm
    have hcancel : Multiset.ofList ((row.set i1 b).set i2 a) = Multiset.ofList row := by
      have s1 := cons_coe_set row i1 b hi1
      have s2 := cons_coe_set (row.set i1 b) i2 a hlen1
      rw [hmid] at s2
      rw [← ha'] at s1
      exact (Multiset.cons_inj_right b).mp (s2.trans s1)
    have hfin := slotsM_set teams t1 ((row.set i1 b).set i2 a) ht1
    rw [hcancel] at hfin
    rw [← hrow] at hfin
    exact add_right_cancel hfin
  · set row1 := teams[t1] with hrow1
    set row2 := teams[t2] with hrow2
    set b := row2.getD i2 default with hb
    set a := row1.getD i1 default with ha
    have ha' : a = row1[i1] := List.getD_eq_getElem row1 default hi1
    have hb' : b = row2[i2] := List.getD_eq_getElem row2 default hi2
    have hset2 : (teams.set t1 (row1.set i1 b)).getD t2 [] = row2 := by
      rw [List.getD_eq_getElem _ [] (by simpa using ht2)]
      rw [List.getElem_set_ne hne]
    rw [hset2]
    have hstep1 := slotsM_set teams t1 (row1.set i1 b) ht1
    have ht2' : t2 < (teams.set t1 (row1.set i1 b)).length := by simpa using ht2
    have hstep2 := slotsM_set (teams.set t1 (row1.set i1 b)) t2 (row2.set i2 a)
      ht2'
    have hmid2 : (teams.set t1 (row1.set i1 b))[t2] = row2 := by
      rw [List.getElem_set_ne hne]
    rw [hmid2] at hstep2
    have s1 := cons_coe_set row1 i1 b hi1
    have s2 := cons_coe_set row2 i2 a hi2
    rw [← ha'] at s1
    rw [← hb'] at s2
    have e1 : Multiset.ofList (row1.set i1 b) + {a} =
        Multiset.ofList row1 + {b} := by
      simpa [← Multiset.singleton_add, add_comm] using s1
    have e2 : Multiset.ofList (row2.set i2 a) + {b} =
        Multiset.ofList row2 + {a} := by
      simpa [← Multiset.singleton_add, add_comm] using s2
    have key : slotsM ((teams.set t1 (row1.set i1 b)).set t2 (row2.set i2 a)) +
        (Multiset.ofList row2 + Multiset.ofList row1 + {a} + {b}) =
        slotsM teams + (Multiset.ofList row2 + Multiset.ofList row1 + {a} + {b}) := by
      calc slotsM ((teams.set t1 (row1.set i1 b)).set t2 (row2.set i2 a)) +
            (Multiset.ofList row2 + Multiset.ofList row1 + {a} + {b})
          = (slotsM ((teams.set t1 (row1.set i1 b)).set t2 (row2.set i2 a)) +
              Multiset.ofList row2) + (Multiset.ofList row1 + {a} + {b}) := by abel
        _ = (slotsM (teams.set t1 (row1.set i1 b)) +
              Multiset.ofList (row2.set i2 a)) +
              (Multiset.ofList row1 + {a} + {b}) := by rw [hstep2]
        _ = (slotsM (teams.set t1 (row1.set i1 b)) + Multiset.ofList row1) +
              ((Multiset.ofList (row2.set i2 a) + {b}) + {a}) := by abel
        _ = (slotsM teams + Multiset.ofList (row1.set i1 b)) +
              ((Multiset.ofList row2 + {a}) + {a}) := by rw [hstep1, e2]
        _ = (slotsM teams + (Multiset.ofList (row1.set i1 b) + {a})) +
              (Multiset.ofList row2 + {a}) := by abel
        _ = (slotsM teams + (Multiset.ofList row1 + {b})) +
              (Multiset.ofList row2 + {a}) := by rw [e1]
        _ = slotsM teams +
              (Multiset.ofList row2 + Multiset.ofList row1 + {a} + {b}) := by abel
    exact add_right_cancel key

/-- Writing back the element already present is the identity. -/
theorem set_getElem_self {α : Type} (l : List α) (i : Nat) (hi : i < l.length) :
    l.set i (l[i]) = l := by
  apply List.ext_getElem
  · simp
  · intro n h1 h2
    rw [List.getElem_set]
    split
    · next he => subst he; rfl
    · rfl

/-- Exchanging the elements at two positions permutes a list. -/
theorem set_set_perm {α : Type} [DecidableEq α] (l : List α) (i j : Nat)
    (hi : i < l.length) (hj : j < l.length) :
    List.Perm ((l.set i (l[j])).set j (l[i])) l := by
  rcases eq_or_ne i j with h | h
  · subst h
    rw [List.set_set, set_getElem_self]
  · rw [List.perm_iff_count]
    intro a
    have hj2 : j < ((l.set i l[j]).length) := by simpa using hj
    rw [List.count_set _ _ _ _ hj2, List.count_set _ _ _ _ hi]
    rw [List.getElem_set_ne h]
    have hle : (if (l[i] == a) = true then 1 else 0) ≤ List.count a l := by
      by_cases hx : l[i] = a
      · simp only [hx, beq_self_eq_true, if_true]
        exact List.count_pos_iff.mpr (hx ▸ l.getElem_mem hi)
      · simp [hx]
    cases e1 : (l[i] == a) <;> cases e2 : (l[j] == a) <;> rw [e1] at hle <;>
        simp at hle ⊢ <;>
      first
      | omega
      | (have hc := List.count_pos_iff.mpr hle; omega)

/-- Replacing one element changes `countP` by swapping that element's
contribution (cancellation-free formulation). -/
theorem countP_set_add {α : Type} (p : α → Bool) (r : List α) (i : Nat) (x : α)
    (hi : i < r.length) :
    (r.set i x).countP p + (if p (r[i]) then 1 else 0) =
      r.countP p + (if p x then 1 else 0) := by
  rw [set_eq_take_cons_drop r i x hi]
  conv_rhs => rw [eq_take_getElem_drop r i hi]
  simp only [List.countP_append, List.countP_cons]
  omega

/-- Setting a list entry to one of equal length fixes the length profile. -/
theorem map_length_set_self (L : List (List Slot)) (t : Nat) (r : List Slot)
    (hr : r.length = (L.getD t []).length) :
    (L.map List.length).set t r.length = L.map List.length := by
  by_cases ht : t < L.length
  · rw [hr, List.getD_eq_getElem L [] ht]
    have ht' : t < (L.map List.length).length := by simpa using ht
    have he : L[t].length = (L.map List.length)[t] := by simp
    rw [he, set_getElem_self]
  · exact List.set_eq_of_length_le (by simpa using Nat.le_of_not_lt ht)

/-- A row of a once-set list of rows keeps its length. -/
theorem getD_set_length (teams : List (List Slot)) (t1 t2 : Nat) (r : List Slot)
    (hr : r.length = (teams.getD t1 []).length) :
    ((teams.set t1 r).getD t2 []).length = (teams.getD t2 []).length := by
  by_cases ht2 : t2 < teams.length
  · by_cases h12 : t1 = t2
    · subst h12
      have ht1 : t1 < teams.length := ht2
      rw [List.getD_eq_getElem _ [] (by simpa using ht2),
        List.getD_eq_getElem _ [] ht2]
      rw [List.getElem_set]
      rw [if_pos rfl, hr, List.getD_eq_getElem _ [] ht1]
    · rw [List.getD_eq_getElem _ [] (by simpa using ht2),
        List.getD_eq_getElem _ [] ht2]
      rw [List.getElem_set_ne h12]
  · rw [List.getD_eq_default _ _ (by simpa using Nat.le_of_not_lt ht2),
      List.getD_eq_default _ _ (Nat.le_of_not_lt ht2)]

/-- `swapSlots` does not change the outer length or any row length. -/
theorem swapSlots_map_length (teams : List (List Slot)) (t1 i1 t2 i2 : Nat) :
    (swapSlots teams t1 i1 t2 i2).map List.length = teams.map List.length := by
  rw [swapSlots_def]
  rw [List.map_set, List.map_set]
  have hA := map_length_set_self teams t1
    ((teams.getD t1 []).set i1 ((teams.getD t2 []).getD i2 default)) (by simp)
  rw [hA]
  have hB : (((teams.set t1 ((teams.getD t1 []).set i1
      ((teams.getD t2 []).getD i2 default))).getD t2 []).set i2
        ((teams.getD t1 []).getD i1 default)).length = (teams.getD t2 []).length := by
    rw [List.length_set]
    exact getD_set_length teams t1 t2 _ (by simp)
  rw [hB]
  exact map_length_set_self teams t2 (teams.getD t2 []) rfl

/-- Being in range is invariant under `swapSlots` calls. -/
theorem swapSlots_slotInRange (teams : List (List Slot)) (t1 i1 t2 i2 t i : Nat) :
    slotInRange (swapSlots teams t1 i1 t2 i2) t i ↔ slotInRange teams t i := by
  have hlen : (swapSlots teams t1 i1 t2 i2).length = teams.length := by
    have := congrArg List.length (swapSlots_map_length teams t1 i1 t2 i2)
    simpa using this
  have hrow : ((swapSlots teams t1 i1 t2 i2).getD t []).length =
      (teams.getD t []).length := by
    have h0 := swapSlots_map_length teams t1 i1 t2 i2
    by_cases ht : t < teams.length
    · have ht' : t < (swapSlots teams t1 i1 t2 i2).length := by rw [hlen]; exact ht
      rw [List.getD_eq_getElem _ [] ht', List.getD_eq_getElem _ [] ht]
      have h1 := congrArg (fun L => L.getD t 0) h0
      simp only at h1
      rw [List.getD_eq_getElem _ 0 (by simpa using ht'),
        List.getD_eq_getElem _ 0 (by simpa using ht)] at h1
      simpa using h1
    · rw [List.getD_eq_default _ _ (by simpa [hlen] using Nat.le_of_not_lt ht),
        List.getD_eq_default _ _ (Nat.le_of_not_lt ht)]
  unfold slotInRange
  rw [hlen, hrow]

/-- The id list of an assignment is the id image of its slot multiset. -/
theorem allIds_coe (teams : List (List Slot)) :
    Multiset.ofList (allIds teams) = Multiset.map Slot.playerId (slotsM teams) := by
  induction teams with
  | nil => rfl
  | cons team rest ih =>
    have h1 : allIds (team :: rest) = team.map (·.playerId) ++ allIds rest := rfl
    have h2 : slotsM (team :: rest) = Multiset.ofList team + slotsM rest := by
      simp [slotsM]
    rw [h1, h2]
    have h3 : Multiset.ofList (team.map (·.playerId) ++ allIds rest) =
        Multiset.ofList (team.map (·.playerId)) + Multiset.ofList (allIds rest) := rfl
    rw [h3, ih]
    simp [Multiset.map_add]

/-- Assignments with the same slot multiset use the same candidate ids. -/
theorem usedIds_of_slotsM_eq {A B : List (List Slot)} (h : slotsM A = slotsM B) :
    getUsedPlayerIds A = getUsedPlayerIds B := by
  unfold getUsedPlayerIds
  have hA : (allIds A).toFinset = (Multiset.ofList (allIds A)).toFinset := rfl
  have hB : (allIds B).toFinset = (Multiset.ofList (allIds B)).toFinset := rfl
  rw [hA, hB, allIds_coe, allIds_coe, h]

/-- Assignments with the same slot multiset agree on the duplicate check
(proved below via the `Nodup` characterisation). -/
theorem seenScan_false_iff (xs : List Nat) :
    ∀ seen : List Nat, seenScan seen xs = false ↔
      xs.Nodup ∧ ∀ x ∈ xs, x ∉ seen := by
  induction xs with
  | nil => intro seen; simp [seenScan]
  | cons x xs ih =>
    intro seen
    unfold seenScan
    cases hx : seen.contains x
    · simp only [hx, Bool.false_eq_true, if_false]
      rw [ih (x :: seen)]
      have hxs : ¬ x ∈ seen := by
        intro hc
        have h2 : seen.contains x = true := by simpa using hc
        rw [h2] at hx; cases hx
      constructor
      · rintro ⟨hnd, hall⟩
        refine ⟨List.nodup_cons.mpr ⟨?_, hnd⟩, ?_⟩
        · intro hc
          have h3 := hall x hc
          simp at h3
        · intro y hy
          rcases List.mem_cons.mp hy with hy | hy
          · subst hy; exact hxs
          · have h4 := hall y hy
            intro hc
            exact h4 (List.mem_cons_of_mem x hc)
      · rintro ⟨hnd, hall⟩
        obtain ⟨hx2, hnd2⟩ := List.nodup_cons.mp hnd
        refine ⟨hnd2, ?_⟩
        intro y hy hc
        rcases List.mem_cons.mp hc with he | he
        · subst he
          exact hx2 hy
        · exact hall y (List.mem_cons_of_mem x hy) he
    · simp only [hx, if_true]
      constructor
      · intro h; cases h
      · rintro ⟨-, hall⟩
        have hmem : x ∈ seen := by simpa using hx
        exact absurd hmem (hall x (by simp))

/-- `hasDuplicatePlayerIds` is the complement of id-list `Nodup`. -/
theorem hasDuplicatePlayerIds_eq_false_iff (teams : List (List Slot)) :
    hasDuplicatePlayerIds teams = false ↔ (allIds teams).Nodup := by
  unfold hasDuplicatePlayerIds
  rw [seenScan_false_iff]
  simp

/-- Assignments with the same slot multiset agree on duplicate-freeness. -/
theorem hasDup_of_slotsM_eq {A B : List (List Slot)} (h : slotsM A = slotsM B) :
    hasDuplicatePlayerIds A = hasDuplicatePlayerIds B := by
  have hids : Multiset.ofList (allIds A) = Multiset.ofList (allIds B) := by
    rw [allIds_coe, allIds_coe, h]
  have hperm : (allIds A).Perm (allIds B) := Multiset.coe_eq_coe.mp hids
  by_cases hA : hasDuplicatePlayerIds A = false
  · have := (hasDuplicatePlayerIds_eq_false_iff A).mp hA
    have hB := (hasDuplicatePlayerIds_eq_false_iff B).mpr (hperm.nodup this)
    rw [hA, hB]
  · have hA' : hasDuplicatePlayerIds A = true := by
      cases h : hasDuplicatePlayerIds A
      · exact absurd h hA
      · rfl
    have hB' : hasDuplicatePlayerIds B = true := by
      cases h2 : hasDuplicatePlayerIds B
      · have := (hasDuplicatePlayerIds_eq_false_iff B).mp h2
        have := (hasDuplicatePlayerIds_eq_false_iff A).mpr (hperm.symm.nodup this)
        rw [this] at hA'
        cases hA'
      · rfl
    rw [hA', hB']

/-! ### Operator choice-membership facts -/

/-- A successful `pick?` yields a member of the list. -/
theorem pick?_mem {α : Type} {l : List α} {i : Nat} {x : α} (h : pick? l i = some x) :
    x ∈ l :=
  List.getElem?_mem (by simpa [pick?, List.get?_eq_getElem?] using h)

/-- A found slot index is in range and carries the searched role. -/
theorem findSlotsByPosition_mem {team : List Slot} {pos : Role} {i : Nat}
    (h : i ∈ findSlotsByPosition team pos) :
    i < team.length ∧ (team.getD i default).position = pos := by
  unfold findSlotsByPosition at h
  rw [List.mem_filterMap] at h
  obtain ⟨⟨n, s⟩, hmem, hsome⟩ := h
  by_cases hp : s.position = pos
  · simp only [hp, if_pos, Option.some.injEq] at hsome
    subst hsome
    obtain ⟨hlt, hs⟩ := List.mem_enum hmem
    refine ⟨hlt, ?_⟩
    rw [List.getD_eq_getElem _ _ hlt, ← hs, hp]
  · simp [hp] at hsome

/-- The head with default of a nonempty list is a member. -/
theorem headD_mem {α : Type} {l : List α} (d : α) (h : l ≠ []) : l.headD d ∈ l := by
  cases l with
  | nil => exact absurd rfl h
  | cons x xs => simp

/-- The last with default of a nonempty list is a member. -/
theorem getLastD_mem {α : Type} {l : List α} (d : α) (h : l ≠ []) :
    l.getLastD d ∈ l := by
  rw [List.getLastD_eq_getLast?, List.getLast?_eq_getLast l h]
  exact List.getLast_mem h

/-- The scan for the best-rated slot index stays inside the candidate
list. -/
theorem scanBestSlot_fst_mem (team : List Slot) (pool : PlayerPool) (pos : Role)
    (slotIdxs : List Nat) (better : ℚ → ℚ → Bool) (h : slotIdxs ≠ []) :
    (scanBestSlot team pool pos slotIdxs better).1 ∈ slotIdxs := by
  unfold scanBestSlot
  have aux : ∀ (l : List Nat) (acc : Nat × ℚ),
      (l.foldl (fun acc slotIdx =>
        if better (getPlayerRating pool ((team.getD slotIdx default).playerId) pos) acc.2
        then (slotIdx, getPlayerRating pool ((team.getD slotIdx default).playerId) pos)
        else acc) acc).1 = acc.1 ∨
      (l.foldl (fun acc slotIdx =>
        if better (getPlayerRating pool ((team.getD slotIdx default).playerId) pos) acc.2
        then (slotIdx, getPlayerRating pool ((team.getD slotIdx default).playerId) pos)
        else acc) acc).1 ∈ l := by
    intro l
    induction l with
    | nil => intro acc; left; rfl
    | cons x xs ih =>
      intro acc
      simp only [List.foldl_cons]
      rcases ih (if better (getPlayerRating pool ((team.getD x default).playerId) pos) acc.2
          then (x, getPlayerRating pool ((team.getD x default).playerId) pos) else acc) with
        h1 | h1
      · rw [h1]
        by_cases hb : better (getPlayerRating pool ((team.getD x default).playerId) pos) acc.2 = true
        · right
          rw [if_pos hb]
          simp
        · left
          rw [if_neg hb]
      · right
        exact List.mem_cons_of_mem x h1
  rcases aux slotIdxs (slotIdxs.headD 0,
      getPlayerRating pool ((team.getD (slotIdxs.headD 0) default).playerId) pos) with
    h1 | h1
  · rw [h1]
    exact headD_mem 0 h
  · exact h1

/-- Every ranked entry indexes an existing group. -/
theorem rankedTeamStrengths_mem {teams : List (List Slot)} {pool : PlayerPool}
    {w : List (Role × ℚ)} {e : Nat × ℚ} (h : e ∈ rankedTeamStrengths teams pool w) :
    e.1 < teams.length := by
  unfold rankedTeamStrengths at h
  rw [List.mem_mergeSort, List.mem_map] at h
  obtain ⟨⟨n, row⟩, hmem, he⟩ := h
  have hn := (List.mem_enum hmem).1
  rw [← he]
  exact hn

/-- The ranking has one entry per group. -/
theorem rankedTeamStrengths_length (teams : List (List Slot)) (pool : PlayerPool)
    (w : List (Role × ℚ)) :
    (rankedTeamStrengths teams pool w).length = teams.length := by
  unfold rankedTeamStrengths
  rw [List.length_mergeSort, List.length_map, List.enum_length]

/-- `getD` after setting a different index. -/
theorem getD_set_ne {α : Type} (l : List α) (d : α) (n : Nat) (v : α) (m : Nat)
    (h : m ≠ n) : (l.set n v).getD m d = l.getD m d := by
  by_cases hm : m < l.length
  · rw [List.getD_eq_getElem _ _ (by simpa using hm), List.getD_eq_getElem _ _ hm]
    exact List.getElem_set_ne (Ne.symm h) _
  · rw [List.getD_eq_default _ _ (by simpa using Nat.le_of_not_lt hm),
      List.getD_eq_default _ _ (Nat.le_of_not_lt hm)]

/-- `getD` after setting the same index. -/
theorem getD_set_self {α : Type} (l : List α) (d : α) (n : Nat) (v : α)
    (h : n < l.length) : (l.set n v).getD n d = v := by
  rw [List.getD_eq_getElem _ _ (by simpa using h)]
  simp

/-- Swapping two slots that carry the same role keeps every group's
per-role slot count. -/
theorem swapSlots_countRole (teams : List (List Slot)) (t1 i1 t2 i2 : Nat)
    (h1 : slotInRange teams t1 i1) (h2 : slotInRange teams t2 i2)
    (hpos : ((teams.getD t1 []).getD i1 default).position =
      ((teams.getD t2 []).getD i2 default).position) :
    ∀ t pos, countRole (swapSlots teams t1 i1 t2 i2) t pos = countRole teams t pos := by
  intro t pos
  obtain ⟨ht1, hi1⟩ := h1
  obtain ⟨ht2, hi2⟩ := h2
  set p : Slot → Bool := fun s => decide (s.position = pos) with hp
  set r1 := teams.getD t1 [] with hr1
  set r2 := teams.getD t2 [] with hr2
  set a := r1.getD i1 default with ha
  set b := r2.getD i2 default with hb
  have ha' : a = r1[i1] := List.getD_eq_getElem r1 default hi1
  have hb' : b = r2[i2] := List.getD_eq_getElem r2 default hi2
  have hpab : p a = p b := by
    simp only [hp, hpos]
  unfold countRole
  rw [swapSlots_def]
  rcases eq_or_ne t2 t1 with hT | hT
  · subst hT
    have hrr : r2 = r1 := rfl
    have hin : (teams.set t2 (r1.set i1 b)).getD t2 [] = r1.set i1 b :=
      getD_set_self teams [] t2 (r1.set i1 b) ht1
    rw [hin, List.set_set]
    rcases eq_or_ne t t2 with hTT | hTT
    · subst hTT
      rw [getD_set_self teams [] t ((r1.set i1 b).set i2 a) ht1]
      have hi2' : i2 < (r1.set i1 b).length := by simpa using hi2
      have hmid : (r1.set i1 b)[i2] = b := by
        rcases eq_or_ne i1 i2 with hii | hii
        · subst hii; simp
        · rw [List.getElem_set_ne hii]
          exact hb'.symm
      have c1 := countP_set_add p r1 i1 b hi1
      have c2 := countP_set_add p (r1.set i1 b) i2 a hi2'
      rw [hmid] at c2
      rw [← ha'] at c1
      rw [hpab] at c1
      have c2' : ((r1.set i1 b).set i2 a).countP p + (if p b then 1 else 0) =
          (r1.set i1 b).countP p + (if p b then 1 else 0) := by
        rw [c2, ← hpab]
      have e1 : (r1.set i1 b).countP p = r1.countP p := Nat.add_right_cancel c1
      have e2 : ((r1.set i1 b).set i2 a).countP p = (r1.set i1 b).countP p :=
        Nat.add_right_cancel c2'
      rw [e2, e1]
    · rw [getD_set_ne teams [] t2 _ t hTT]
  · have hin : (teams.set t1 (r1.set i1 b)).getD t2 [] = r2 :=
      getD_set_ne teams [] t1 (r1.set i1 b) t2 hT
    rw [hin]
    rcases eq_or_ne t t2 with hTT | hTT
    · subst hTT
      rw [getD_set_self (teams.set t1 (r1.set i1 b)) [] t (r2.set i2 a)
        (by simpa using ht2)]
      have c2 := countP_set_add p r2 i2 a hi2
      rw [← hb'] at c2
      rw [← hpab] at c2
      exact Nat.add_right_cancel c2
    · rw [getD_set_ne (teams.set t1 (r1.set i1 b)) [] t2 _ t hTT]
      rcases eq_or_ne t t1 with hT1 | hT1
      · subst hT1
        rw [getD_set_self teams [] t (r1.set i1 b) ht1]
        have c1 := countP_set_add p r1 i1 b hi1
        rw [← ha', hpab] at c1
        exact Nat.add_right_cancel c1
      · rw [getD_set_ne teams [] t1 _ t hT1]

/-- `performSlotSwap` is a no-op or an in-range same-role `swapSlots`. -/
theorem performSlotSwap_cases (teams : List (List Slot)) (positions : List Role)
    (pool : PlayerPool) (ch : BasicSwapChoices) :
    performSlotSwap teams positions pool ch = teams ∨
    ∃ t1 i1 t2 i2, slotInRange teams t1 i1 ∧ slotInRange teams t2 i2 ∧
      ((teams.getD t1 []).getD i1 default).position =
        ((teams.getD t2 []).getD i2 default).position ∧
      performSlotSwap teams positions pool ch = swapSlots teams t1 i1 t2 i2 := by
  unfold performSlotSwap
  by_cases hn : teams.length < 2
  · left
    rw [if_pos hn]
  · rw [if_neg hn]
    cases hpos : pick? positions ch.posIdx with
    | none => left; rfl
    | some pos =>
      cases hk1 : pick? (findSlotsByPosition (teams.getD (ch.t1 % teams.length) []) pos)
          ch.k1 with
      | none =>
        left
        simp only [List.getD_eq_getElem?_getD] at hk1
        simp [hk1]
      | some idx1 =>
        cases hk2 : pick? (findSlotsByPosition (teams.getD (ch.t2 % teams.length) []) pos)
            ch.k2 with
        | none =>
          left
          simp only [List.getD_eq_getElem?_getD] at hk1 hk2
          simp [hk1, hk2]
        | some idx2 =>
          right
          have hm1 := findSlotsByPosition_mem (pick?_mem hk1)
          have hm2 := findSlotsByPosition_mem (pick?_mem hk2)
          have hlen : 0 < teams.length := by omega
          exact ⟨ch.t1 % teams.length, idx1, ch.t2 % teams.length, idx2,
            ⟨Nat.mod_lt _ hlen, hm1.1⟩, ⟨Nat.mod_lt _ hlen, hm2.1⟩,
            by rw [hm1.2, hm2.2], by
              simp only [List.getD_eq_getElem?_getD] at hk1 hk2
              simp [hk1, hk2]⟩

/-- `performCrossTeamSlotSwap` is a no-op or an in-range same-role
`swapSlots`. -/
theorem performCrossTeamSlotSwap_cases (teams : List (List Slot))
    (pool : PlayerPool) (ch : CrossSwapChoices) :
    performCrossTeamSlotSwap teams pool ch = teams ∨
    ∃ t1 i1 t2 i2, slotInRange teams t1 i1 ∧ slotInRange teams t2 i2 ∧
      ((teams.getD t1 []).getD i1 default).position =
        ((teams.getD t2 []).getD i2 default).position ∧
      performCrossTeamSlotSwap teams pool ch = swapSlots teams t1 i1 t2 i2 := by
  unfold performCrossTeamSlotSwap
  by_cases hn : teams.length < 2
  · left
    rw [if_pos hn]
  · rw [if_neg hn]
    by_cases he : (teams.getD (ch.t1 % teams.length) []).length = 0 ∨
        (teams.getD (ch.t2 % teams.length) []).length = 0
    · left
      rw [if_pos he]
    · rw [if_neg he]
      by_cases hc : (List.filter
          (fun pos => (firstDedup ((teams.getD (ch.t2 % teams.length) []).map
            (·.position))).contains pos)
          (firstDedup ((teams.getD (ch.t1 % teams.length) []).map (·.position)))).isEmpty
      · left
        rw [if_pos hc]
      · rw [if_neg hc]
        cases hcp : pick? (List.filter
            (fun pos => (firstDedup ((teams.getD (ch.t2 % teams.length) []).map
              (·.position))).contains pos)
            (firstDedup ((teams.getD (ch.t1 % teams.length) []).map (·.position))))
            ch.posIdx with
        | none => left; rfl
        | some position =>
          cases hk1 : pick? (findSlotsByPosition
              (teams.getD (ch.t1 % teams.length) []) position) ch.k1 with
          | none =>
            left
            simp only [List.getD_eq_getElem?_getD] at hk1
            simp [hk1]
          | some slot1 =>
            cases hk2 : pick? (findSlotsByPosition
                (teams.getD (ch.t2 % teams.length) []) position) ch.k2 with
            | none =>
              left
              simp only [List.getD_eq_getElem?_getD] at hk1 hk2
              simp [hk1, hk2]
            | some slot2 =>
              right
              have hm1 := findSlotsByPosition_mem (pick?_mem hk1)
              have hm2 := findSlotsByPosition_mem (pick?_mem hk2)
              have hlen : 0 < teams.length := by omega
              exact ⟨ch.t1 % teams.length, slot1, ch.t2 % teams.length, slot2,
                ⟨Nat.mod_lt _ hlen, hm1.1⟩, ⟨Nat.mod_lt _ hlen, hm2.1⟩,
                by rw [hm1.2, hm2.2], by
                  simp only [List.getD_eq_getElem?_getD] at hk1 hk2
                  simp [hk1, hk2]⟩

/-- `performPositionSlotSwap` is a no-op or replaces one group by a
permutation of itself. -/
theorem performPositionSlotSwap_cases (teams : List (List Slot))
    (pool : PlayerPool) (ch : IntraSwapChoices) :
    performPositionSlotSwap teams pool ch = teams ∨
    ∃ tI team', tI < teams.length ∧ List.Perm team' (teams.getD tI []) ∧
      performPositionSlotSwap teams pool ch = teams.set tI team' := by
  unfold performPositionSlotSwap
  by_cases hn : teams.length = 0
  · left
    rw [if_pos hn]
  · rw [if_neg hn]
    by_cases hlt : (teams.getD (ch.tIdx % teams.length) []).length < 2
    · left
      rw [if_pos hlt]
    · rw [if_neg hlt]
      dsimp only
      cases hcp : pick? (firstDedup ((teams.getD (ch.tIdx % teams.length) []).map
          (·.position))) ch.posIdx with
      | none => left; rfl
      | some position =>
        dsimp only
        by_cases hge : (findSlotsByPosition (teams.getD (ch.tIdx % teams.length) [])
            position).length ≥ 2
        · rw [if_pos hge]
          cases hk1 : pick? (findSlotsByPosition
              (teams.getD (ch.tIdx % teams.length) []) position) ch.i1 with
          | none => left; rfl
          | some slot1 =>
            cases hk2 : pick? (findSlotsByPosition
                (teams.getD (ch.tIdx % teams.length) []) position) ch.i2 with
            | none => left; rfl
            | some slot2 =>
              right
              have hm1 := findSlotsByPosition_mem (pick?_mem hk1)
              have hm2 := findSlotsByPosition_mem (pick?_mem hk2)
              have hlen : 0 < teams.length := Nat.pos_of_ne_zero hn
              set team := teams.getD (ch.tIdx % teams.length) [] with hteam
              refine ⟨ch.tIdx % teams.length,
                (team.set slot1 (team.getD slot2 default)).set slot2
                  (team.getD slot1 default),
                Nat.mod_lt _ hlen, ?_, rfl⟩
              have hs1 := hm1.1
              have hs2 := hm2.1
              have hg1 : team.getD slot1 default = team[slot1] :=
                List.getD_eq_getElem team default hs1
              have hg2 : team.getD slot2 default = team[slot2] :=
                List.getD_eq_getElem team default hs2
              rw [hg1, hg2]
              exact set_set_perm team slot1 slot2 hm1.1 hm2.1
        · left
          rw [if_neg hge]

/-- `performAdaptiveSlotSwap` is a no-op or an in-range same-role
`swapSlots` (directly, or through its `performSlotSwap` fallback). -/
theorem performAdaptiveSlotSwap_cases (teams : List (List Slot))
    (positions : List Role) (pool : PlayerPool) (params : AdaptiveParams)
    (ch : AdaptiveSwapChoices) :
    performAdaptiveSlotSwap teams positions pool params ch = teams ∨
    ∃ t1 i1 t2 i2, slotInRange teams t1 i1 ∧ slotInRange teams t2 i2 ∧
      ((teams.getD t1 []).getD i1 default).position =
        ((teams.getD t2 []).getD i2 default).position ∧
      performAdaptiveSlotSwap teams positions pool params ch =
        swapSlots teams t1 i1 t2 i2 := by
  unfold performAdaptiveSlotSwap
  by_cases hn : teams.length < 2
  · left
    rw [if_pos hn]
  · rw [if_neg hn]
    dsimp only
    have hrnonnil : rankedTeamStrengths teams pool params.positionWeights ≠ [] := by
      have hl := rankedTeamStrengths_length teams pool params.positionWeights
      intro hcon
      rw [hcon] at hl
      simp at hl
      omega
    have hstr_lt :
        ((rankedTeamStrengths teams pool params.positionWeights).headD (0, 0)).1 <
          teams.length :=
      rankedTeamStrengths_mem (headD_mem (0, 0) hrnonnil)
    have hweak_lt :
        ((rankedTeamStrengths teams pool params.positionWeights).getLastD (0, 0)).1 <
          teams.length :=
      rankedTeamStrengths_mem (getLastD_mem (0, 0) hrnonnil)
    by_cases hp : ch.pDraw < params.strongWeakSwapProbability ∧
        ((rankedTeamStrengths teams pool params.positionWeights).headD (0, 0)).1 ≠
          ((rankedTeamStrengths teams pool params.positionWeights).getLastD (0, 0)).1
    · rw [if_pos hp]
      cases hcp : pick? positions ch.posIdx with
      | none => exact performSlotSwap_cases teams positions pool ch.basic
      | some position =>
        dsimp only
        by_cases hne : findSlotsByPosition
            (teams.getD ((rankedTeamStrengths teams pool
              params.positionWeights).headD (0, 0)).1 []) position ≠ [] ∧
            findSlotsByPosition
              (teams.getD ((rankedTeamStrengths teams pool
                params.positionWeights).getLastD (0, 0)).1 []) position ≠ []
        · rw [if_pos hne]
          have hsmem := scanBestSlot_fst_mem
            (teams.getD ((rankedTeamStrengths teams pool
              params.positionWeights).headD (0, 0)).1 []) pool position
            (findSlotsByPosition (teams.getD ((rankedTeamStrengths teams pool
              params.positionWeights).headD (0, 0)).1 []) position)
            (fun r acc => decide (r > acc)) hne.1
          have hkmem := scanBestSlot_fst_mem
            (teams.getD ((rankedTeamStrengths teams pool
              params.positionWeights).getLastD (0, 0)).1 []) pool position
            (findSlotsByPosition (teams.getD ((rankedTeamStrengths teams pool
              params.positionWeights).getLastD (0, 0)).1 []) position)
            (fun r acc => decide (r < acc)) hne.2
          have hms := findSlotsByPosition_mem hsmem
          have hmk := findSlotsByPosition_mem hkmem
          by_cases hgt : (scanBestSlot
              (teams.getD ((rankedTeamStrengths teams pool
                params.positionWeights).headD (0, 0)).1 []) pool position
              (findSlotsByPosition (teams.getD ((rankedTeamStrengths teams pool
                params.positionWeights).headD (0, 0)).1 []) position)
              (fun r acc => decide (r > acc))).2 > (scanBestSlot
              (teams.getD ((rankedTeamStrengths teams pool
                params.positionWeights).getLastD (0, 0)).1 []) pool position
              (findSlotsByPosition (teams.getD ((rankedTeamStrengths teams pool
                params.positionWeights).getLastD (0, 0)).1 []) position)
              (fun r acc => decide (r < acc))).2
          · rw [if_pos hgt]
            split
            · next hbal =>
              right
              exact ⟨((rankedTeamStrengths teams pool
                  params.positionWeights).headD (0, 0)).1,
                (scanBestSlot (teams.getD ((rankedTeamStrengths teams pool
                  params.positionWeights).headD (0, 0)).1 []) pool position
                  (findSlotsByPosition (teams.getD ((rankedTeamStrengths teams pool
                    params.positionWeights).headD (0, 0)).1 []) position)
                  (fun r acc => decide (r > acc))).1,
                ((rankedTeamStrengths teams pool
                  params.positionWeights).getLastD (0, 0)).1,
                (scanBestSlot (teams.getD ((rankedTeamStrengths teams pool
                  params.positionWeights).getLastD (0, 0)).1 []) pool position
                  (findSlotsByPosition (teams.getD ((rankedTeamStrengths teams pool
                    params.positionWeights).getLastD (0, 0)).1 []) position)
                  (fun r acc => decide (r < acc))).1,
                ⟨hstr_lt, hms.1⟩, ⟨hweak_lt, hmk.1⟩, by rw [hms.2, hmk.2], rfl⟩
            · next hbal =>
              exact performSlotSwap_cases teams positions pool ch.basic
          · rw [if_neg hgt]
            exact performSlotSwap_cases teams positions pool ch.basic
        · rw [if_neg hne]
          exact performSlotSwap_cases teams positions pool ch.basic
    · rw [if_neg hp]
      exact performSlotSwap_cases teams positions pool ch.basic

/-- Replacing one group by a permutation of itself keeps the slot
multiset. -/
theorem set_perm_slotsM (teams : List (List Slot)) (tI : Nat) (team' : List Slot)
    (h : tI < teams.length) (hperm : List.Perm team' (teams.getD tI [])) :
    slotsM (teams.set tI team') = slotsM teams := by
  have hstep := slotsM_set teams tI team' h
  have hco : Multiset.ofList team' = Multiset.ofList (teams.getD tI []) :=
    Multiset.coe_eq_coe.mpr hperm
  rw [hco, List.getD_eq_getElem teams [] h] at hstep
  exact add_right_cancel hstep

/-- Replacing one group by a permutation of itself keeps all per-role
counts. -/
theorem set_perm_countRole (teams : List (List Slot)) (tI : Nat) (team' : List Slot)
    (h : tI < teams.length) (hperm : List.Perm team' (teams.getD tI [])) :
    ∀ t pos, countRole (teams.set tI team') t pos = countRole teams t pos := by
  intro t pos
  unfold countRole
  rcases eq_or_ne t tI with hT | hT
  · subst hT
    rw [getD_set_self teams [] t team' h]
    exact hperm.countP_eq _
  · rw [getD_set_ne teams [] tI team' t hT]

/-- Every single perturbation operator keeps the slot multiset, the group
count, and every per-role slot count. -/
theorem applyPerturb_preserves (pool : PlayerPool) (teams : List (List Slot))
    (op : PerturbChoice) :
    slotsM (applyPerturb pool teams op) = slotsM teams ∧
    (applyPerturb pool teams op).length = teams.length ∧
    ∀ t pos, countRole (applyPerturb pool teams op) t pos = countRole teams t pos := by
  have hswap : ∀ X : List (List Slot),
      (X = teams ∨
        ∃ t1 i1 t2 i2, slotInRange teams t1 i1 ∧ slotInRange teams t2 i2 ∧
          ((teams.getD t1 []).getD i1 default).position =
            ((teams.getD t2 []).getD i2 default).position ∧
          X = swapSlots teams t1 i1 t2 i2) →
      slotsM X = slotsM teams ∧ X.length = teams.length ∧
        ∀ t pos, countRole X t pos = countRole teams t pos := by
    rintro X (rfl | ⟨t1, i1, t2, i2, h1, h2, hpos, rfl⟩)
    · exact ⟨rfl, rfl, fun _ _ => rfl⟩
    · refine ⟨swapSlots_slotsM teams t1 i1 t2 i2 h1 h2, ?_, ?_⟩
      · have hm := congrArg List.length (swapSlots_map_length teams t1 i1 t2 i2)
        simpa using hm
      · exact swapSlots_countRole teams t1 i1 t2 i2 h1 h2 hpos
  have hintra : ∀ ch : IntraSwapChoices,
      slotsM (performPositionSlotSwap teams pool ch) = slotsM teams ∧
      (performPositionSlotSwap teams pool ch).length = teams.length ∧
      ∀ t pos, countRole (performPositionSlotSwap teams pool ch) t pos =
        countRole teams t pos := by
    intro ch
    rcases performPositionSlotSwap_cases teams pool ch with hid | ⟨tI, team', hlt, hperm, heq⟩
    · rw [hid]
      exact ⟨rfl, rfl, fun _ _ => rfl⟩
    · rw [heq]
      exact ⟨set_perm_slotsM teams tI team' hlt hperm, by simp,
        set_perm_countRole teams tI team' hlt hperm⟩
  cases op with
  | basic positions ch => exact hswap _ (performSlotSwap_cases teams positions pool ch)
  | adaptive positions params ch =>
    exact hswap _ (performAdaptiveSlotSwap_cases teams positions pool params ch)
  | cross ch => exact hswap _ (performCrossTeamSlotSwap_cases teams pool ch)
  | intra ch => exact hintra ch
  | universal positions params ch =>
    show slotsM (performUniversalSlotSwap teams positions pool params ch) = slotsM teams ∧
      (performUniversalSlotSwap teams positions pool params ch).length = teams.length ∧
      ∀ t pos, countRole (performUniversalSlotSwap teams positions pool params ch) t pos =
        countRole teams t pos
    unfold performUniversalSlotSwap
    by_cases hr1 : ch.rand < 1/4
    · rw [if_pos hr1]
      exact hswap _ (performSlotSwap_cases teams positions pool ch.basic)
    · rw [if_neg hr1]
      by_cases hr2 : ch.rand < 1/2
      · rw [if_pos hr2]
        exact hswap _ (performAdaptiveSlotSwap_cases teams positions pool params ch.adaptive)
      · rw [if_neg hr2]
        by_cases hr3 : ch.rand < 3/4
        · rw [if_pos hr3]
          exact hswap _ (performCrossTeamSlotSwap_cases teams pool ch.cross)
        · rw [if_neg hr3]
          exact hintra ch.intra

/-- A whole sequence of perturbation operators keeps the slot multiset, the
group count, and every per-role slot count. -/
theorem applyPerturbs_preserves (pool : PlayerPool) (ops : List PerturbChoice)
    (teams : List (List Slot)) :
    slotsM (applyPerturbs pool ops teams) = slotsM teams ∧
    (applyPerturbs pool ops teams).length = teams.length ∧
    ∀ t pos, countRole (applyPerturbs pool ops teams) t pos = countRole teams t pos := by
  induction ops generalizing teams with
  | nil => exact ⟨rfl, rfl, fun _ _ => rfl⟩
  | cons op rest ih =>
    have hstep := applyPerturb_preserves pool teams op
    have hrest := ih (applyPerturb pool teams op)
    have hfold : applyPerturbs pool (op :: rest) teams =
        applyPerturbs pool rest (applyPerturb pool teams op) := rfl
    rw [hfold]
    exact ⟨hrest.1.trans hstep.1, hrest.2.1.trans hstep.2.1,
      fun t pos => (hrest.2.2 t pos).trans (hstep.2.2 t pos)⟩

/-- The whole-assignment validator accepts exactly when every group matches
every composition count. -/
theorem validateAll_isValid_iff (teams : List (List Slot))
    (comp : List (Role × Nat)) :
    (validateAllSlotTeamsComposition teams comp).isValid = true ↔
      ∀ t < teams.length, ∀ e ∈ comp, countRole teams t e.1 = e.2 := by
  have hv : (validateAllSlotTeamsComposition teams comp).isValid =
      ((teams.enum.flatMap (fun e =>
        (validateSlotTeamComposition e.2 comp).errors.map (fun err => (e.1, err)))).isEmpty) :=
    rfl
  rw [hv, List.isEmpty_iff, List.flatMap_eq_nil_iff]
  constructor
  · intro h t ht e he
    have hmem : (t, teams[t]) ∈ teams.enum :=
      List.mk_mem_enum_iff_getElem?.mpr (List.getElem?_eq_getElem ht)
    have h2 := h (t, teams[t]) hmem
    rw [List.map_eq_nil_iff] at h2
    have h3 := ((validateSlotTeamComposition_spec teams[t] comp).1).mp
      (by rw [show (validateSlotTeamComposition teams[t] comp).isValid =
          (validateSlotTeamComposition teams[t] comp).errors.isEmpty from rfl,
        List.isEmpty_iff]; exact h2) e he
    unfold countRole
    rw [List.getD_eq_getElem teams [] ht]
    exact h3
  · intro h e hmem
    obtain ⟨t, team⟩ := e
    have hget := List.mk_mem_enum_iff_getElem?.mp hmem
    have ht : t < teams.length := by
      by_contra hcon
      rw [List.getElem?_eq_none (by omega)] at hget
      cases hget
    have hteam : team = teams[t] := by
      rw [List.getElem?_eq_getElem ht] at hget
      exact (Option.some.injEq _ _ ▸ hget).symm
    rw [List.map_eq_nil_iff]
    rw [show (validateSlotTeamComposition team comp).errors = [] ↔
        (validateSlotTeamComposition team comp).errors.isEmpty = true from
      (List.isEmpty_iff).symm]
    rw [show (validateSlotTeamComposition team comp).errors.isEmpty =
        (validateSlotTeamComposition team comp).isValid from rfl]
    rw [(validateSlotTeamComposition_spec team comp).1]
    intro e2 he2
    have := h t ht e2 he2
    unfold countRole at this
    rw [List.getD_eq_getElem teams [] ht] at this
    rw [hteam]
    exact this

/-- C7 (confirmed): any finite sequence of in-range `swapSlots` calls leaves
the set of used candidate ids unchanged — swaps permute slot contents and
never add or remove a candidate. -/
theorem swap_closure_usedCandidateIds (teams : List (List Slot))
    (swaps : List (Nat × Nat × Nat × Nat))
    (hin : ∀ s ∈ swaps, slotInRange teams s.1 s.2.1 ∧
      slotInRange teams s.2.2.1 s.2.2.2) :
    getUsedPlayerIds (applySwapSeq swaps teams) = getUsedPlayerIds teams := by
  induction swaps generalizing teams with
  | nil => rfl
  | cons s rest ih =>
    have hs := hin s (by simp)
    have hM : slotsM (swapSlots teams s.1 s.2.1 s.2.2.1 s.2.2.2) = slotsM teams :=
      swapSlots_slotsM _ _ _ _ _ hs.1 hs.2
    have hrange : ∀ s2 ∈ rest,
        slotInRange (swapSlots teams s.1 s.2.1 s.2.2.1 s.2.2.2) s2.1 s2.2.1 ∧
        slotInRange (swapSlots teams s.1 s.2.1 s.2.2.1 s.2.2.2) s2.2.2.1 s2.2.2.2 := by
      intro s2 hs2
      have h2 := hin s2 (List.mem_cons_of_mem _ hs2)
      exact ⟨(swapSlots_slotInRange _ _ _ _ _ _ _).mpr h2.1,
        (swapSlots_slotInRange _ _ _ _ _ _ _).mpr h2.2⟩
    have hfold : applySwapSeq (s :: rest) teams =
        applySwapSeq rest (swapSlots teams s.1 s.2.1 s.2.2.1 s.2.2.2) := rfl
    rw [hfold, ih _ hrange]
    exact usedIds_of_slotsM_eq hM

/-- Witness for the swap-closure theorem at a concrete two-group
assignment and one swap. -/
theorem swap_closure_usedCandidateIds_witness :
    (∀ s ∈ ([(0, 0, 1, 0)] : List (Nat × Nat × Nat × Nat)),
      slotInRange [[⟨1, ['A']⟩], [⟨2, ['A']⟩]] s.1 s.2.1 ∧
      slotInRange [[⟨1, ['A']⟩], [⟨2, ['A']⟩]] s.2.2.1 s.2.2.2) ∧
    getUsedPlayerIds (applySwapSeq [(0, 0, 1, 0)] [[⟨1, ['A']⟩], [⟨2, ['A']⟩]]) =
      getUsedPlayerIds [[⟨1, ['A']⟩], [⟨2, ['A']⟩]] :=
  ⟨by decide, swap_closure_usedCandidateIds [[⟨1, ['A']⟩], [⟨2, ['A']⟩]]
    [(0, 0, 1, 0)] (by decide)⟩

/-- C8 (confirmed): every perturbation operator — basic, adaptive,
cross-group, intra-group, and the universal dispatcher — keeps every
group's per-role slot counts, so an assignment satisfying the role
composition still satisfies it after any number of operator
applications. -/
theorem perturb_role_preserving (pool : PlayerPool) (teams : List (List Slot)) :
    (∀ op : PerturbChoice, ∀ t pos,
      countRole (applyPerturb pool teams op) t pos = countRole teams t pos) ∧
    ∀ ops : List PerturbChoice, ∀ comp : List (Role × Nat),
      (validateAllSlotTeamsComposition teams comp).isValid = true →
      (validateAllSlotTeamsComposition (applyPerturbs pool ops teams) comp).isValid =
        true := by
  refine ⟨fun op => (applyPerturb_preserves pool teams op).2.2, ?_⟩
  intro ops comp hvalid
  have hp := applyPerturbs_preserves pool ops teams
  rw [validateAll_isValid_iff] at hvalid ⊢
  intro t ht e he
  rw [hp.2.1] at ht
  rw [hp.2.2 t e.1]
  exact hvalid t ht e he

/-- Witness for the role-preservation theorem at a concrete two-group
assignment, one cross-group swap, and composition `{A: 1}`. -/
theorem perturb_role_preserving_witness :
    countRole (applyPerturb ⟨[], []⟩ [[⟨1, ['A']⟩], [⟨2, ['A']⟩]]
        (PerturbChoice.cross ⟨0, 1, 0, 0, 0⟩)) 0 ['A'] =
      countRole [[⟨1, ['A']⟩], [⟨2, ['A']⟩]] 0 ['A'] ∧
    (validateAllSlotTeamsComposition [[⟨1, ['A']⟩], [⟨2, ['A']⟩]]
      [(['A'], 1)]).isValid = true ∧
    (validateAllSlotTeamsComposition
      (applyPerturbs ⟨[], []⟩ [PerturbChoice.cross ⟨0, 1, 0, 0, 0⟩]
        [[⟨1, ['A']⟩], [⟨2, ['A']⟩]]) [(['A'], 1)]).isValid = true :=
  ⟨(perturb_role_preserving ⟨[], []⟩ [[⟨1, ['A']⟩], [⟨2, ['A']⟩]]).1
      (PerturbChoice.cross ⟨0, 1, 0, 0, 0⟩) 0 ['A'],
    by decide,
    (perturb_role_preserving ⟨[], []⟩ [[⟨1, ['A']⟩], [⟨2, ['A']⟩]]).2
      [PerturbChoice.cross ⟨0, 1, 0, 0, 0⟩] [(['A'], 1)] (by decide)⟩

/-! ### Simulated annealing and ensemble theorems -/

/-- C9 (confirmed): in the SA loop, at every iteration the perturbed
neighbor replaces the current assignment exactly when its score strictly
improves (Δ < 0) or the uniform draw is below `exp(-Δ/temp)`; and the
best-so-far assignment changes only on accepted moves whose score beats the
best score (in which case it becomes the accepted neighbor). -/
theorem sa_metropolis_acceptance (sqrtA expA : ℚ → ℚ) (cfg : SAConfig)
    (positions : List Role) (pool : PlayerPool) (w : List (Role × ℚ))
    (params : AdaptiveParams) (chs : Nat → SAIterChoices) (init : SAState)
    (i : Nat) :
    let st := saStates sqrtA expA cfg positions pool w params chs init i
    let neighbor := saNeighbor cfg positions pool params st (chs i)
    let neighborScore := evaluateSlotSolution sqrtA neighbor pool w (1/2)
    let delta := neighborScore - st.currentScore
    let next := saStates sqrtA expA cfg positions pool w params chs init (i + 1)
    ((delta < 0 ∨ (chs i).accept < expA (-delta / st.temp)) ∧
      next.current = neighbor ∧ next.currentScore = neighborScore ∧
      ((neighborScore < st.bestScore ∧ next.best = cloneSlotTeams neighbor ∧
          next.bestScore = neighborScore) ∨
        (¬ neighborScore < st.bestScore ∧ next.best = st.best ∧
          next.bestScore = st.bestScore))) ∨
    (¬ (delta < 0 ∨ (chs i).accept < expA (-delta / st.temp)) ∧
      next.current = st.current ∧ next.currentScore = st.currentScore ∧
      next.best = st.best ∧ next.bestScore = st.bestScore) := by
  dsimp only
  have hnext : saStates sqrtA expA cfg positions pool w params chs init (i + 1) =
      saStep sqrtA expA cfg positions pool w params (chs i)
        (saStates sqrtA expA cfg positions pool w params chs init i) := rfl
  rw [hnext]
  set st := saStates sqrtA expA cfg positions pool w params chs init i
  unfold saStep
  dsimp only
  by_cases hacc : evaluateSlotSolution sqrtA
        (saNeighbor cfg positions pool params st (chs i)) pool w (1/2) -
        st.currentScore < 0 ∨
      (chs i).accept < expA (-(evaluateSlotSolution sqrtA
        (saNeighbor cfg positions pool params st (chs i)) pool w (1/2) -
        st.currentScore) / st.temp)
  · left
    refine ⟨hacc, ?_⟩
    rw [if_pos hacc]
    by_cases himp : evaluateSlotSolution sqrtA
        (saNeighbor cfg positions pool params st (chs i)) pool w (1/2) < st.bestScore
    · rw [if_pos himp]
      by_cases hreh : cfg.reheatEnabled = true ∧
          (if true = true then 0 else st.sinceImprovement + 1) > cfg.reheatIterations
      · rw [if_pos hreh]
        exact ⟨rfl, rfl, Or.inl ⟨himp, rfl, rfl⟩⟩
      · rw [if_neg hreh]
        exact ⟨rfl, rfl, Or.inl ⟨himp, rfl, rfl⟩⟩
    · rw [if_neg himp]
      by_cases hreh : cfg.reheatEnabled = true ∧
          (if false = true then 0 else st.sinceImprovement + 1) > cfg.reheatIterations
      · rw [if_pos hreh]
        exact ⟨rfl, rfl, Or.inr ⟨himp, rfl, rfl⟩⟩
      · rw [if_neg hreh]
        exact ⟨rfl, rfl, Or.inr ⟨himp, rfl, rfl⟩⟩
  · right
    refine ⟨hacc, ?_⟩
    rw [if_neg hacc]
    by_cases hreh : cfg.reheatEnabled = true ∧
        (if false = true then 0 else st.sinceImprovement + 1) > cfg.reheatIterations
    · rw [if_pos hreh]
      exact ⟨rfl, rfl, rfl, rfl⟩
    · rw [if_neg hreh]
      exact ⟨rfl, rfl, rfl, rfl⟩

/-- Nonempty rational lists have a least member found by `min?`. -/
theorem min?_spec {l : List ℚ} {m : ℚ} (h : l.min? = some m) :
    m ∈ l ∧ ∀ b ∈ l, m ≤ b := by
  have hiff := @List.min?_eq_some_iff ℚ m _ _
    ⟨fun h1 h2 => le_antisymm h1 h2⟩ (fun a => le_refl a)
    (fun a b => min_choice a b) (fun a b c => le_min_iff) l
  exact hiff.mp h

/-- The `indexOf(Math.min(...scores))` selection picks a member of minimal
score. -/
theorem selectForRefinement_spec (score : List (List Slot) → ℚ)
    (results : List (List (List Slot))) (h : results ≠ []) :
    selectForRefinement score results ∈ results ∧
    ∀ r ∈ results, score (selectForRefinement score results) ≤ score r := by
  have hmapne : results.map score ≠ [] := by
    intro hc
    exact h (List.map_eq_nil_iff.mp hc)
  obtain ⟨m, hm⟩ : ∃ m, (results.map score).min? = some m := by
    cases hh : results.map score with
    | nil => exact absurd hh hmapne
    | cons x xs => exact ⟨_, rfl⟩
  obtain ⟨hmem, hle⟩ := min?_spec hm
  have hidx : (results.map score).indexOf m < (results.map score).length :=
    List.indexOf_lt_length.mpr hmem
  have hidx2 : (results.map score).indexOf m < results.length := by
    simpa using hidx
  have hsel : selectForRefinement score results =
      results[(results.map score).indexOf m] := by
    unfold selectForRefinement selectBestIdx
    rw [hm]
    exact List.getD_eq_getElem results [] hidx2
  have hscore : score (selectForRefinement score results) = m := by
    rw [hsel]
    have hg : (results.map score)[(results.map score).indexOf m] = m :=
      List.getElem_indexOf hidx
    rw [List.getElem_map] at hg
    exact hg
  constructor
  · rw [hsel]
    exact List.getElem_mem hidx2
  · intro r hr
    rw [hscore]
    exact hle (score r) (List.mem_map_of_mem score hr)

/-- C10 (confirmed): the ensemble phase surfaces an error iff every enabled
algorithm's settled outcome is a rejection; otherwise the failures are
dropped, exactly the fulfilled results (with their names) are kept, and the
assignment handed to refinement is a kept result of minimal score. -/
theorem ensemble_error_iff_all_fail
    (settled : List (List Char × Except (List Char) (List (List Slot))))
    (score : List (List Slot) → ℚ) :
    ((∃ msg, runOptimizationAlgorithms settled = Except.error msg) ↔
      ∀ p ∈ settled, ∃ err, p.2 = Except.error err) ∧
    ∀ results names,
      runOptimizationAlgorithms settled = Except.ok (results, names) →
      results = settled.filterMap (fun e =>
        match e.2 with
        | Except.ok v => some v
        | Except.error _ => none) ∧
      results ≠ [] ∧
      selectForRefinement score results ∈ results ∧
      ∀ r ∈ results, score (selectForRefinement score results) ≤ score r := by
  unfold runOptimizationAlgorithms
  by_cases hempty : (settled.filterMap (fun e =>
      match e.2 with
      | Except.ok v => some v
      | Except.error _ => none)).isEmpty
  · rw [if_pos hempty]
    constructor
    · constructor
      · intro _ p hp
        rw [List.isEmpty_iff, List.filterMap_eq_nil_iff] at hempty
        have h2 := hempty p hp
        cases he : p.2 with
        | ok v => rw [he] at h2; cases h2
        | error err => exact ⟨err, rfl⟩
      · intro _
        exact ⟨_, rfl⟩
    · intro results names hok
      cases hok
  · rw [if_neg hempty]
    constructor
    · constructor
      · rintro ⟨msg, hmsg⟩
        cases hmsg
      · intro hall
        exfalso
        apply hempty
        rw [List.isEmpty_iff, List.filterMap_eq_nil_iff]
        intro p hp
        obtain ⟨err, herr⟩ := hall p hp
        rw [herr]
    · intro results names hok
      have hres : results = settled.filterMap (fun e =>
          match e.2 with
          | Except.ok v => some v
          | Except.error _ => none) := by
        injection hok with h1
        injection h1 with h2 h3
        exact h2.symm
      have hne : results ≠ [] := by
        rw [hres]
        intro hc
        rw [List.isEmpty_iff] at hempty
        exact hempty hc
      obtain ⟨hmem, hmin⟩ := selectForRefinement_spec score results hne
      exact ⟨hres, hne, hmem, hmin⟩


/-! ## Hash lemmas: sorting, digits, token and split round-trips -/

/-- `sortStrings` permutes its input. -/
theorem sortStrings_perm (l : List (List Char)) : (sortStrings l).Perm l :=
  List.perm_insertionSort _ l

/-- `sortStrings` sorts its input. -/
theorem sortStrings_sorted (l : List (List Char)) :
    List.Sorted (· ≤ ·) (sortStrings l) :=
  List.sorted_insertionSort _ l

/-- Sorting identifies lists up to permutation. -/
theorem sortStrings_eq_of_perm {l₁ l₂ : List (List Char)} (h : l₁.Perm l₂) :
    sortStrings l₁ = sortStrings l₂ :=
  List.eq_of_perm_of_sorted
    ((sortStrings_perm l₁).trans (h.trans (sortStrings_perm l₂).symm))
    (sortStrings_sorted l₁) (sortStrings_sorted l₂)

/-- Facts about the ten digit characters. -/
theorem digitChar_facts (d : Nat) (h : d < 10) :
    (Nat.digitChar d).toNat - 48 = d ∧ Nat.digitChar d ≠ ':' ∧
      Nat.digitChar d ≠ ',' ∧ Nat.digitChar d ≠ '|' := by
  interval_cases d <;> refine ⟨by decide, by decide, by decide, by decide⟩

/-- Appending one digit multiplies the parsed value by ten. -/
theorem parseNat_append_digit (xs : List Char) (c : Char) :
    parseNat (xs ++ [c]) = parseNat xs * 10 + (c.toNat - 48) := by
  simp [parseNat, List.foldl_append]

/-- With sufficient fuel, parsing the produced digits recovers `n`. -/
theorem natCharsAux_parse (fuel : Nat) :
    ∀ n ≤ fuel, parseNat (natCharsAux fuel n) = n := by
  induction fuel with
  | zero =>
    intro n hn
    interval_cases n
    simp [natCharsAux, parseNat]
  | succ f ih =>
    intro n hn
    match n with
    | 0 => simp [natCharsAux, parseNat]
    | m + 1 =>
      rw [natCharsAux, parseNat_append_digit,
        ih ((m + 1) / 10) (le_trans (Nat.le_of_lt_succ
          (Nat.div_lt_self (Nat.succ_pos m) (by norm_num)))
          (Nat.le_of_succ_le_succ hn)),
        (digitChar_facts ((m + 1) % 10) (Nat.mod_lt _ (by norm_num))).1]
      omega

/-- Decimal printing followed by parsing is the identity. -/
theorem parseNat_natChars (n : Nat) : parseNat (natChars n) = n := by
  by_cases h : n = 0
  · subst h
    decide
  · simp only [natChars, if_neg h]
    exact natCharsAux_parse n n le_rfl

/-- No digit character produced by `natCharsAux` is a separator. -/
theorem natCharsAux_mem (fuel : Nat) :
    ∀ n, ∀ c ∈ natCharsAux fuel n, c ≠ ':' ∧ c ≠ ',' ∧ c ≠ '|' := by
  induction fuel with
  | zero =>
    intro n c hc
    simp [natCharsAux] at hc
  | succ f ih =>
    intro n c hc
    match n with
    | 0 => simp [natCharsAux] at hc
    | m + 1 =>
      rw [natCharsAux] at hc
      rcases List.mem_append.mp hc with h | h
      · exact ih _ c h
      · have hd := digitChar_facts ((m + 1) % 10) (Nat.mod_lt _ (by norm_num))
        rcases List.mem_singleton.mp h with rfl
        exact ⟨hd.2.1, hd.2.2.1, hd.2.2.2⟩

/-- No character of a printed id is a separator. -/
theorem natChars_mem (n : Nat) : ∀ c ∈ natChars n, c ≠ ':' ∧ c ≠ ',' ∧ c ≠ '|' := by
  intro c hc
  by_cases h : n = 0
  · subst h
    simp [natChars] at hc
    subst hc
    refine ⟨by decide, by decide, by decide⟩
  · simp only [natChars, if_neg h] at hc
    exact natCharsAux_mem n n c hc

/-- A printed id is never the empty string. -/
theorem natChars_ne_nil (n : Nat) : natChars n ≠ [] := by
  by_cases h : n = 0
  · subst h
    decide
  · simp only [natChars, if_neg h]
    obtain ⟨m, rfl⟩ := Nat.exists_eq_succ_of_ne_zero h
    rw [natCharsAux]
    simp



/-- Splitting at the first separator: the prefix before `sep ::` is
recovered by `takeWhile`, the rest by `dropWhile`. -/
theorem takeWhile_sep (sep : Char) (l r : List Char) (h : ∀ c ∈ l, c ≠ sep) :
    (l ++ sep :: r).takeWhile (fun c => c != sep) = l ∧
      (l ++ sep :: r).dropWhile (fun c => c != sep) = sep :: r := by
  induction l with
  | nil => simp [List.takeWhile, List.dropWhile]
  | cons x xs ih =>
    have hx : (x != sep) = true := by
      simpa using h x (List.mem_cons_self x xs)
    have ihr := ih (fun c hc => h c (List.mem_cons_of_mem x hc))
    simp [List.takeWhile_cons, List.dropWhile_cons, hx, ihr.1, ihr.2]

/-- Decoding a slot token recovers the slot. -/
theorem parseToken_slotToken (s : Slot) : parseToken (slotToken s) = s := by
  cases s with
  | mk pid pos =>
    have h := takeWhile_sep ':' (natChars pid) pos
      (fun c hc => (natChars_mem pid c hc).1)
    simp only [parseToken, slotToken]
    rw [h.1, h.2]
    simp [parseNat_natChars]

/-- Splitting a separator-free string yields the singleton. -/
theorem splitSep_no_sep (sep : Char) (s : List Char) (h : sep ∉ s) :
    splitSep sep s = [s] := by
  induction s with
  | nil => rfl
  | cons c cs ih =>
    rw [List.mem_cons] at h
    push_neg at h
    rw [splitSep, if_neg (fun e => h.1 e.symm), ih h.2]

/-- Splitting at the first separator occurrence. -/
theorem splitSep_append (sep : Char) (s rest : List Char) (h : sep ∉ s) :
    splitSep sep (s ++ sep :: rest) = s :: splitSep sep rest := by
  induction s with
  | nil =>
    rw [List.nil_append, splitSep, if_pos rfl]
  | cons c cs ih =>
    rw [List.mem_cons] at h
    push_neg at h
    rw [List.cons_append, splitSep, if_neg (fun e => h.1 e.symm), ih h.2]

/-- Splitting undoes joining when no piece contains the separator. -/
theorem splitSep_joinSep (sep : Char) :
    ∀ ss : List (List Char), ss ≠ [] → (∀ s ∈ ss, sep ∉ s) →
      splitSep sep (joinSep sep ss) = ss := by
  intro ss
  induction ss with
  | nil =>
    intro h _
    exact absurd rfl h
  | cons s t ih =>
    intro _ hs
    cases t with
    | nil =>
      rw [joinSep]
      exact splitSep_no_sep sep s (hs s (List.mem_cons_self s []))
    | cons a b =>
      rw [joinSep, splitSep_append sep s _ (hs s (List.mem_cons_self _ _)),
        ih (List.cons_ne_nil a b) (fun x hx => hs x (List.mem_cons_of_mem _ hx))]
      exact List.cons_ne_nil a b

/-- Any character of a join is the separator or comes from some piece. -/
theorem mem_joinSep (sep c : Char) :
    ∀ ss : List (List Char), c ∈ joinSep sep ss → c = sep ∨ ∃ s ∈ ss, c ∈ s := by
  intro ss
  induction ss with
  | nil =>
    intro h
    simp [joinSep] at h
  | cons s t ih =>
    intro h
    cases t with
    | nil =>
      rw [joinSep] at h
      exact Or.inr ⟨s, List.mem_cons_self _ _, h⟩
    | cons a b =>
      rw [joinSep] at h
      rcases List.mem_append.mp h with h1 | h1
      · exact Or.inr ⟨s, List.mem_cons_self _ _, h1⟩
      · rcases List.mem_cons.mp h1 with rfl | h2
        · exact Or.inl rfl
        · rcases ih h2 with h3 | ⟨x, hx, hcx⟩
          · exact Or.inl h3
          · exact Or.inr ⟨x, List.mem_cons_of_mem _ hx, hcx⟩
      exact List.cons_ne_nil a b

/-- A join of nonempty pieces over a nonempty list is nonempty. -/
theorem joinSep_ne_nil (sep : Char) :
    ∀ ss : List (List Char), ss ≠ [] → (∀ s ∈ ss, s ≠ []) →
      joinSep sep ss ≠ [] := by
  intro ss
  match ss with
  | [] =>
    intro h _
    exact absurd rfl h
  | [s] =>
    intro _ hs
    rw [joinSep]
    exact hs s (List.mem_cons_self _ _)
  | s :: a :: b =>
    intro _ _
    rw [joinSep]
    · simp
    · exact List.cons_ne_nil a b

/-- A slot token is nonempty. -/
theorem slotToken_ne_nil (s : Slot) : slotToken s ≠ [] := by
  cases s with
  | mk pid pos =>
    simp only [slotToken]
    intro h
    exact natChars_ne_nil pid (List.append_eq_nil.mp h).1

/-- Separator characters do not occur in the token of a safe slot. -/
theorem slotToken_sep_free (s : Slot) (h : ¬ (',' ∈ s.position))
    (h' : ¬ ('|' ∈ s.position)) :
    ¬ (',' ∈ slotToken s) ∧ ¬ ('|' ∈ slotToken s) := by
  cases s with
  | mk pid pos =>
    simp only [slotToken] at *
    constructor
    · intro hc
      rcases List.mem_append.mp hc with h1 | h1
      · exact (natChars_mem pid ',' h1).2.1 rfl
      · rcases List.mem_cons.mp h1 with e | h2
        · exact absurd e (by decide)
        · exact h h2
    · intro hc
      rcases List.mem_append.mp hc with h1 | h1
      · exact (natChars_mem pid '|' h1).2.2 rfl
      · rcases List.mem_cons.mp h1 with e | h2
        · exact absurd e (by decide)
        · exact h' h2

/-- For a safe team, the comma-joined token string contains no bar. -/
theorem teamHash_no_bar (g : List Slot)
    (h : ∀ s ∈ g, ¬ (',' ∈ s.position) ∧ ¬ ('|' ∈ s.position)) :
    ¬ ('|' ∈ teamHash g) := by
  intro hb
  rcases mem_joinSep ',' '|' _ hb with e | ⟨t, ht, hbt⟩
  · exact absurd e (by decide)
  · have ht' := (sortStrings_perm (g.map slotToken)).mem_iff.mp ht
    rcases List.mem_map.mp ht' with ⟨s, hs, rfl⟩
    exact (slotToken_sep_free s (h s hs).1 (h s hs).2).2 hbt

/-- For a nonempty team, the team string is nonempty. -/
theorem teamHash_ne_nil (g : List Slot) (hg : g ≠ []) : teamHash g ≠ [] := by
  apply joinSep_ne_nil
  · intro e
    have hl := (sortStrings_perm (g.map slotToken)).length_eq
    rw [e] at hl
    simp at hl
    exact hg (List.length_eq_zero.mp hl.symm)
  · intro t ht
    have ht' := (sortStrings_perm _).mem_iff.mp ht
    rcases List.mem_map.mp ht' with ⟨s, _, rfl⟩
    exact slotToken_ne_nil s


/-- Permuting a team leaves its hash string unchanged. -/
theorem teamHash_congr {g1 g2 : List Slot} (h : g1.Perm g2) :
    teamHash g1 = teamHash g2 := by
  unfold teamHash
  rw [sortStrings_eq_of_perm (h.map slotToken)]

/-- Decoding a safe nonempty team's string recovers its slot multiset. -/
theorem decodeTeam_teamHash (g : List Slot) (hg : g ≠ [])
    (hsafe : ∀ s ∈ g, ¬ (',' ∈ s.position) ∧ ¬ ('|' ∈ s.position)) :
    decodeTeam (teamHash g) = Multiset.ofList g := by
  unfold decodeTeam teamHash
  have hne : sortStrings (g.map slotToken) ≠ [] := by
    intro e
    have hl := (sortStrings_perm (g.map slotToken)).length_eq
    rw [e] at hl
    simp at hl
    exact hg (List.length_eq_zero.mp hl.symm)
  have hnosep : ∀ t ∈ sortStrings (g.map slotToken), ',' ∉ t := by
    intro t ht
    rcases List.mem_map.mp ((sortStrings_perm _).mem_iff.mp ht) with ⟨s, hs, rfl⟩
    exact (slotToken_sep_free s (hsafe s hs).1 (hsafe s hs).2).1
  rw [splitSep_joinSep ',' _ hne hnosep]
  have hperm : ((sortStrings (g.map slotToken)).map parseToken).Perm
      ((g.map slotToken).map parseToken) := (sortStrings_perm _).map parseToken
  have heq : (g.map slotToken).map parseToken = g := by
    rw [List.map_map]
    have hpt : ∀ s ∈ g, (parseToken ∘ slotToken) s = id s :=
      fun s _ => parseToken_slotToken s
    rw [List.map_congr_left hpt, List.map_id]
  rw [heq] at hperm
  exact Multiset.coe_eq_coe.mpr hperm

/-- Decoding the hash of a safe nonempty assignment recovers its canonical
content. -/
theorem decodeHash_hashSlotSolution (teams : List (List Slot))
    (h : hashSafe teams) (hne : teams ≠ []) :
    decodeHash (hashSlotSolution teams) = canonAssignment teams := by
  unfold decodeHash hashSlotSolution canonAssignment
  have hne' : sortStrings (teams.map teamHash) ≠ [] := by
    intro e
    have hl := (sortStrings_perm (teams.map teamHash)).length_eq
    rw [e] at hl
    simp at hl
    exact hne (List.length_eq_zero.mp hl.symm)
  have hpieces : ∀ t ∈ sortStrings (teams.map teamHash), '|' ∉ t := by
    intro t ht
    rcases List.mem_map.mp ((sortStrings_perm _).mem_iff.mp ht) with ⟨g, hgmem, rfl⟩
    exact teamHash_no_bar g (fun s hs => (h g hgmem).2 s hs)
  rw [splitSep_joinSep '|' _ hne' hpieces]
  have hperm : ((sortStrings (teams.map teamHash)).map decodeTeam).Perm
      ((teams.map teamHash).map decodeTeam) := (sortStrings_perm _).map decodeTeam
  have heq : (teams.map teamHash).map decodeTeam =
      teams.map (fun g => Multiset.ofList g) := by
    rw [List.map_map]
    exact List.map_congr_left (fun g hg =>
      decodeTeam_teamHash g (h g hg).1 (fun s hs => (h g hg).2 s hs))
  rw [heq] at hperm
  exact Multiset.coe_eq_coe.mpr hperm

/-- The hash of a safe nonempty assignment is a nonempty string. -/
theorem hashSlotSolution_ne_nil (teams : List (List Slot))
    (h : hashSafe teams) (hne : teams ≠ []) : hashSlotSolution teams ≠ [] := by
  unfold hashSlotSolution
  apply joinSep_ne_nil
  · intro e
    have hl := (sortStrings_perm (teams.map teamHash)).length_eq
    rw [e] at hl
    simp at hl
    exact hne (List.length_eq_zero.mp hl.symm)
  · intro t ht
    rcases List.mem_map.mp ((sortStrings_perm _).mem_iff.mp ht) with ⟨g, hgmem, rfl⟩
    exact teamHash_ne_nil g (h g hgmem).1

/-- Equal canonical content gives permuted team-string lists. -/
theorem map_teamHash_perm {A B : List (List Slot)}
    (h : canonAssignment A = canonAssignment B) :
    (A.map teamHash).Perm (B.map teamHash) := by
  have hp : (A.map (fun g => Multiset.ofList g)).Perm
      (B.map (fun g => Multiset.ofList g)) := Multiset.coe_eq_coe.mp h
  have hk := hp.map (fun m : Multiset Slot => teamHash m.toList)
  rw [List.map_map, List.map_map] at hk
  have hA : A.map ((fun m : Multiset Slot => teamHash m.toList) ∘
      (fun g => Multiset.ofList g)) = A.map teamHash :=
    List.map_congr_left (fun g _ => teamHash_congr
      (Multiset.coe_eq_coe.mp (Multiset.coe_toList (Multiset.ofList g))))
  have hB : B.map ((fun m : Multiset Slot => teamHash m.toList) ∘
      (fun g => Multiset.ofList g)) = B.map teamHash :=
    List.map_congr_left (fun g _ => teamHash_congr
      (Multiset.coe_eq_coe.mp (Multiset.coe_toList (Multiset.ofList g))))
  rw [hA, hB] at hk
  exact hk

/-- **C6** (corrected).  `hashSlotSolution` is invariant under reordering
of slots within groups and under reordering of the groups themselves:
equal canonical content (equal multisets of per-group candidateId/role
multisets) gives equal hash strings, unconditionally.  Conversely, for
assignments whose groups are all nonempty and whose roles contain no
separator character `','` or `'|'`, equal hash strings force equal
canonical content.  Without that safety condition the converse fails
(`hashSlotSolution_collision`). -/
theorem hashSlotSolution_stability (A B : List (List Slot)) :
    (canonAssignment A = canonAssignment B →
      hashSlotSolution A = hashSlotSolution B) ∧
    (hashSafe A → hashSafe B → hashSlotSolution A = hashSlotSolution B →
      canonAssignment A = canonAssignment B) := by
  constructor
  · intro h
    unfold hashSlotSolution
    rw [sortStrings_eq_of_perm (map_teamHash_perm h)]
  · intro hA hB heq
    by_cases hAe : A = []
    · by_cases hBe : B = []
      · subst hAe
        subst hBe
        rfl
      · exfalso
        subst hAe
        have hnn := hashSlotSolution_ne_nil B hB hBe
        rw [← heq] at hnn
        exact hnn rfl
    · by_cases hBe : B = []
      · exfalso
        subst hBe
        have hnn := hashSlotSolution_ne_nil A hA hAe
        rw [heq] at hnn
        exact hnn rfl
      · rw [← decodeHash_hashSlotSolution A hA hAe,
          ← decodeHash_hashSlotSolution B hB hBe, heq]

/-- The hash collides on assignments of different canonical content when
the safety condition fails: an assignment with no groups and one with a
single empty group share the hash, and so do a two-slot group and a
single slot whose role embeds `",2:B"`. -/
theorem hashSlotSolution_collision :
    (hashSlotSolution [] = hashSlotSolution [[]] ∧
      canonAssignment [] ≠ canonAssignment [[]]) ∧
    (hashSlotSolution [[⟨1, ['A']⟩, ⟨2, ['B']⟩]] =
        hashSlotSolution [[⟨1, ['A', ',', '2', ':', 'B']⟩]] ∧
      canonAssignment [[⟨1, ['A']⟩, ⟨2, ['B']⟩]] ≠
        canonAssignment [[⟨1, ['A', ',', '2', ':', 'B']⟩]]) := by
  refine ⟨⟨by decide, by decide⟩, by decide, by decide⟩

/-- Instantiation of the stability theorem: reordering the slots of the
single group leaves the hash unchanged, and equal hashes of two safe
assignments force equal canonical content. -/
theorem hashSlotSolution_stability_witness :
    hashSlotSolution [[⟨1, ['A']⟩, ⟨2, ['B']⟩]] =
        hashSlotSolution [[⟨2, ['B']⟩, ⟨1, ['A']⟩]] ∧
      canonAssignment [[⟨1, ['A']⟩, ⟨2, ['B']⟩]] =
        canonAssignment [[⟨2, ['B']⟩, ⟨1, ['A']⟩]] :=
  ⟨(hashSlotSolution_stability [[⟨1, ['A']⟩, ⟨2, ['B']⟩]]
      [[⟨2, ['B']⟩, ⟨1, ['A']⟩]]).1 (by decide),
   (hashSlotSolution_stability [[⟨1, ['A']⟩, ⟨2, ['B']⟩]]
      [[⟨2, ['B']⟩, ⟨1, ['A']⟩]]).2 (by decide) (by decide) (by decide)⟩


/-! ## No-duplicate machinery: push and allocation lemmas -/

/-- Cloning copies every slot value: the clone is the same assignment. -/
theorem cloneSlotTeams_eq (teams : List (List Slot)) :
    cloneSlotTeams teams = teams := by
  unfold cloneSlotTeams
  have h1 : (fun slot : Slot => (⟨slot.playerId, slot.position⟩ : Slot)) =
      fun slot => slot := rfl
  simp [h1]

/-- `allIds` distributes over group concatenation. -/
theorem allIds_append (A B : List (List Slot)) :
    allIds (A ++ B) = allIds A ++ allIds B := by
  simp [allIds]

/-- Empty groups contribute no ids. -/
theorem allIds_replicate_nil (n : Nat) :
    allIds (List.replicate n []) = [] := by
  induction n with
  | zero => rfl
  | succ m ih => simp [allIds, List.replicate_succ] at ih ⊢

/-- Pushing a slot adds exactly its id (for an in-range group; out of
range the push is a no-op). -/
theorem slotsM_pushAt (teams : List (List Slot)) (ti pid : Nat) (pos : Role)
    (ht : ti < teams.length) :
    slotsM (pushAt teams ti pid pos) = (⟨pid, pos⟩ : Slot) ::ₘ slotsM teams := by
  have hgd : teams.getD ti [] = teams[ti] := List.getD_eq_getElem _ _ ht
  have h := slotsM_set teams ti (teams.getD ti [] ++ [⟨pid, pos⟩]) ht
  rw [hgd] at h
  have hsplit : Multiset.ofList (teams[ti] ++ [(⟨pid, pos⟩ : Slot)]) =
      Multiset.ofList teams[ti] + Multiset.ofList [⟨pid, pos⟩] := rfl
  rw [hsplit] at h
  have h2 : slotsM (pushAt teams ti pid pos) + Multiset.ofList teams[ti] =
      ((⟨pid, pos⟩ : Slot) ::ₘ slotsM teams) + Multiset.ofList teams[ti] := by
    unfold pushAt
    rw [hgd, h, ← Multiset.singleton_add]
    have hx : Multiset.ofList [(⟨pid, pos⟩ : Slot)] = {(⟨pid, pos⟩ : Slot)} := rfl
    rw [hx]
    abel
  exact add_right_cancel h2

/-- `allIds` of a push, at multiset level. -/
theorem allIds_pushAt (teams : List (List Slot)) (ti pid : Nat) (pos : Role)
    (ht : ti < teams.length) :
    Multiset.ofList (allIds (pushAt teams ti pid pos)) =
      pid ::ₘ Multiset.ofList (allIds teams) := by
  rw [allIds_coe, allIds_coe, slotsM_pushAt teams ti pid pos ht,
    Multiset.map_cons]

/-- Out-of-range pushes are no-ops. -/
theorem pushAt_oob (teams : List (List Slot)) (ti pid : Nat) (pos : Role)
    (ht : ¬ ti < teams.length) : pushAt teams ti pid pos = teams := by
  unfold pushAt
  exact List.set_eq_of_length_le (Nat.le_of_not_lt ht)

/-- Equal slot multisets give the same duplicate-freeness. -/
theorem nodupIds_iff_of_slotsM_eq {A B : List (List Slot)}
    (h : slotsM A = slotsM B) : NodupIds A ↔ NodupIds B := by
  have hids : Multiset.ofList (allIds A) = Multiset.ofList (allIds B) := by
    rw [allIds_coe, allIds_coe, h]
  have hperm := Multiset.coe_eq_coe.mp hids
  exact ⟨fun h2 => hperm.nodup h2, fun h2 => hperm.symm.nodup h2⟩


/-- Pushing a fresh id preserves duplicate-freeness and coverage. -/
theorem pushAt_inv (teams : List (List Slot)) (used : List Nat)
    (pid : Nat) (pos : Role) (ti : Nat)
    (hnd : NodupIds teams) (hcov : UsedCover teams used)
    (hfresh : ¬ pid ∈ used) :
    NodupIds (pushAt teams ti pid pos) ∧
      UsedCover (pushAt teams ti pid pos) (used ++ [pid]) := by
  by_cases ht : ti < teams.length
  · have hm := allIds_pushAt teams ti pid pos ht
    have hperm : (allIds (pushAt teams ti pid pos)).Perm (pid :: allIds teams) := by
      apply Multiset.coe_eq_coe.mp
      rw [hm]
      rfl
    constructor
    · have hn : (pid :: allIds teams).Nodup :=
        List.nodup_cons.mpr ⟨fun hc => hfresh (hcov pid hc), hnd⟩
      exact hperm.symm.nodup hn
    · intro id hid
      rcases List.mem_cons.mp (hperm.mem_iff.mp hid) with rfl | h2
      · simp
      · exact List.mem_append.mpr (Or.inl (hcov id h2))
  · rw [pushAt_oob teams ti pid pos ht]
    exact ⟨hnd, fun id hid => List.mem_append.mpr (Or.inl (hcov id hid))⟩

/-- One visit of an allocation pass preserves the pass invariant. -/
theorem allocVisit_inv (pos : Role) (ids : List Nat)
    (guard : List (List Slot) → Nat → Bool) (a : Alloc) (ti : Nat)
    (h : AllocInv ids a) : AllocInv ids (allocVisit pos ids guard a ti) := by
  obtain ⟨hnd, hcov, hfresh, hdnd⟩ := h
  unfold allocVisit
  cases hg : ids[a.idx]? with
  | none => exact ⟨hnd, hcov, hfresh, hdnd⟩
  | some pid =>
    dsimp only
    by_cases hgd : guard a.teams ti = true
    · rw [if_pos hgd]
      have hlt : a.idx < ids.length := by
        by_contra hge
        rw [List.getElem?_eq_none (Nat.le_of_not_lt hge)] at hg
        cases hg
      have hdrop : ids.drop a.idx = pid :: ids.drop (a.idx + 1) := by
        rw [List.drop_eq_getElem_cons hlt]
        have he : ids[a.idx] = pid := by
          have h1 := List.getElem?_eq_getElem hlt
          rw [hg] at h1
          exact (Option.some.injEq _ _).mp h1.symm
        rw [he]
      have hpid : ¬ pid ∈ a.used :=
        hfresh pid (by rw [hdrop]; exact List.mem_cons_self _ _)
      have hpush := pushAt_inv a.teams a.used pid pos ti hnd hcov hpid
      refine ⟨hpush.1, hpush.2, ?_, ?_⟩
      · intro id hid hc
        have hid0 : id ∈ ids.drop a.idx := by
          rw [hdrop]
          exact List.mem_cons_of_mem _ hid
        rcases List.mem_append.mp hc with hc1 | hc1
        · exact hfresh id hid0 hc1
        · have : id = pid := List.mem_singleton.mp hc1
          subst this
          have hnd2 := hdrop ▸ hdnd
          exact (List.nodup_cons.mp hnd2).1 hid
      · have hnd2 := hdrop ▸ hdnd
        exact (List.nodup_cons.mp hnd2).2
    · rw [if_neg hgd]
      exact ⟨hnd, hcov, hfresh, hdnd⟩

/-- A whole allocation pass preserves duplicate-freeness and coverage. -/
theorem allocPass_inv (pos : Role) (ids : List Nat)
    (guard : List (List Slot) → Nat → Bool) (tis : List Nat)
    (teams : List (List Slot)) (used : List Nat)
    (hnd : NodupIds teams) (hcov : UsedCover teams used)
    (hids : ids.Nodup) (hfresh : ∀ id ∈ ids, ¬ id ∈ used) :
    GenInv (allocPass pos ids guard tis teams used) := by
  have hfold : ∀ (l : List Nat) (a : Alloc), AllocInv ids a →
      AllocInv ids (l.foldl (allocVisit pos ids guard) a) := by
    intro l
    induction l with
    | nil => intro a ha; exact ha
    | cons x xs ih =>
      intro a ha
      exact ih _ (allocVisit_inv pos ids guard a x ha)
  have h0 : AllocInv ids ⟨teams, used, 0⟩ :=
    ⟨hnd, hcov, by simpa using hfresh, by simpa using hids⟩
  have hres := hfold tis _ h0
  exact ⟨hres.1, hres.2.1⟩

/-- Any `sortIds` result permutes the input, given that the jitter branch
does. -/
theorem sortIds_perm (randomize : Bool) {re : List Nat → List Nat}
    (r : Nat → Nat → Prop) [DecidableRel r] {l : List Nat}
    (h : (re l).Perm l) : (sortIds randomize re r l).Perm l := by
  unfold sortIds
  split
  · exact h
  · exact List.perm_insertionSort r l

/-- Index buckets of a well-formed pool are repetition-free. -/
theorem getPlayerIdsForPosition_nodup (pool : PlayerPool) (pos : Role)
    (hw : PoolWF pool) : (getPlayerIdsForPosition pool pos).Nodup := by
  unfold getPlayerIdsForPosition lookup?
  cases hf : pool.playersByPosition.find? (fun e => decide (e.1 = pos)) with
  | none => simp
  | some e =>
    exact hw e (List.mem_of_find?_eq_some hf)

/-- Fresh ids are repetition-free for a well-formed pool. -/
theorem freshIds_nodup (pool : PlayerPool) (used : List Nat) (pos : Role)
    (hw : PoolWF pool) : (freshIds pool used pos).Nodup :=
  (getPlayerIdsForPosition_nodup pool pos hw).filter _

/-- Fresh ids avoid the used set. -/
theorem freshIds_fresh (pool : PlayerPool) (used : List Nat) (pos : Role) :
    ∀ id ∈ freshIds pool used pos, ¬ id ∈ used := by
  intro id hid hc
  unfold freshIds at hid
  rw [List.mem_filter] at hid
  have h2 : used.contains id = false := by simpa using hid.2
  have h3 : used.contains id = true := by simpa using hc
  rw [h3] at h2
  cases h2

/-- A fold whose steps preserve the generator invariant preserves it. -/
theorem foldl_genInv {β : Type}
    (f : List (List Slot) × List Nat → β → List (List Slot) × List Nat)
    (hf : ∀ st b, GenInv st → GenInv (f st b)) :
    ∀ (l : List β) (st), GenInv st → GenInv (l.foldl f st) := by
  intro l
  induction l with
  | nil => intro st h; exact h
  | cons x xs ih =>
    intro st h
    exact ih _ (hf st x h)

/-- The empty generator start state satisfies the invariant. -/
theorem genInv_start (teamCount : Nat) :
    GenInv (List.replicate teamCount ([] : List Slot), ([] : List Nat)) := by
  constructor
  · show (allIds (List.replicate teamCount [])).Nodup
    rw [allIds_replicate_nil]
    exact List.nodup_nil
  · intro id hid
    rw [allIds_replicate_nil] at hid
    cases hid


/-- A sorted id list inherits freshness and repetition-freeness. -/
theorem sortIds_ok (randomize : Bool) {re : List Nat → List Nat}
    (r : Nat → Nat → Prop) [DecidableRel r] {l used : List Nat}
    (hperm : (re l).Perm l) (hnd : l.Nodup) (hfr : ∀ id ∈ l, ¬ id ∈ used) :
    (sortIds randomize re r l).Nodup ∧
      ∀ id ∈ sortIds randomize re r l, ¬ id ∈ used := by
  have hp := sortIds_perm randomize r hperm
  exact ⟨hp.symm.nodup hnd, fun id hid => hfr id (hp.mem_iff.mp hid)⟩

/-- The greedy generator never assigns a candidate twice. -/
theorem createGreedySlotSolution_nodup (comp : List (Role × Nat))
    (teamCount : Nat) (pool : PlayerPool) (randomize : Bool)
    (reorderOrder : List (Role × Nat) → List (Role × Nat))
    (reorderIds : Nat → List Nat → List Nat)
    (hw : PoolWF pool) (hre : PermFn1 reorderIds) :
    hasDuplicatePlayerIds
      (createGreedySlotSolution comp teamCount pool randomize reorderOrder
        reorderIds) = false := by
  rw [hasDuplicatePlayerIds_eq_false_iff]
  unfold createGreedySlotSolution
  dsimp only
  refine (foldl_genInv _ ?_ _ _ (genInv_start teamCount)).1
  intro st e h
  have hok := sortIds_ok randomize (ratingDesc pool e.2.1)
    (hre e.1 (freshIds pool st.2 e.2.1))
    (freshIds_nodup pool st.2 e.2.1 hw) (freshIds_fresh pool st.2 e.2.1)
  exact allocPass_inv _ _ _ _ _ _ h.1 h.2 hok.1 hok.2

/-- The balanced generator never assigns a candidate twice. -/
theorem createBalancedSlotSolution_nodup (comp : List (Role × Nat))
    (teamCount : Nat) (pool : PlayerPool) (randomize : Bool)
    (reorderOrder : List (Role × Nat) → List (Role × Nat))
    (reorderIds : Nat → List Nat → List Nat) (offChoice : Nat → Nat)
    (hw : PoolWF pool) (hre : PermFn1 reorderIds) :
    hasDuplicatePlayerIds
      (createBalancedSlotSolution comp teamCount pool randomize reorderOrder
        reorderIds offChoice) = false := by
  rw [hasDuplicatePlayerIds_eq_false_iff]
  unfold createBalancedSlotSolution
  dsimp only
  refine (foldl_genInv _ ?_ _ _ (genInv_start teamCount)).1
  intro st e h
  have hok := sortIds_ok randomize (ratingDesc pool e.2.1)
    (hre e.1 (freshIds pool st.2 e.2.1))
    (freshIds_nodup pool st.2 e.2.1 hw) (freshIds_fresh pool st.2 e.2.1)
  exact allocPass_inv _ _ _ _ _ _ h.1 h.2 hok.1 hok.2

/-- The snake-draft generator never assigns a candidate twice. -/
theorem createSnakeDraftSlotSolution_nodup (comp : List (Role × Nat))
    (teamCount : Nat) (pool : PlayerPool) (randomize : Bool)
    (reorderOrder : List (Role × Nat) → List (Role × Nat))
    (reorderIds : Nat → List Nat → List Nat) (coin : Nat → Bool)
    (hw : PoolWF pool) (hre : PermFn1 reorderIds) :
    hasDuplicatePlayerIds
      (createSnakeDraftSlotSolution comp teamCount pool randomize reorderOrder
        reorderIds coin) = false := by
  rw [hasDuplicatePlayerIds_eq_false_iff]
  unfold createSnakeDraftSlotSolution
  dsimp only
  refine (foldl_genInv _ ?_ _ _ (genInv_start teamCount)).1
  intro st e h
  have hok := sortIds_ok randomize (specialistFirst pool e.2.1)
    (hre e.1 (freshIds pool st.2 e.2.1))
    (freshIds_nodup pool st.2 e.2.1 hw) (freshIds_fresh pool st.2 e.2.1)
  exact allocPass_inv _ _ _ _ _ _ h.1 h.2 hok.1 hok.2

/-- The random generator never assigns a candidate twice. -/
theorem createRandomSlotSolution_nodup (comp : List (Role × Nat))
    (teamCount : Nat) (pool : PlayerPool)
    (shuffleIds : Nat → List Nat → List Nat)
    (hw : PoolWF pool) (hsh : PermFn1 shuffleIds) :
    hasDuplicatePlayerIds
      (createRandomSlotSolution comp teamCount pool shuffleIds) = false := by
  rw [hasDuplicatePlayerIds_eq_false_iff]
  unfold createRandomSlotSolution
  dsimp only
  refine (foldl_genInv _ ?_ _ _ (genInv_start teamCount)).1
  intro st e h
  have hp := hsh e.1 (freshIds pool st.2 e.2.1)
  exact allocPass_inv _ _ _ _ _ _ h.1 h.2
    (hp.symm.nodup (freshIds_nodup pool st.2 e.2.1 hw))
    (fun id hid => freshIds_fresh pool st.2 e.2.1 id (hp.mem_iff.mp hid))

/-- The phase-1 specialist filter is repetition-free and fresh. -/
theorem smartFilter_ok (pool : PlayerPool) (used : List Nat) (pos : Role)
    (hw : PoolWF pool) :
    ((getPlayerIdsForPosition pool pos).filter
        (fun id => ! used.contains id && posLen pool id == 1)).Nodup ∧
      ∀ id ∈ (getPlayerIdsForPosition pool pos).filter
        (fun id => ! used.contains id && posLen pool id == 1),
        ¬ id ∈ used := by
  refine ⟨(getPlayerIdsForPosition_nodup pool pos hw).filter _, ?_⟩
  intro id hid hc
  rw [List.mem_filter] at hid
  have h2 := hid.2
  rw [Bool.and_eq_true] at h2
  have h3 : used.contains id = false := by simpa using h2.1
  have h4 : used.contains id = true := by simpa using hc
  rw [h4] at h3
  cases h3

/-- Phase 1 of the smart generator establishes the invariant. -/
theorem smartPhase1_inv (comp : List (Role × Nat)) (teamCount : Nat)
    (pool : PlayerPool) (randomize : Bool)
    (reorderIds : Nat → List Nat → List Nat)
    (hw : PoolWF pool) (hre : PermFn1 reorderIds) :
    GenInv (smartPhase1 comp teamCount pool randomize reorderIds) := by
  unfold smartPhase1
  refine foldl_genInv _ ?_ _ _ (genInv_start teamCount)
  intro st e h
  have hf := smartFilter_ok pool st.2 e.2.1 hw
  have hok := sortIds_ok randomize (ratingDesc pool e.2.1) (hre e.1 _) hf.1 hf.2
  exact allocPass_inv _ _ _ _ _ _ h.1 h.2 hok.1 hok.2

/-- One phase-2 iteration preserves the invariant. -/
theorem smartPhase2Iter_inv (comp : List (Role × Nat)) (teamCount : Nat)
    (pool : PlayerPool) (randomize : Bool)
    (reorderIds : Nat → List Nat → List Nat)
    (st : List (List Slot) × List Nat)
    (hw : PoolWF pool) (hre : PermFn1 reorderIds) (h : GenInv st) :
    GenInv (smartPhase2Iter comp teamCount pool randomize reorderIds st) := by
  unfold smartPhase2Iter
  refine foldl_genInv _ ?_ _ _ h
  intro st2 e h2
  have hok := sortIds_ok randomize (versatilityAsc pool e.2.1)
    (hre e.1 (freshIds pool st2.2 e.2.1))
    (freshIds_nodup pool st2.2 e.2.1 hw) (freshIds_fresh pool st2.2 e.2.1)
  exact allocPass_inv _ _ _ _ _ _ h2.1 h2.2 hok.1 hok.2

/-- The phase-2 loop preserves the invariant. -/
theorem smartPhase2Loop_inv (comp : List (Role × Nat)) (teamCount : Nat)
    (pool : PlayerPool) (randomize : Bool)
    (reorderIds : Nat → Nat → List Nat → List Nat)
    (hw : PoolWF pool) (hre : PermFn2 reorderIds) :
    ∀ (fuel iter : Nat) (st : List (List Slot) × List Nat), GenInv st →
      GenInv (smartPhase2Loop comp teamCount pool randomize reorderIds
        fuel iter st) := by
  intro fuel
  induction fuel with
  | zero => intro iter st h; exact h
  | succ f ih =>
    intro iter st h
    rw [smartPhase2Loop]
    have hstep := smartPhase2Iter_inv comp teamCount pool randomize
      (reorderIds iter) st hw (fun k l => hre iter k l) h
    split
    · exact hstep
    · exact ih (iter + 1) _ hstep

/-- The smart generator never assigns a candidate twice. -/
theorem createSmartSlotSolution_nodup (comp : List (Role × Nat))
    (teamCount : Nat) (pool : PlayerPool) (randomize : Bool)
    (reorderIds1 : Nat → List Nat → List Nat)
    (reorderIds2 : Nat → Nat → List Nat → List Nat)
    (hw : PoolWF pool) (hre1 : PermFn1 reorderIds1) (hre2 : PermFn2 reorderIds2) :
    hasDuplicatePlayerIds
      (createSmartSlotSolution comp teamCount pool randomize reorderIds1
        reorderIds2) = false := by
  rw [hasDuplicatePlayerIds_eq_false_iff]
  unfold createSmartSlotSolution
  exact (smartPhase2Loop_inv comp teamCount pool randomize reorderIds2 hw hre2
    200 0 _ (smartPhase1_inv comp teamCount pool randomize reorderIds1 hw hre1)).1

/-- Every seed assignment of `generateInitialSlotSolutions` is
duplicate-free. -/
theorem generateInitialSlotSolutions_nodup (comp : List (Role × Nat))
    (teamCount : Nat) (pool : PlayerPool) (ch : GenChoices)
    (hw : PoolWF pool) (hch : GenChoicesOK ch) :
    ∀ sol ∈ generateInitialSlotSolutions comp teamCount pool ch,
      hasDuplicatePlayerIds sol = false := by
  intro sol hsol
  obtain ⟨h1, h2, h3, h4, h5, h6⟩ := hch
  unfold generateInitialSlotSolutions at hsol
  simp only [List.mem_cons, List.not_mem_nil, or_false] at hsol
  rcases hsol with rfl | rfl | rfl | rfl | rfl | rfl
  · exact createSmartSlotSolution_nodup _ _ _ _ _ _ hw h1 h2
  · exact createSmartSlotSolution_nodup _ _ _ _ _ _ hw h1 h2
  · exact createGreedySlotSolution_nodup _ _ _ _ _ _ hw h3
  · exact createBalancedSlotSolution_nodup _ _ _ _ _ _ _ hw h4
  · exact createSnakeDraftSlotSolution_nodup _ _ _ _ _ _ _ hw h5
  · exact createRandomSlotSolution_nodup _ _ _ _ hw h6


/-! ## Search algorithms preserve the slot multiset of their seed -/

/-- The universal dispatcher keeps the slot multiset. -/
theorem performUniversalSlotSwap_slotsM (teams : List (List Slot))
    (positions : List Role) (pool : PlayerPool) (params : AdaptiveParams)
    (ch : UniSwapChoices) :
    slotsM (performUniversalSlotSwap teams positions pool params ch) =
      slotsM teams :=
  (applyPerturb_preserves pool teams (.universal positions params ch)).1

/-- The adaptive operator keeps the slot multiset. -/
theorem performAdaptiveSlotSwap_slotsM (teams : List (List Slot))
    (positions : List Role) (pool : PlayerPool) (params : AdaptiveParams)
    (ch : AdaptiveSwapChoices) :
    slotsM (performAdaptiveSlotSwap teams positions pool params ch) =
      slotsM teams :=
  (applyPerturb_preserves pool teams (.adaptive positions params ch)).1

/-- A cloned-and-swapped neighbor keeps the slot multiset. -/
theorem opNeighbor_slotsM (threshold : ℚ) (positions : List Role)
    (pool : PlayerPool) (params : AdaptiveParams) (teams : List (List Slot))
    (d : OpDraw) :
    slotsM (opNeighbor threshold positions pool params teams d) =
      slotsM teams := by
  unfold opNeighbor
  dsimp only
  rw [cloneSlotTeams_eq]
  split
  · exact performAdaptiveSlotSwap_slotsM teams positions pool params d.adaptive
  · exact performUniversalSlotSwap_slotsM teams positions pool params d.uni

/-- Iterated universal swaps keep the slot multiset. -/
theorem foldl_universal_slotsM (positions : List Role) (pool : PlayerPool)
    (params : AdaptiveParams) (f : Nat → UniSwapChoices) :
    ∀ (l : List Nat) (teams : List (List Slot)),
      slotsM (l.foldl (fun ts i =>
        performUniversalSlotSwap ts positions pool params (f i)) teams) =
        slotsM teams := by
  intro l
  induction l with
  | nil => intro teams; rfl
  | cons x xs ih =>
    intro teams
    rw [List.foldl_cons, ih]
    exact performUniversalSlotSwap_slotsM teams positions pool params (f x)

/-- One local-search iteration keeps the slot multiset. -/
theorem lsStep_slotsM (sqrtA : ℚ → ℚ) (positions : List Role)
    (pool : PlayerPool) (w : List (Role × ℚ)) (params : AdaptiveParams)
    (d : OpDraw) (st : List (List Slot) × ℚ) :
    slotsM (lsStep sqrtA positions pool w params d st).1 = slotsM st.1 := by
  unfold lsStep
  dsimp only
  split
  · exact opNeighbor_slotsM _ positions pool params st.1 d
  · rfl

/-- The local-search loop keeps the slot multiset. -/
theorem lsStates_slotsM (sqrtA : ℚ → ℚ) (positions : List Role)
    (pool : PlayerPool) (w : List (Role × ℚ)) (params : AdaptiveParams)
    (chs : Nat → OpDraw) (init : List (List Slot) × ℚ) :
    ∀ i, slotsM (lsStates sqrtA positions pool w params chs init i).1 =
      slotsM init.1 := by
  intro i
  induction i with
  | zero => rfl
  | succ k ih =>
    rw [lsStates]
    rw [lsStep_slotsM]
    exact ih

/-- The local-search output is duplicate-free when its seed is. -/
theorem lsSolve_nodup (sqrtA : ℚ → ℚ) (iterations : Nat)
    (positions : List Role) (pool : PlayerPool) (w : List (Role × ℚ))
    (params : AdaptiveParams) (chs : Nat → OpDraw)
    (initialSolution : List (List Slot))
    (h : hasDuplicatePlayerIds initialSolution = false) :
    hasDuplicatePlayerIds
      (lsSolve sqrtA iterations positions pool w params chs initialSolution) =
      false := by
  rw [hasDuplicatePlayerIds_eq_false_iff] at h ⊢
  have hs : slotsM
      (lsSolve sqrtA iterations positions pool w params chs initialSolution) =
      slotsM initialSolution := by
    unfold lsSolve
    dsimp only
    rw [lsStates_slotsM]
    dsimp only
    rw [cloneSlotTeams_eq]
  exact (nodupIds_iff_of_slotsM_eq hs).mpr h

/-- An SA neighbor keeps the slot multiset. -/
theorem saNeighbor_slotsM (cfg : SAConfig) (positions : List Role)
    (pool : PlayerPool) (params : AdaptiveParams) (st : SAState)
    (ch : SAIterChoices) :
    slotsM (saNeighbor cfg positions pool params st ch) =
      slotsM st.current := by
  unfold saNeighbor
  dsimp only
  rw [cloneSlotTeams_eq]
  split
  · exact performAdaptiveSlotSwap_slotsM st.current positions pool params
      ch.adaptive
  · exact performUniversalSlotSwap_slotsM st.current positions pool params
      ch.uni

/-- One SA iteration keeps the multisets of current and best (best may
take over the current multiset). -/
theorem saStep_slotsM (sqrtA expA : ℚ → ℚ) (cfg : SAConfig)
    (positions : List Role) (pool : PlayerPool) (w : List (Role × ℚ))
    (params : AdaptiveParams) (ch : SAIterChoices) (st : SAState) :
    (slotsM (saStep sqrtA expA cfg positions pool w params ch st).current =
        slotsM st.current ∧
      (slotsM (saStep sqrtA expA cfg positions pool w params ch st).best =
          slotsM st.best ∨
        slotsM (saStep sqrtA expA cfg positions pool w params ch st).best =
          slotsM st.current)) := by
  unfold saStep
  dsimp only
  have hn := saNeighbor_slotsM cfg positions pool params st ch
  repeat' split
  all_goals refine ⟨?_, ?_⟩
  all_goals dsimp only
  all_goals first
    | exact hn
    | rfl
    | (rw [cloneSlotTeams_eq]; exact Or.inr hn)
    | exact Or.inl rfl
    | exact Or.inr hn


/-- The SA loop keeps the seed's slot multiset in current and best. -/
theorem saStates_slotsM (sqrtA expA : ℚ → ℚ) (cfg : SAConfig)
    (positions : List Role) (pool : PlayerPool) (w : List (Role × ℚ))
    (params : AdaptiveParams) (chs : Nat → SAIterChoices) (init : SAState)
    (hinit : slotsM init.best = slotsM init.current) :
    ∀ i, slotsM (saStates sqrtA expA cfg positions pool w params chs init
        i).current = slotsM init.current ∧
      slotsM (saStates sqrtA expA cfg positions pool w params chs init
        i).best = slotsM init.current := by
  intro i
  induction i with
  | zero => exact ⟨rfl, hinit⟩
  | succ k ih =>
    rw [saStates]
    have hstep := saStep_slotsM sqrtA expA cfg positions pool w params (chs k)
      (saStates sqrtA expA cfg positions pool w params chs init k)
    refine ⟨hstep.1.trans ih.1, ?_⟩
    rcases hstep.2 with h2 | h2
    · exact h2.trans ih.2
    · exact h2.trans ih.1

/-- The SA output is duplicate-free when its seed is. -/
theorem saSolve_nodup (sqrtA expA : ℚ → ℚ) (cfg : SAConfig)
    (positions : List Role) (pool : PlayerPool) (w : List (Role × ℚ))
    (params : AdaptiveParams) (chs : Nat → SAIterChoices)
    (initialSolution : List (List Slot))
    (h : hasDuplicatePlayerIds initialSolution = false) :
    hasDuplicatePlayerIds
      (saSolve sqrtA expA cfg positions pool w params chs initialSolution) =
      false := by
  rw [hasDuplicatePlayerIds_eq_false_iff] at h ⊢
  have hinit : slotsM (saInit sqrtA cfg pool w initialSolution).best =
      slotsM (saInit sqrtA cfg pool w initialSolution).current := by
    show slotsM (cloneSlotTeams (cloneSlotTeams initialSolution)) =
      slotsM (cloneSlotTeams initialSolution)
    rw [cloneSlotTeams_eq]
  have hs := (saStates_slotsM sqrtA expA cfg positions pool w params chs
    (saInit sqrtA cfg pool w initialSolution) hinit cfg.iterations).2
  have hcur : slotsM (saInit sqrtA cfg pool w initialSolution).current =
      slotsM initialSolution := by
    show slotsM (cloneSlotTeams initialSolution) = slotsM initialSolution
    rw [cloneSlotTeams_eq]
  have hfin : slotsM
      (saSolve sqrtA expA cfg positions pool w params chs initialSolution) =
      slotsM initialSolution := by
    unfold saSolve
    rw [hs, hcur]
  exact (nodupIds_iff_of_slotsM_eq hfin).mpr h


/-- Fold invariant restricted to elements of an ambient list. -/
theorem foldl_mem_inv {α β : Type} (S : List β) (P : α → Prop) (f : α → β → α)
    (hf : ∀ a b, b ∈ S → P a → P (f a b)) :
    ∀ (l : List β), (∀ x ∈ l, x ∈ S) → ∀ a, P a → P (l.foldl f a) := by
  intro l
  induction l with
  | nil =>
    intro _ a h
    exact h
  | cons x xs ih =>
    intro hsub a h
    exact ih (fun y hy => hsub y (List.mem_cons_of_mem _ hy)) _
      (hf a x (hsub x (List.mem_cons_self _ _)) h)

/-- Every generated tabu neighbor keeps the slot multiset. -/
theorem generateNeighborhood_slotsM (positions : List Role) (pool : PlayerPool)
    (params : AdaptiveParams) (teams : List (List Slot)) (size : Nat)
    (isStagnating : Bool) (draws : Nat → OpDraw) :
    ∀ n ∈ generateNeighborhood positions pool params teams size isStagnating
      draws, slotsM n = slotsM teams := by
  intro n hn
  unfold generateNeighborhood at hn
  rcases List.mem_map.mp hn with ⟨k, _, rfl⟩
  exact opNeighbor_slotsM _ positions pool params teams (draws k)

/-- Both selected neighbors (best and non-tabu fallback) come from the
neighborhood. -/
theorem tabuSelect_mem (sqrtA : ℚ → ℚ) (pool : PlayerPool)
    (w : List (Role × ℚ)) (tabuSet : List (List Char)) (bestScore : ℚ)
    (neighbors : List (List (List Slot))) :
    (∀ p, (tabuSelect sqrtA pool w tabuSet bestScore neighbors).1 = some p →
      p.1 ∈ neighbors) ∧
    (∀ p, (tabuSelect sqrtA pool w tabuSet bestScore neighbors).2 = some p →
      p.1 ∈ neighbors) := by
  unfold tabuSelect
  refine foldl_mem_inv neighbors
    (fun acc : Option (List (List Slot) × ℚ) × Option (List (List Slot) × ℚ) =>
      (∀ p, acc.1 = some p → p.1 ∈ neighbors) ∧
      (∀ p, acc.2 = some p → p.1 ∈ neighbors)) _ ?_ neighbors
    (fun x hx => hx) (none, none)
    ⟨fun _ hp => Option.noConfusion hp, fun _ hp => Option.noConfusion hp⟩
  intro acc n hn hP
  dsimp only
  split <;> split <;>
    (refine ⟨?_, ?_⟩ <;> intro p hp <;> (try dsimp only at hp) <;>
      first
        | (injection hp with he; rw [← he]; exact hn)
        | exact hP.1 p hp
        | exact hP.2 p hp)


/-- The tabu move stage keeps the multisets of current and best. -/
theorem tabuMove_slotsM (sqrtA : ℚ → ℚ) (cfg : TabuConfig)
    (positions : List Role) (pool : PlayerPool) (w : List (Role × ℚ))
    (params : AdaptiveParams) (ch : TabuIterChoices)
    (st : TabuState) (hcb : slotsM st.current = slotsM st.best) :
    slotsM (tabuMove sqrtA cfg positions pool w params ch st).current =
        slotsM st.current ∧
      slotsM (tabuMove sqrtA cfg positions pool w params ch st).best =
        slotsM st.best := by
  have hnbr := generateNeighborhood_slotsM positions pool params st.current
    cfg.neighborCount (decide (100 < st.sinceImprovement)) ch.nbrs
  have hsel := tabuSelect_mem sqrtA pool w st.tabuSet st.bestScore
    (generateNeighborhood positions pool params st.current cfg.neighborCount
      (decide (100 < st.sinceImprovement)) ch.nbrs)
  unfold tabuMove
  dsimp only
  cases hch : (match (tabuSelect sqrtA pool w st.tabuSet st.bestScore
      (generateNeighborhood positions pool params st.current cfg.neighborCount
        (decide (100 < st.sinceImprovement)) ch.nbrs)).1 with
    | some p => some p
    | none => (tabuSelect sqrtA pool w st.tabuSet st.bestScore
        (generateNeighborhood positions pool params st.current
          cfg.neighborCount (decide (100 < st.sinceImprovement))
          ch.nbrs)).2) with
  | none => exact ⟨rfl, rfl⟩
  | some p =>
    have hp1 : slotsM p.1 = slotsM st.current := by
      rcases hs1 : (tabuSelect sqrtA pool w st.tabuSet st.bestScore
          (generateNeighborhood positions pool params st.current
            cfg.neighborCount (decide (100 < st.sinceImprovement))
            ch.nbrs)).1 with _ | q
      · rw [hs1] at hch
        exact hnbr p.1 (hsel.2 p hch)
      · rw [hs1] at hch
        injection hch with he
        rw [← he]
        exact hnbr q.1 (hsel.1 q hs1)
    dsimp only
    split
    · exact ⟨hp1, by
        show slotsM (cloneSlotTeams p.1) = slotsM st.best
        rw [cloneSlotTeams_eq]
        exact hp1.trans hcb⟩
    · exact ⟨hp1, rfl⟩

/-- The diversification stage keeps the multisets of current and best. -/
theorem tabuDiversify_slotsM (cfg : TabuConfig) (positions : List Role)
    (pool : PlayerPool) (params : AdaptiveParams) (iter : Nat)
    (ch : TabuIterChoices) (st1 : TabuState)
    (hcb : slotsM st1.current = slotsM st1.best) :
    slotsM (tabuDiversify cfg positions pool params iter ch st1).current =
        slotsM st1.current ∧
      slotsM (tabuDiversify cfg positions pool params iter ch st1).best =
        slotsM st1.best := by
  unfold tabuDiversify
  dsimp only
  split
  · refine ⟨?_, rfl⟩
    exact (foldl_universal_slotsM positions pool params ch.divSwaps _ _).trans
      (by rw [cloneSlotTeams_eq]; exact hcb.symm)
  · exact ⟨rfl, rfl⟩

/-- The restart stage keeps the multisets of current and best. -/
theorem tabuRestart_slotsM (positions : List Role) (pool : PlayerPool)
    (params : AdaptiveParams) (ch : TabuIterChoices) (st2 : TabuState)
    (hcb : slotsM st2.current = slotsM st2.best) :
    slotsM (tabuRestart positions pool params ch st2).current =
        slotsM st2.current ∧
      slotsM (tabuRestart positions pool params ch st2).best =
        slotsM st2.best := by
  unfold tabuRestart
  dsimp only
  split
  · refine ⟨?_, rfl⟩
    exact (foldl_universal_slotsM positions pool params ch.restartSwaps _
      _).trans (by rw [cloneSlotTeams_eq]; exact hcb.symm)
  · exact ⟨rfl, rfl⟩

/-- One tabu iteration keeps the multisets of current and best. -/
theorem tabuStep_slotsM (sqrtA : ℚ → ℚ) (cfg : TabuConfig)
    (positions : List Role) (pool : PlayerPool) (w : List (Role × ℚ))
    (params : AdaptiveParams) (iter : Nat) (ch : TabuIterChoices)
    (st : TabuState) (hcb : slotsM st.current = slotsM st.best) :
    slotsM (tabuStep sqrtA cfg positions pool w params iter ch st).current =
        slotsM st.current ∧
      slotsM (tabuStep sqrtA cfg positions pool w params iter ch st).best =
        slotsM st.best := by
  have h1 := tabuMove_slotsM sqrtA cfg positions pool w params ch st hcb
  have hcb1 : slotsM (tabuMove sqrtA cfg positions pool w params ch st).current
      = slotsM (tabuMove sqrtA cfg positions pool w params ch st).best := by
    rw [h1.1, h1.2, hcb]
  have h2 := tabuDiversify_slotsM cfg positions pool params iter ch _ hcb1
  have hcb2 : slotsM (tabuDiversify cfg positions pool params iter ch
        (tabuMove sqrtA cfg positions pool w params ch st)).current =
      slotsM (tabuDiversify cfg positions pool params iter ch
        (tabuMove sqrtA cfg positions pool w params ch st)).best := by
    rw [h2.1, h2.2, hcb1]
  have h3 := tabuRestart_slotsM positions pool params ch _ hcb2
  unfold tabuStep
  constructor
  · rw [h3.1, h2.1, h1.1]
  · rw [h3.2, h2.2, h1.2]


/-- The tabu loop keeps the seed's slot multiset in current and best. -/
theorem tabuStates_slotsM (sqrtA : ℚ → ℚ) (cfg : TabuConfig)
    (positions : List Role) (pool : PlayerPool) (w : List (Role × ℚ))
    (params : AdaptiveParams) (chs : Nat → TabuIterChoices) (init : TabuState)
    (hinit : slotsM init.current = slotsM init.best) :
    ∀ i, slotsM (tabuStates sqrtA cfg positions pool w params chs init
        i).current = slotsM init.current ∧
      slotsM (tabuStates sqrtA cfg positions pool w params chs init
        i).best = slotsM init.current := by
  intro i
  induction i with
  | zero => exact ⟨rfl, hinit.symm⟩
  | succ k ih =>
    rw [tabuStates]
    have hcb : slotsM (tabuStates sqrtA cfg positions pool w params chs init
        k).current = slotsM (tabuStates sqrtA cfg positions pool w params chs
        init k).best := by
      rw [ih.1, ih.2]
    have hstep := tabuStep_slotsM sqrtA cfg positions pool w params k (chs k)
      _ hcb
    exact ⟨hstep.1.trans ih.1, hstep.2.trans ih.2⟩

/-- The tabu output is duplicate-free when its seed is. -/
theorem tabuSolve_nodup (sqrtA : ℚ → ℚ) (cfg : TabuConfig)
    (positions : List Role) (pool : PlayerPool) (w : List (Role × ℚ))
    (params : AdaptiveParams) (chs : Nat → TabuIterChoices)
    (initialSolution : List (List Slot))
    (h : hasDuplicatePlayerIds initialSolution = false) :
    hasDuplicatePlayerIds
      (tabuSolve sqrtA cfg positions pool w params chs initialSolution) =
      false := by
  rw [hasDuplicatePlayerIds_eq_false_iff] at h ⊢
  have hinit : slotsM (tabuInit sqrtA pool w initialSolution).current =
      slotsM (tabuInit sqrtA pool w initialSolution).best := by
    show slotsM (cloneSlotTeams initialSolution) =
      slotsM (cloneSlotTeams (cloneSlotTeams initialSolution))
    rw [cloneSlotTeams_eq, cloneSlotTeams_eq]
  have hs := (tabuStates_slotsM sqrtA cfg positions pool w params chs
    (tabuInit sqrtA pool w initialSolution) hinit cfg.iterations).2
  have hcur : slotsM (tabuInit sqrtA pool w initialSolution).current =
      slotsM initialSolution := by
    show slotsM (cloneSlotTeams initialSolution) = slotsM initialSolution
    rw [cloneSlotTeams_eq]
  have hfin : slotsM
      (tabuSolve sqrtA cfg positions pool w params chs initialSolution) =
      slotsM initialSolution := by
    unfold tabuSolve
    rw [hs, hcur]
  exact (nodupIds_iff_of_slotsM_eq hfin).mpr h


/-- Generic fold invariant. -/
theorem foldl_inv {α β : Type} (P : α → Prop) (f : α → β → α)
    (hf : ∀ a b, P a → P (f a b)) :
    ∀ (l : List β) (a : α), P a → P (l.foldl f a) := by
  intro l
  induction l with
  | nil =>
    intro a h
    exact h
  | cons x xs ih =>
    intro a h
    exact ih _ (hf a x h)

/-- A successful roulette scan returns a listed id. -/
theorem rouletteAux_mem (r : ℚ) :
    ∀ (l : List (Nat × ℚ)) (cum : ℚ) (pid : Nat),
      rouletteAux r l cum = some pid → pid ∈ l.map (fun e => e.1) := by
  intro l
  induction l with
  | nil =>
    intro cum pid h
    cases h
  | cons e rest ih =>
    intro cum pid h
    rw [rouletteAux] at h
    split at h
    · injection h with he
      rw [← he]
      exact List.mem_cons_self _ _
    · exact List.mem_cons_of_mem _ (ih _ pid h)

/-- Roulette selection returns a member of a nonempty id list. -/
theorem rouletteWheelSelection_mem (ids : List Nat) (probs : List ℚ) (r : ℚ)
    (h : ids ≠ []) : rouletteWheelSelection ids probs r ∈ ids := by
  unfold rouletteWheelSelection
  cases haux : rouletteAux r (ids.zip probs) 0 with
  | none =>
    rw [Option.getD_none]
    exact getLastD_mem 0 h
  | some pid =>
    have hmem := rouletteAux_mem r (ids.zip probs) 0 pid haux
    rcases List.mem_map.mp hmem with ⟨e, hez, he⟩
    rw [Option.getD_some, ← he]
    exact (List.of_mem_zip hez).1

/-- One ant visit preserves duplicate-freeness and coverage. -/
theorem antVisit_inv (powA : ℚ → ℚ → ℚ) (alpha beta : ℚ) (pool : PlayerPool)
    (ph : List (Nat × List ℚ)) (pos : Role) (draw : ℚ) (ti : Nat)
    (s : AntPassState)
    (h : NodupIds s.teams ∧ UsedCover s.teams s.used) :
    NodupIds (antVisit powA alpha beta pool ph pos draw ti s).teams ∧
      UsedCover (antVisit powA alpha beta pool ph pos draw ti s).teams
        (antVisit powA alpha beta pool ph pos draw ti s).used := by
  unfold antVisit
  dsimp only
  cases havail : s.avail.filter (fun id => ! s.used.contains id) with
  | nil => exact h
  | cons a rest =>
    dsimp only
    have hsel := rouletteWheelSelection_mem (a :: rest)
      (antProbabilities powA alpha beta pool ph (a :: rest) ti pos) draw
      (List.cons_ne_nil a rest)
    have hself : rouletteWheelSelection (a :: rest)
        (antProbabilities powA alpha beta pool ph (a :: rest) ti pos) draw ∈
        s.avail.filter (fun id => ! s.used.contains id) := by
      rw [havail]
      exact hsel
    rw [List.mem_filter] at hself
    have h2 := hself.2
    rw [Bool.not_eq_true'] at h2
    refine pushAt_inv s.teams s.used _ pos ti h.1 h.2 ?_
    intro hc
    have h3 : s.used.contains (rouletteWheelSelection (a :: rest)
        (antProbabilities powA alpha beta pool ph (a :: rest) ti pos) draw) =
        true := by simpa using hc
    rw [h3] at h2
    cases h2

/-- Every ant-constructed assignment is duplicate-free. -/
theorem constructAntSolution_nodup (cfg : ACOConfig) (powA : ℚ → ℚ → ℚ)
    (comp : List (Role × Nat)) (teamCount : Nat) (pool : PlayerPool)
    (ph : List (Nat × List ℚ)) (draws : Nat → Nat → ℚ) :
    hasDuplicatePlayerIds
      (constructAntSolution cfg powA comp teamCount pool ph draws) = false := by
  rw [hasDuplicatePlayerIds_eq_false_iff]
  unfold constructAntSolution
  dsimp only
  refine (foldl_genInv _ ?_ _ _ (genInv_start teamCount)).1
  intro st e h
  have hres := foldl_inv
    (fun s : AntPassState => NodupIds s.teams ∧ UsedCover s.teams s.used)
    (fun s v => antVisit powA cfg.alpha cfg.beta pool ph e.2.1
      (draws e.1 v.1) v.2 s)
    (fun s v hs => antVisit_inv powA cfg.alpha cfg.beta pool ph e.2.1
      (draws e.1 v.1) v.2 s hs)
    (blockVisits teamCount e.2.2).enum
    ⟨st.1, st.2, (freshIds pool st.2 e.2.1).insertionSort (acoSpecialistLe pool)⟩
    ⟨h.1, h.2⟩
  exact hres

/-- One ACO iteration keeps the global best duplicate-free. -/
theorem acoIter_nodup (sqrtA : ℚ → ℚ) (cfg : ACOConfig) (powA : ℚ → ℚ → ℚ)
    (comp : List (Role × Nat)) (teamCount : Nat) (pool : PlayerPool)
    (w : List (Role × ℚ)) (d : ACODraws) (iter : Nat)
    (st : List (Nat × List ℚ) × Option (List (List Slot) × ℚ))
    (hst : ∀ q, st.2 = some q → NodupIds q.1) :
    ∀ p, (acoIter sqrtA cfg powA comp teamCount pool w d iter st).2 = some p →
      NodupIds p.1 := by
  intro p hp
  unfold acoIter at hp
  dsimp only at hp
  refine foldl_inv (fun acc : List (List (List Slot) × ℚ) ×
      Option (List (List Slot) × ℚ) =>
      ∀ q, acc.2 = some q → NodupIds q.1) _ ?_ (List.range cfg.antCount) _
    hst p hp
  intro acc ant hacc
  dsimp only
  split
  · intro q hq
    injection hq with he
    rw [← he]
    dsimp only
    have hc := constructAntSolution_nodup cfg powA comp teamCount pool st.1
      (d.antDraws iter ant)
    rw [hasDuplicatePlayerIds_eq_false_iff] at hc
    show NodupIds (cloneSlotTeams (constructAntSolution cfg powA comp
      teamCount pool st.1 (d.antDraws iter ant)))
    rw [cloneSlotTeams_eq]
    exact hc
  · exact hacc

/-- The ACO global best is always duplicate-free. -/
theorem acoStates_nodup (sqrtA : ℚ → ℚ) (cfg : ACOConfig) (powA : ℚ → ℚ → ℚ)
    (comp : List (Role × Nat)) (teamCount : Nat) (pool : PlayerPool)
    (w : List (Role × ℚ)) (d : ACODraws) :
    ∀ i p, (acoStates sqrtA cfg powA comp teamCount pool w d i).2 = some p →
      NodupIds p.1 := by
  intro i
  induction i with
  | zero =>
    intro p hp
    cases hp
  | succ k ih =>
    intro p hp
    rw [acoStates] at hp
    exact acoIter_nodup sqrtA cfg powA comp teamCount pool w d k _ ih p hp

/-- The ACO output is duplicate-free. -/
theorem acoSolve_nodup (sqrtA : ℚ → ℚ) (cfg : ACOConfig) (powA : ℚ → ℚ → ℚ)
    (comp : List (Role × Nat)) (teamCount : Nat) (pool : PlayerPool)
    (w : List (Role × ℚ)) (d : ACODraws)
    (hw : PoolWF pool) (hd : ACODrawsOK d) :
    hasDuplicatePlayerIds
      (acoSolve sqrtA cfg powA comp teamCount pool w d) = false := by
  unfold acoSolve
  cases hb : (acoStates sqrtA cfg powA comp teamCount pool w d
      cfg.iterations).2 with
  | none => exact createRandomSlotSolution_nodup comp teamCount pool d.fallback hw hd
  | some b =>
    rw [hasDuplicatePlayerIds_eq_false_iff]
    exact acoStates_nodup sqrtA cfg powA comp teamCount pool w d cfg.iterations
      b hb


/-- Domain scanning preserves duplicate-freeness of any found solution,
given that the continuation does. -/
theorem cpTryDomain_nodup
    (bt : List Nat → List (List Slot) → Nat → Option (List (List Slot)) × Nat)
    (ti : Nat) (pos : Role)
    (hbt : ∀ used teams b sol b2, NodupIds teams → UsedCover teams used →
      bt used teams b = (some sol, b2) → NodupIds sol) :
    ∀ (dom used : List Nat) (teams : List (List Slot)) (b : Nat) sol b2,
      NodupIds teams → UsedCover teams used →
      cpTryDomain bt ti pos dom used teams b = (some sol, b2) →
      NodupIds sol := by
  intro dom
  induction dom with
  | nil =>
    intro used teams b sol b2 _ _ h
    rw [cpTryDomain] at h
    injection h with h1 _
    cases h1
  | cons pid restDom ih =>
    intro used teams b sol b2 hnd hcov h
    rw [cpTryDomain] at h
    split at h
    · exact ih used teams b sol b2 hnd hcov h
    · rename_i hcont
      split at h
      · rename_i sol0 b0 heq
        injection h with h1 h2
        injection h1 with h3
        rw [← h3]
        have hfresh : ¬ pid ∈ used := by
          intro hc
          have h4 : used.contains pid = true := by simpa using hc
          exact hcont h4
        have hp := pushAt_inv teams used pid pos ti hnd hcov hfresh
        exact hbt _ _ _ _ _ hp.1 hp.2 heq
      · exact ih used teams _ sol b2 hnd hcov h

/-- Any solution found by the CP backtracking search is duplicate-free. -/
theorem cpBacktrack_nodup (maxB : Nat) :
    ∀ (vars : List CPVar) (used : List Nat) (teams : List (List Slot))
      (b : Nat) sol b2, NodupIds teams → UsedCover teams used →
      cpBacktrack maxB vars used teams b = (some sol, b2) →
      NodupIds sol := by
  intro vars
  induction vars with
  | nil =>
    intro used teams b sol b2 hnd _ h
    rw [cpBacktrack] at h
    injection h with h1 _
    injection h1 with h3
    rw [← h3]
    exact hnd
  | cons v rest ih =>
    intro used teams b sol b2 hnd hcov h
    rw [cpBacktrack] at h
    split at h
    · injection h with h1 _
      cases h1
    · exact cpTryDomain_nodup (cpBacktrack maxB rest) v.teamIndex v.position
        (fun u t bb s bb2 => ih u t bb s bb2) v.domain used teams b sol b2
        hnd hcov h

/-- One CP attempt keeps the best solution duplicate-free. -/
theorem cpAttempt_nodup (sqrtA : ℚ → ℚ) (maxB : Nat) (teamCount : Nat)
    (pool : PlayerPool) (w : List (Role × ℚ))
    (shuffleVars : Nat → List CPVar → List CPVar)
    (st : List CPVar × Option (List (List Slot) × ℚ)) (attempt : Nat)
    (hP : ∀ p, st.2 = some p → NodupIds p.1) :
    ∀ p, (cpAttempt sqrtA maxB teamCount pool w shuffleVars st attempt).2 =
      some p → NodupIds p.1 := by
  intro p hp
  unfold cpAttempt at hp
  dsimp only at hp
  rcases hres : (cpBacktrack maxB
      (if 0 < attempt then shuffleVars attempt st.1 else st.1) []
      (List.replicate teamCount []) 0).1 with _ | sol
  · rw [hres] at hp
    exact hP p hp
  · rw [hres] at hp
    have heq : cpBacktrack maxB
        (if 0 < attempt then shuffleVars attempt st.1 else st.1) []
        (List.replicate teamCount []) 0 =
        (some sol, (cpBacktrack maxB
          (if 0 < attempt then shuffleVars attempt st.1 else st.1) []
          (List.replicate teamCount []) 0).2) := by
      rw [← hres]
    have hsolnd : NodupIds sol := by
      refine cpBacktrack_nodup maxB _ _ _ _ sol _ ?_ ?_ heq
      · show (allIds (List.replicate teamCount [])).Nodup
        rw [allIds_replicate_nil]
        exact List.nodup_nil
      · intro id hid
        rw [allIds_replicate_nil] at hid
        cases hid
    dsimp only at hp
    split at hp
    · injection hp with he
      rw [← he]
      exact hsolnd
    · exact hP p hp

/-- The CP output is duplicate-free. -/
theorem cpSolve_nodup (sqrtA : ℚ → ℚ) (maxB : Nat) (comp : List (Role × Nat))
    (teamCount : Nat) (pool : PlayerPool) (w : List (Role × ℚ))
    (shuffleVars : Nat → List CPVar → List CPVar) (hw : PoolWF pool) :
    hasDuplicatePlayerIds
      (cpSolve sqrtA maxB comp teamCount pool w shuffleVars) = false := by
  unfold cpSolve
  dsimp only
  have hfold := foldl_inv
    (fun st : List CPVar × Option (List (List Slot) × ℚ) =>
      ∀ p, st.2 = some p → NodupIds p.1)
    (cpAttempt sqrtA maxB teamCount pool w shuffleVars)
    (fun st attempt hP =>
      cpAttempt_nodup sqrtA maxB teamCount pool w shuffleVars st attempt hP)
    (List.range (min 3 ((maxB + 3999) / 4000)))
    (buildCPVariables comp teamCount pool,
      (none : Option (List (List Slot) × ℚ)))
    (fun p hp => by cases hp)
  rcases hb : ((List.range (min 3 ((maxB + 3999) / 4000))).foldl
      (cpAttempt sqrtA maxB teamCount pool w shuffleVars)
      (buildCPVariables comp teamCount pool,
        (none : Option (List (List Slot) × ℚ)))).2 with _ | p
  · exact createSmartSlotSolution_nodup comp teamCount pool false _ _ hw
      (fun k l => List.Perm.refl l) (fun i k l => List.Perm.refl l)
  · rw [hasDuplicatePlayerIds_eq_false_iff]
    exact hfold p hb


/-- `allIds` through flattening. -/
theorem allIds_eq_map_flatten (teams : List (List Slot)) :
    allIds teams = teams.flatten.map (fun s => s.playerId) := by
  induction teams with
  | nil => rfl
  | cons t rest ih =>
    simp only [allIds, List.flatMap_cons, List.flatten_cons, List.map_append]
    rw [← ih]
    rfl

/-- Each leftover placement is a no-op or a single push of the slot's
candidate. -/
theorem crossoverPlace_cases (comp : List (Role × Nat)) (pool : PlayerPool)
    (slicePoint : Nat) (child : List (List Slot)) (slot : Slot) :
    crossoverPlace comp pool slicePoint child slot = child ∨
      ∃ ti p, crossoverPlace comp pool slicePoint child slot =
        pushAt child ti slot.playerId p := by
  unfold crossoverPlace
  dsimp only
  split
  · rename_i i h
    exact Or.inr ⟨i, slot.position, rfl⟩
  · split
    · rename_i ia h
      exact Or.inr ⟨ia.1, ia.2, rfl⟩
    · split
      · rename_i i h
        exact Or.inr ⟨i, slot.position, rfl⟩
      · exact Or.inl rfl

/-- Folding leftover placements keeps the child duplicate-free. -/
theorem crossoverFold_inv (comp : List (Role × Nat)) (pool : PlayerPool)
    (slicePoint : Nat) :
    ∀ (rem : List Slot) (child : List (List Slot)),
      NodupIds child → (∀ s ∈ rem, ¬ s.playerId ∈ allIds child) →
      (rem.map Slot.playerId).Nodup →
      NodupIds (rem.foldl (crossoverPlace comp pool slicePoint) child) := by
  intro rem
  induction rem with
  | nil =>
    intro child h _ _
    exact h
  | cons s rest ih =>
    intro child hnd hfr hrnd
    rw [List.map_cons, List.nodup_cons] at hrnd
    rw [List.foldl_cons]
    rcases crossoverPlace_cases comp pool slicePoint child s with heq | ⟨ti, p, heq⟩
    · rw [heq]
      exact ih child hnd (fun x hx => hfr x (List.mem_cons_of_mem _ hx)) hrnd.2
    · rw [heq]
      have hfresh : ¬ s.playerId ∈ allIds child :=
        hfr s (List.mem_cons_self _ _)
      have hp := pushAt_inv child (allIds child) s.playerId p ti hnd
        (fun id hid => hid) hfresh
      apply ih
      · exact hp.1
      · intro x hx hc
        rcases List.mem_append.mp (hp.2 x.playerId hc) with hc1 | hc1
        · exact hfr x (List.mem_cons_of_mem _ hx) hc1
        · have hxid : x.playerId = s.playerId := List.mem_singleton.mp hc1
          exact hrnd.1 (hxid ▸ List.mem_map_of_mem Slot.playerId hx)
      · exact hrnd.2

/-- A crossover child of duplicate-free parents is duplicate-free. -/
theorem slotCrossover_nodup (comp : List (Role × Nat)) (pool : PlayerPool)
    (p1 p2 : List (List Slot)) (sliceDraw : Nat)
    (h1 : NodupIds p1) (h2 : NodupIds p2) :
    NodupIds (slotCrossover comp pool p1 p2 sliceDraw) := by
  unfold slotCrossover
  dsimp only
  have hchild : allIds (cloneSlotTeams
      (p1.take (if p1.length = 0 then 0 else sliceDraw % p1.length)) ++
      List.replicate (p1.length -
        (if p1.length = 0 then 0 else sliceDraw % p1.length)) []) =
      allIds (p1.take (if p1.length = 0 then 0 else sliceDraw % p1.length)) :=
    by rw [allIds_append, cloneSlotTeams_eq, allIds_replicate_nil,
      List.append_nil]
  have hsplit : allIds p1 =
      allIds (p1.take (if p1.length = 0 then 0 else sliceDraw % p1.length)) ++
      allIds (p1.drop (if p1.length = 0 then 0 else sliceDraw % p1.length)) :=
    by rw [← allIds_append, List.take_append_drop]
  have htake : (allIds (p1.take
      (if p1.length = 0 then 0 else sliceDraw % p1.length))).Nodup := by
    have h1s := h1
    rw [NodupIds, hsplit] at h1s
    exact (List.nodup_append.mp h1s).1
  apply crossoverFold_inv
  · show (allIds _).Nodup
    rw [hchild]
    exact htake
  · intro s hs hc
    rw [hchild] at hc
    have hs0 := (List.perm_insertionSort (gaSlotOrder pool) _).mem_iff.mp hs
    rw [List.mem_filter] at hs0
    have hcf : (allIds (p1.take (if p1.length = 0 then 0
        else sliceDraw % p1.length))).contains s.playerId = false := by
      simpa using hs0.2
    have hct : (allIds (p1.take (if p1.length = 0 then 0
        else sliceDraw % p1.length))).contains s.playerId = true := by
      simpa using hc
    rw [hct] at hcf
    cases hcf
  · have hperm := (List.perm_insertionSort (gaSlotOrder pool)
      ((p2.flatten).filter (fun slot => ! (allIds (p1.take
        (if p1.length = 0 then 0 else sliceDraw % p1.length))).contains
          slot.playerId))).map Slot.playerId
    refine hperm.symm.nodup ?_
    have hsub : (((p2.flatten).filter (fun slot => ! (allIds (p1.take
        (if p1.length = 0 then 0 else sliceDraw % p1.length))).contains
          slot.playerId)).map Slot.playerId).Sublist
        ((p2.flatten).map Slot.playerId) :=
      (List.filter_sublist _).map Slot.playerId
    refine hsub.nodup ?_
    have h2s := h2
    rw [NodupIds, allIds_eq_map_flatten] at h2s
    exact h2s

/-- Tournament selection returns a listed individual or the empty
default. -/
theorem tournamentSelection_cases (scored : List (List (List Slot) × ℚ))
    (size : Nat) (draws : Nat → Nat) :
    tournamentSelection scored size draws = [] ∨
      ∃ q ∈ scored, tournamentSelection scored size draws = q.1 := by
  unfold tournamentSelection
  dsimp only
  have hstep : ∀ (acc : Option (List (List Slot) × ℚ)) (i : Nat),
      (acc = none ∨ ∃ q ∈ scored, acc = some q) →
      ((match scored[(draws i) % scored.length]? with
        | none => acc
        | some cand =>
          match acc with
          | none => some cand
          | some b => if cand.2 < b.2 then some cand else some b) = none ∨
        ∃ q ∈ scored,
          (match scored[(draws i) % scored.length]? with
          | none => acc
          | some cand =>
            match acc with
            | none => some cand
            | some b => if cand.2 < b.2 then some cand else some b) =
            some q) := by
    intro acc i h
    cases hg : scored[(draws i) % scored.length]? with
    | none => exact h
    | some cand =>
      rcases h with rfl | ⟨q, hq, rfl⟩
      · exact Or.inr ⟨cand, List.getElem?_mem hg, rfl⟩
      · dsimp only
        split
        · exact Or.inr ⟨cand, List.getElem?_mem hg, rfl⟩
        · exact Or.inr ⟨q, hq, rfl⟩
  have hf := foldl_inv
    (fun acc : Option (List (List Slot) × ℚ) =>
      acc = none ∨ ∃ q ∈ scored, acc = some q)
    (fun acc i =>
      match scored[(draws i) % scored.length]? with
      | none => acc
      | some cand =>
        match acc with
        | none => some cand
        | some b => if cand.2 < b.2 then some cand else some b)
    hstep (List.range size) none (Or.inl rfl)
  rcases hf with hnone | ⟨q, hq, hsome⟩
  · rw [hnone]
    exact Or.inl rfl
  · rw [hsome]
    exact Or.inr ⟨q, hq, rfl⟩


/-- A scored-and-sorted entry names a population member. -/
theorem mem_gaScored (sqrtA : ℚ → ℚ) (pool : PlayerPool)
    (w : List (Role × ℚ)) (population : List (List (List Slot))) :
    ∀ q ∈ gaScored sqrtA pool w population, q.1 ∈ population := by
  intro q hq
  unfold gaScored at hq
  have hq2 := (List.perm_insertionSort scoreAsc _).mem_iff.mp hq
  rcases List.mem_map.mp hq2 with ⟨ind, hind, rfl⟩
  exact hind

/-- An enumerated entry names a list member. -/
theorem mem_of_mem_enum {α : Type} {l : List α} {e : Nat × α}
    (he : e ∈ l.enum) : e.2 ∈ l := by
  obtain ⟨hlt, hs⟩ := List.mem_enum he
  rw [hs]
  exact List.getElem_mem hlt

/-- One offspring is duplicate-free. -/
theorem gaOffspring_nodup (cfg : GAConfig) (comp : List (Role × Nat))
    (teamCount : Nat) (pool : PlayerPool)
    (scored : List (List (List Slot) × ℚ)) (newPop : List (List (List Slot)))
    (d : GAOffDraw)
    (hsc : ∀ q ∈ scored, NodupIds q.1) (hw : PoolWF pool)
    (hsh : PermFn1 d.randShuffle) :
    NodupIds (gaOffspring cfg comp teamCount pool scored newPop d) := by
  have hparent : ∀ dr : Nat → Nat,
      NodupIds (tournamentSelection scored cfg.tournamentSize dr) := by
    intro dr
    rcases tournamentSelection_cases scored cfg.tournamentSize dr with
      he | ⟨q, hq, he⟩
    · rw [he]
      exact List.nodup_nil
    · rw [he]
      exact hsc q hq
  unfold gaOffspring
  dsimp only
  split
  · split
    · exact slotCrossover_nodup comp pool _ _ d.slice (hparent d.t1)
        (hparent d.t2)
    · have hr := createRandomSlotSolution_nodup comp teamCount pool
        d.randShuffle hw hsh
      rw [hasDuplicatePlayerIds_eq_false_iff] at hr
      exact hr
  · show NodupIds (cloneSlotTeams
      (tournamentSelection scored cfg.tournamentSize d.t1))
    rw [cloneSlotTeams_eq]
    exact hparent d.t1

/-- Every member of the new population is duplicate-free. -/
theorem gaNewPop_nodup (cfg : GAConfig) (comp : List (Role × Nat))
    (teamCount : Nat) (pool : PlayerPool)
    (scored : List (List (List Slot) × ℚ)) (d : GAGenDraws)
    (hsc : ∀ q ∈ scored, NodupIds q.1) (hw : PoolWF pool)
    (hoff : ∀ k, PermFn1 ((d.off k)).randShuffle) :
    ∀ m ∈ gaNewPop cfg comp teamCount pool scored d, NodupIds m := by
  unfold gaNewPop
  dsimp only
  refine foldl_inv (fun np => ∀ m ∈ np, NodupIds m)
    (fun np k => np ++ [gaOffspring cfg comp teamCount pool scored np
      (d.off k)]) ?_ _ _ ?_
  · intro np k hnp m hm
    rcases List.mem_append.mp hm with h | h
    · exact hnp m h
    · rw [List.mem_singleton.mp h]
      exact gaOffspring_nodup cfg comp teamCount pool scored np (d.off k)
        hsc hw (hoff k)
  · intro m hm
    rcases List.mem_map.mp hm with ⟨s, hs, rfl⟩
    show NodupIds (cloneSlotTeams s.1)
    rw [cloneSlotTeams_eq]
    exact hsc s (List.take_subset _ _ hs)

/-- Mutation keeps every member duplicate-free. -/
theorem gaMutate_nodup (cfg : GAConfig) (positions : List Role)
    (pool : PlayerPool) (params : AdaptiveParams) (stag : Nat)
    (d : GAGenDraws) (newPop : List (List (List Slot)))
    (hnp : ∀ m ∈ newPop, NodupIds m) :
    ∀ m ∈ gaMutate cfg positions pool params stag d newPop, NodupIds m := by
  intro m hm
  unfold gaMutate at hm
  dsimp only at hm
  rcases List.mem_map.mp hm with ⟨e, he, rfl⟩
  have hbase := hnp e.2 (mem_of_mem_enum he)
  repeat' split
  all_goals first
    | exact hbase
    | exact (nodupIds_iff_of_slotsM_eq (foldl_universal_slotsM positions pool
        params (d.mutSwaps e.1) _ e.2)).mpr hbase

/-- Stagnation injection keeps every member duplicate-free. -/
theorem gaInject_nodup (comp : List (Role × Nat)) (teamCount : Nat)
    (pool : PlayerPool) (d : GAGenDraws) (mutated : List (List (List Slot)))
    (hmut : ∀ m ∈ mutated, NodupIds m) (hw : PoolWF pool)
    (hinj : PermFn2 d.injShuffle) :
    ∀ m ∈ gaInject comp teamCount pool d mutated, NodupIds m := by
  intro m hm
  unfold gaInject at hm
  rcases List.mem_map.mp hm with ⟨e, he, rfl⟩
  split
  · have hr := createRandomSlotSolution_nodup comp teamCount pool
      (d.injShuffle e.1) hw (fun k l => hinj e.1 k l)
    rw [hasDuplicatePlayerIds_eq_false_iff] at hr
    exact hr
  · exact hmut e.2 (mem_of_mem_enum he)

/-- One generation keeps every member duplicate-free. -/
theorem gaStep_nodup (sqrtA : ℚ → ℚ) (cfg : GAConfig) (comp : List (Role × Nat))
    (teamCount : Nat) (positions : List Role) (pool : PlayerPool)
    (w : List (Role × ℚ)) (params : AdaptiveParams) (d : GAGenDraws)
    (st : GAState)
    (hpop : ∀ m ∈ st.population, NodupIds m) (hw : PoolWF pool)
    (hoff : ∀ k, PermFn1 ((d.off k)).randShuffle) (hinj : PermFn2 d.injShuffle) :
    ∀ m ∈ (gaStep sqrtA cfg comp teamCount positions pool w params d
      st).population, NodupIds m := by
  have hsc : ∀ q ∈ gaScored sqrtA pool w st.population, NodupIds q.1 :=
    fun q hq => hpop q.1 (mem_gaScored sqrtA pool w st.population q hq)
  have hnp := gaNewPop_nodup cfg comp teamCount pool
    (gaScored sqrtA pool w st.population) d hsc hw hoff
  intro m hm
  unfold gaStep at hm
  dsimp only at hm
  split at hm <;> split at hm <;>
    first
      | exact gaInject_nodup _ _ _ _ _
          (gaMutate_nodup _ _ _ _ _ _ _ hnp) hw hinj m hm
      | exact gaMutate_nodup _ _ _ _ _ _ _ hnp m hm

/-- The whole GA evolution keeps every member duplicate-free. -/
theorem gaStates_nodup (sqrtA : ℚ → ℚ) (cfg : GAConfig)
    (comp : List (Role × Nat)) (teamCount : Nat) (positions : List Role)
    (pool : PlayerPool) (w : List (Role × ℚ)) (params : AdaptiveParams)
    (ds : Nat → GAGenDraws) (init : GAState)
    (hpop : ∀ m ∈ init.population, NodupIds m) (hw : PoolWF pool)
    (hds : GADrawsOK ds) :
    ∀ g, ∀ m ∈ (gaStates sqrtA cfg comp teamCount positions pool w params ds
      init g).population, NodupIds m := by
  intro g
  induction g with
  | zero => exact hpop
  | succ k ih =>
    rw [gaStates]
    exact gaStep_nodup sqrtA cfg comp teamCount positions pool w params
      (ds k) _ ih hw (hds k).1 (hds k).2

/-- The GA output is duplicate-free when the initial population is. -/
theorem gaSolve_nodup (sqrtA : ℚ → ℚ) (cfg : GAConfig)
    (comp : List (Role × Nat)) (teamCount : Nat) (positions : List Role)
    (pool : PlayerPool) (w : List (Role × ℚ)) (params : AdaptiveParams)
    (ds : Nat → GAGenDraws) (fillShuffle : Nat → Nat → List Nat → List Nat)
    (initialPopulation : List (List (List Slot)))
    (h0 : ∀ m ∈ initialPopulation, hasDuplicatePlayerIds m = false)
    (hw : PoolWF pool) (hds : GADrawsOK ds) (hfill : PermFn2 fillShuffle) :
    hasDuplicatePlayerIds
      (gaSolve sqrtA cfg comp teamCount positions pool w params ds fillShuffle
        initialPopulation) = false := by
  have hinit : ∀ m ∈ initialPopulation ++
      (List.range (cfg.populationSize - initialPopulation.length)).map
        (fun k => createRandomSlotSolution comp teamCount pool
          (fillShuffle k)), NodupIds m := by
    intro m hm
    rcases List.mem_append.mp hm with h | h
    · have := h0 m h
      rw [hasDuplicatePlayerIds_eq_false_iff] at this
      exact this
    · rcases List.mem_map.mp h with ⟨k, _, rfl⟩
      have hr := createRandomSlotSolution_nodup comp teamCount pool
        (fillShuffle k) hw (fun i l => hfill k i l)
      rw [hasDuplicatePlayerIds_eq_false_iff] at hr
      exact hr
  have hfinal := gaStates_nodup sqrtA cfg comp teamCount positions pool w
    params ds ⟨initialPopulation ++
      (List.range (cfg.populationSize - initialPopulation.length)).map
        (fun k => createRandomSlotSolution comp teamCount pool
          (fillShuffle k)), none, 0⟩ hinit hw hds cfg.generationCount
  rw [hasDuplicatePlayerIds_eq_false_iff]
  unfold gaSolve
  dsimp only
  cases hhead : gaScored sqrtA pool w (gaStates sqrtA cfg comp teamCount
      positions pool w params ds ⟨initialPopulation ++
        (List.range (cfg.populationSize - initialPopulation.length)).map
          (fun k => createRandomSlotSolution comp teamCount pool
            (fillShuffle k)), none, 0⟩ cfg.generationCount).population with
  | nil => exact List.nodup_nil
  | cons q rest =>
    have hqmem : q ∈ gaScored sqrtA pool w (gaStates sqrtA cfg comp teamCount
        positions pool w params ds ⟨initialPopulation ++
          (List.range (cfg.populationSize - initialPopulation.length)).map
            (fun k => createRandomSlotSolution comp teamCount pool
              (fillShuffle k)), none, 0⟩ cfg.generationCount).population := by
      rw [hhead]
      exact List.mem_cons_self _ _
    exact hfinal q.1 (mem_gaScored sqrtA pool w _ q hqmem)


/-- Indexing one id keeps every bucket repetition-free. -/
theorem indexAdd_wf (idx : List (Role × List Nat)) (pos : Role) (pid : Nat)
    (h : ∀ e ∈ idx, e.2.Nodup) : ∀ e ∈ indexAdd idx pos pid, e.2.Nodup := by
  intro e he
  unfold indexAdd at he
  dsimp only at he
  have hidx : ∀ e0 ∈ (if (idx.find? (fun e => decide (e.1 = pos))).isSome
      then idx else idx ++ [(pos, [])]), e0.2.Nodup := by
    intro e0 he0
    split at he0
    · exact h e0 he0
    · rcases List.mem_append.mp he0 with h1 | h1
      · exact h e0 h1
      · rw [List.mem_singleton.mp h1]
        exact List.nodup_nil
  rcases List.mem_map.mp he with ⟨e0, he0, rfl⟩
  have he0nd := hidx e0 he0
  by_cases hp : e0.1 = pos
  · rw [if_pos hp]
    dsimp only
    by_cases hc : e0.2.contains pid = true
    · rw [if_pos hc]
      exact he0nd
    · rw [if_neg hc]
      refine List.nodup_append.mpr ⟨he0nd, List.nodup_singleton pid, ?_⟩
      intro a ha hb
      rw [List.mem_singleton.mp hb] at ha
      have : e0.2.contains pid = true := by simpa using ha
      exact hc this
  · rw [if_neg hp]
    exact he0nd

/-- Adding a candidate keeps the pool well-formed. -/
theorem addPlayer_wf (pool : PlayerPool) (p : Player) (h : PoolWF pool) :
    PoolWF (addPlayer pool p) := by
  unfold addPlayer PoolWF
  dsimp only
  exact foldl_inv (fun idx : List (Role × List Nat) => ∀ e ∈ idx, e.2.Nodup)
    (fun idx pos => indexAdd idx pos p.id)
    (fun idx pos hidx => indexAdd_wf idx pos p.id hidx)
    p.positions pool.playersByPosition h

/-- The constructor fold yields a well-formed pool. -/
theorem buildPool_go_wf :
    ∀ (ps : List Player) (acc pool : PlayerPool), PoolWF acc →
      ps.foldlM (fun pool p =>
        if p.id = 0 then
          Except.error ('P' :: "layer must have an id".toList)
        else Except.ok (addPlayer pool p)) acc = Except.ok pool →
      PoolWF pool := by
  intro ps
  induction ps with
  | nil =>
    intro acc pool h heq
    rw [List.foldlM_nil] at heq
    injection heq with h2
    rw [← h2]
    exact h
  | cons p rest ih =>
    intro acc pool h heq
    rw [List.foldlM_cons] at heq
    split at heq
    · exact Except.noConfusion heq
    · exact ih _ pool (addPlayer_wf acc p h) heq

/-- Every pool built by `buildPool` is well-formed. -/
theorem buildPool_wf (ps : List Player) (pool : PlayerPool)
    (h : buildPool ps = Except.ok pool) : PoolWF pool := by
  unfold buildPool at h
  exact buildPool_go_wf ps ⟨[], []⟩ pool (fun e he => by cases he) h


/-- **C1** (No-duplicate invariant).  Pools built by the `PlayerPool`
constructor are well-formed; every assignment produced on a well-formed pool
by any of the five seed generators (with the jittered JavaScript sorts
modelled as arbitrary permutation-producing reorder functions), every member
of the seed portfolio `generateInitialSlotSolutions`, every assignment
obtained from a duplicate-free assignment by any finite sequence of
perturbation operators, and the final output of each of the six search
algorithms (local search, simulated annealing, tabu search, genetic
algorithm, ant colony, constraint backtracking — the last three given
well-formed pools and permutation-producing draws, the first three given a
duplicate-free initial assignment) satisfies
`hasDuplicatePlayerIds _ = false`: no candidate id occupies more than one
slot across all groups. -/
theorem no_duplicate_invariant :
    (∀ (ps : List Player) (pool : PlayerPool),
      buildPool ps = Except.ok pool → PoolWF pool) ∧
    (∀ comp teamCount (pool : PlayerPool) randomize reorderIds1 reorderIds2,
      PoolWF pool → PermFn1 reorderIds1 → PermFn2 reorderIds2 →
      hasDuplicatePlayerIds (createSmartSlotSolution comp teamCount pool
        randomize reorderIds1 reorderIds2) = false) ∧
    (∀ comp teamCount (pool : PlayerPool) randomize reorderOrder reorderIds,
      PoolWF pool → PermFn1 reorderIds →
      hasDuplicatePlayerIds (createGreedySlotSolution comp teamCount pool
        randomize reorderOrder reorderIds) = false) ∧
    (∀ comp teamCount (pool : PlayerPool) randomize reorderOrder reorderIds
        offChoice,
      PoolWF pool → PermFn1 reorderIds →
      hasDuplicatePlayerIds (createBalancedSlotSolution comp teamCount pool
        randomize reorderOrder reorderIds offChoice) = false) ∧
    (∀ comp teamCount (pool : PlayerPool) randomize reorderOrder reorderIds
        coin,
      PoolWF pool → PermFn1 reorderIds →
      hasDuplicatePlayerIds (createSnakeDraftSlotSolution comp teamCount pool
        randomize reorderOrder reorderIds coin) = false) ∧
    (∀ comp teamCount (pool : PlayerPool) shuffleIds,
      PoolWF pool → PermFn1 shuffleIds →
      hasDuplicatePlayerIds (createRandomSlotSolution comp teamCount pool
        shuffleIds) = false) ∧
    (∀ comp teamCount (pool : PlayerPool) ch,
      PoolWF pool → GenChoicesOK ch →
      ∀ sol ∈ generateInitialSlotSolutions comp teamCount pool ch,
        hasDuplicatePlayerIds sol = false) ∧
    (∀ (pool : PlayerPool) ops teams,
      hasDuplicatePlayerIds teams = false →
      hasDuplicatePlayerIds (applyPerturbs pool ops teams) = false) ∧
    (∀ sqrtA iterations positions (pool : PlayerPool) w params chs
        initialSolution,
      hasDuplicatePlayerIds initialSolution = false →
      hasDuplicatePlayerIds (lsSolve sqrtA iterations positions pool w params
        chs initialSolution) = false) ∧
    (∀ sqrtA expA cfg positions (pool : PlayerPool) w params chs
        initialSolution,
      hasDuplicatePlayerIds initialSolution = false →
      hasDuplicatePlayerIds (saSolve sqrtA expA cfg positions pool w params
        chs initialSolution) = false) ∧
    (∀ sqrtA cfg positions (pool : PlayerPool) w params chs initialSolution,
      hasDuplicatePlayerIds initialSolution = false →
      hasDuplicatePlayerIds (tabuSolve sqrtA cfg positions pool w params chs
        initialSolution) = false) ∧
    (∀ sqrtA cfg comp teamCount positions (pool : PlayerPool) w params ds
        fillShuffle initialPopulation,
      (∀ m ∈ initialPopulation, hasDuplicatePlayerIds m = false) →
      PoolWF pool → GADrawsOK ds → PermFn2 fillShuffle →
      hasDuplicatePlayerIds (gaSolve sqrtA cfg comp teamCount positions pool
        w params ds fillShuffle initialPopulation) = false) ∧
    (∀ sqrtA cfg powA comp teamCount (pool : PlayerPool) w d,
      PoolWF pool → ACODrawsOK d →
      hasDuplicatePlayerIds (acoSolve sqrtA cfg powA comp teamCount pool w d)
        = false) ∧
    (∀ sqrtA maxB comp teamCount (pool : PlayerPool) w shuffleVars,
      PoolWF pool →
      hasDuplicatePlayerIds (cpSolve sqrtA maxB comp teamCount pool w
        shuffleVars) = false) :=
  ⟨buildPool_wf,
   fun _ _ _ _ _ _ hw h1 h2 =>
     createSmartSlotSolution_nodup _ _ _ _ _ _ hw h1 h2,
   fun _ _ _ _ _ _ hw h1 =>
     createGreedySlotSolution_nodup _ _ _ _ _ _ hw h1,
   fun _ _ _ _ _ _ _ hw h1 =>
     createBalancedSlotSolution_nodup _ _ _ _ _ _ _ hw h1,
   fun _ _ _ _ _ _ _ hw h1 =>
     createSnakeDraftSlotSolution_nodup _ _ _ _ _ _ _ hw h1,
   fun _ _ _ _ hw h1 => createRandomSlotSolution_nodup _ _ _ _ hw h1,
   fun _ _ _ _ hw hch => generateInitialSlotSolutions_nodup _ _ _ _ hw hch,
   fun pool ops teams h => by
     rw [hasDup_of_slotsM_eq (applyPerturbs_preserves pool ops teams).1]
     exact h,
   fun _ _ _ _ _ _ _ _ h => lsSolve_nodup _ _ _ _ _ _ _ _ h,
   fun _ _ _ _ _ _ _ _ _ h => saSolve_nodup _ _ _ _ _ _ _ _ _ h,
   fun _ _ _ _ _ _ _ _ h => tabuSolve_nodup _ _ _ _ _ _ _ _ h,
   fun _ _ _ _ _ _ _ _ _ _ _ h0 hw hds hfill =>
     gaSolve_nodup _ _ _ _ _ _ _ _ _ _ _ h0 hw hds hfill,
   fun _ _ _ _ _ _ _ _ hw hd => acoSolve_nodup _ _ _ _ _ _ _ _ hw hd,
   fun _ _ _ _ _ _ _ hw => cpSolve_nodup _ _ _ _ _ _ _ hw⟩

/-- Concrete instantiation of the no-duplicate invariant: a two-candidate
pool built by the constructor is well-formed, the random generator on it
with the identity shuffle produces a duplicate-free assignment, and the
empty perturbation sequence keeps a duplicate-free assignment
duplicate-free. -/
theorem no_duplicate_invariant_witness :
    PoolWF (⟨[(1, ⟨1, [['A']], none⟩), (2, ⟨2, [['A']], none⟩)],
      [(['A'], [1, 2])]⟩ : PlayerPool) ∧
    hasDuplicatePlayerIds (createRandomSlotSolution [(['A'], 1)] 2
      (⟨[(1, ⟨1, [['A']], none⟩), (2, ⟨2, [['A']], none⟩)],
        [(['A'], [1, 2])]⟩ : PlayerPool) (fun _ l => l)) = false ∧
    hasDuplicatePlayerIds (applyPerturbs
      (⟨[(1, ⟨1, [['A']], none⟩), (2, ⟨2, [['A']], none⟩)],
        [(['A'], [1, 2])]⟩ : PlayerPool) []
      [[⟨1, ['A']⟩], [⟨2, ['A']⟩]]) = false :=
  ⟨no_duplicate_invariant.1 [⟨1, [['A']], none⟩, ⟨2, [['A']], none⟩] _ rfl,
   no_duplicate_invariant.2.2.2.2.2.1 [(['A'], 1)] 2 _ (fun _ l => l)
     (by decide) (fun k l => List.Perm.refl l),
   no_duplicate_invariant.2.2.2.2.2.2.2.1 _ [] _ (by decide)⟩

end TeamOptimizer
